import Mathlib

/-!
Verification of parallel-labs: the matrix transpose service (lab4), the transpose
benchmark (`main.cpp`) and the reductions over odd elements (lab2).

Shallow embedding of `src/lab4/server.cpp`, `src/lab4/client.cpp`, `src/main.cpp` and
`src/lab2/main.cpp`.

* `std::vector<std::vector<int>>` is `List (List Int)`; `a[i][j]` is `cell a i j`.
* Loops `for (x = lo; x < hi; x++)` are folds over `List.range' lo (hi - lo)`.
* Row indices and sizes are `Nat`; the thread count stays an `Int` because the code tests
  it against `1` before dividing by it. Where the code multiplies `int`s taken from the
  wire the products wrap to 32 bits (`wrap32`).
* A `std::string` and every buffer is a `List Byte`; a socket is a `Sock`, which records
  what is still to arrive, what was sent, and how much each `send` call takes.
* Threads are interleaved at the grain of one handled command and one dispatcher step
  (`Session.step`); the workers of one `transpose_multi` call run in an arbitrary order.
-/

set_option linter.unnecessarySeqFocus false
set_option maxRecDepth 100000

namespace ParallelLabs

/-! ## Matrices -/

/-- The C++ `vector<vector<int>>`. -/
abbrev Matrix := List (List Int)

/-- Read of `a[i][j]`. -/
def cell (a : Matrix) (i j : Nat) : Int := (a.getD i []).getD j 0

/-- Write `a[i][j] = v`. -/
def setCell (a : Matrix) (i j : Nat) (v : Int) : Matrix :=
  a.set i ((a.getD i []).set j v)

/-- The call `swap(a[i][j], a[j][i])`. -/
def swapCells (a : Matrix) (i j : Nat) : Matrix :=
  let x := cell a i j
  let y := cell a j i
  setCell (setCell a i j y) j i x

/-- Inner loop of `transpose_part`: `for (j = i + 1; j < n; j++) swap(a[i][j], a[j][i])`. -/
def transpose_row (a : Matrix) (n i : Nat) : Matrix :=
  (List.range' (i + 1) (n - (i + 1))).foldl (fun acc j => swapCells acc i j) a

/-- The function `transpose_part(a, n, start_i, end_i)` (server.cpp 75-79, main.cpp 20-26). -/
def transpose_part (a : Matrix) (n start_i end_i : Nat) : Matrix :=
  (List.range' start_i (end_i - start_i)).foldl (fun acc i => transpose_row acc n i) a

/-- The spawning loop of `transpose_multi` (server.cpp 93-100, main.cpp 33-41), from
iteration `t` with `current` rows already handed out; `fuel` is `threads_num - t`.
It returns the `(start_i, end_i)` arguments of the workers it creates. -/
def spawnLoop (base extra : Nat) : Nat → Nat → Nat → List (Nat × Nat)
  | 0, _, _ => []
  | fuel + 1, t, current =>
    let count := base + (if t < extra then 1 else 0)
    let start_i := current
    let end_i := current + count
    if start_i ≥ end_i then []
    else (start_i, end_i) :: spawnLoop base extra fuel (t + 1) end_i

/-- The workers `transpose_multi` creates for `n` rows and `threads_num` threads:
`base = n / threads_num`, `extra = n % threads_num`. -/
def spawnedChunks (n threads_num : Nat) : List (Nat × Nat) :=
  spawnLoop (n / threads_num) (n % threads_num) threads_num 0 0

/-- Running the worker threads one after the other in the order `order`. -/
def runWorkers (a : Matrix) (n : Nat) (order : List (Nat × Nat)) : Matrix :=
  order.foldl (fun acc w => transpose_part acc n w.1 w.2) a

/-- The function `transpose_multi(a, threads_num)` of server.cpp (81-102), with the
workers run to completion in the order `order` (a rearrangement of the spawned ones). -/
def transpose_multi_in (order : List (Nat × Nat)) (a : Matrix) (threads_num : Int) : Matrix :=
  let n := a.length
  if n = 0 then a
  else if threads_num ≤ 1 then transpose_part a n 0 n
  else runWorkers a n order

/-- The function `transpose_multi` of server.cpp with the workers run in spawning order. -/
def transpose_multi (a : Matrix) (threads_num : Int) : Matrix :=
  transpose_multi_in (spawnedChunks a.length threads_num.toNat) a threads_num

/-- The function `transpose_multi(a, n, threads_num)` of main.cpp (27-45): no guard on
`n` or `threads_num`, workers run in the order `order`. -/
def transpose_multi_main_in (order : List (Nat × Nat)) (a : Matrix) (n : Nat) : Matrix :=
  runWorkers a n order

/-- The function `transpose_multi` of main.cpp with the workers run in spawning order. -/
def transpose_multi_main (a : Matrix) (n threads_num : Nat) : Matrix :=
  transpose_multi_main_in (spawnedChunks n threads_num) a n

/-- The function `is_transposed_ok(orig, trans, n)` of main.cpp (9-18). -/
def is_transposed_ok (orig trans : Matrix) (n : Nat) : Bool :=
  (List.range n).all (fun i => (List.range n).all (fun j => cell orig i j == cell trans j i))

/-- An `n x n` matrix: `n` rows of `n` entries. -/
def IsSquare (a : Matrix) (n : Nat) : Prop :=
  a.length = n ∧ ∀ r ∈ a, r.length = n

/-- The cells `transpose_part(a, n, start_i, end_i)` reads and writes, in program order:
each `swap(a[i][j], a[j][i])` touches `(i, j)` and `(j, i)`. -/
def touchedCells (n start_i end_i : Nat) : List (Nat × Nat) :=
  (List.range' start_i (end_i - start_i)).flatMap fun i =>
    (List.range' (i + 1) (n - (i + 1))).flatMap fun j => [(i, j), (j, i)]

/-- Cell `(p, q)` lies off the diagonal of the `n x n` matrix and its smaller index is a
row of `[s, e)`. -/
def Owns (n s e p q : Nat) : Prop :=
  s ≤ min p q ∧ min p q < e ∧ p ≠ q ∧ p < n ∧ q < n

instance (n s e p q : Nat) : Decidable (Owns n s e p q) := by
  unfold Owns; infer_instance

/-- Closed form of the value of `current` at the top of iteration `t` of the spawning
loop (used only in proofs; the loop itself is `spawnLoop`). -/
def chunkStart (base extra t : Nat) : Nat := t * base + min t extra

/-- Number of iterations of the spawning loop that create a worker, out of `fuel`
remaining ones from iteration `t` on (used only in proofs). -/
def spawnCount (base extra fuel t : Nat) : Nat :=
  if base = 0 then min fuel (extra - t) else fuel

/-- Two row ranges `[c.1, c.2)` and `[d.1, d.2)` share no row. -/
def RowDisjoint (c d : Nat × Nat) : Prop :=
  ∀ i, ¬ (c.1 ≤ i ∧ i < c.2 ∧ d.1 ≤ i ∧ i < d.2)

instance (a : Matrix) (n : Nat) : Decidable (IsSquare a n) := by
  unfold IsSquare; infer_instance

/-! ## Bytes, 32-bit integers and sockets -/

/-- One octet on the wire or in memory. -/
abbrev Byte := Fin 256

/-- The bytes of an ASCII string literal (a C++ `std::string` is a byte string). -/
def bytesOf (s : String) : List Byte := s.toList.map fun c => Fin.ofNat c.toNat

/-- The four bytes a `uint32_t` holding `htonl(x)` occupies in memory: `x` big-endian. -/
def htonl (x : Nat) : List Byte :=
  [Fin.ofNat (x / 2 ^ 24), Fin.ofNat (x / 2 ^ 16), Fin.ofNat (x / 2 ^ 8), Fin.ofNat x]

/-- The value `ntohl` returns for a `uint32_t` whose memory holds the bytes `bs` (the first
four are used; bytes the buffer never received read as the zero it was initialised to). -/
def ntohl (bs : List Byte) : Nat :=
  (bs.getD 0 0).val * 2 ^ 24 + (bs.getD 1 0).val * 2 ^ 16 + (bs.getD 2 0).val * 2 ^ 8
    + (bs.getD 3 0).val

/-- Conversion of a `uint32_t` value to `int` (two's complement). -/
def toInt32 (u : Nat) : Int :=
  if u % 2 ^ 32 < 2 ^ 31 then (u % 2 ^ 32 : Nat) else (u % 2 ^ 32 : Nat) - 2 ^ 32

/-- Result of 32-bit `int` arithmetic whose exact value is `x` (wrap-around). -/
def wrap32 (x : Int) : Int := toInt32 (x % 2 ^ 32).toNat

/-- Element `i` of an `int32_t` buffer holding the received bytes `buf`, after `ntohl`. -/
def wordAt (buf : List Byte) (i : Nat) : Nat := ntohl (buf.drop (4 * i))

/-- A connected TCP socket as the program sees it.
`rx` is the data still to arrive, in the fragments `recv` will deliver it in (none left:
the peer has closed). `tx` is everything handed to the peer so far. `quota k` is the number
of bytes the `k`-th call of `send` may take (`0`: that call fails); `sends` counts the
calls made. -/
structure Sock where
  rx : List (List Byte)
  tx : List Byte
  quota : Nat → Nat
  sends : Nat

/-- The call `recv(s, buf, len, 0)`: delivers at most `len` bytes of the first pending
fragment; an empty result is the return value `0`. -/
def recv (s : Sock) (len : Nat) : List Byte × Sock :=
  match s.rx with
  | [] => ([], s)
  | f :: rest =>
    (f.take len, { s with rx := if (f.drop len).isEmpty then rest else f.drop len :: rest })

/-- The call `send(s, data, len, 0)`: returns the number of bytes taken, or `-1`. -/
def send (s : Sock) (data : List Byte) : Int × Sock :=
  let q := s.quota s.sends
  if q = 0 then (-1, { s with sends := s.sends + 1 })
  else
    let n := min q data.length
    ((n : Int), { s with tx := s.tx ++ data.take n, sends := s.sends + 1 })

/-- Result of `recvAll`: return value, bytes stored into the buffer, socket afterwards. -/
structure Recv where
  ret : Int
  buf : List Byte
  sock : Sock

/-- The loop of `recvAll` (server.cpp 40-45) with `received = buf.length`; every pass
stores at least one byte, so `length` passes are enough and `fuel` starts there. -/
def recvLoop (length : Int) : Nat → Sock → List Byte → Recv
  | 0, s, buf => ⟨if (buf.length : Int) < length then -1 else buf.length, buf, s⟩
  | fuel + 1, s, buf =>
    if (buf.length : Int) < length then
      let r := recv s (length - buf.length).toNat
      if (r.1.length : Int) ≤ 0 then ⟨-1, buf, r.2⟩
      else recvLoop length fuel r.2 (buf ++ r.1)
    else ⟨buf.length, buf, s⟩

/-- The function `recvAll(s, buffer, length)` (server.cpp 38-46, client.cpp 27-35). -/
def recvAll (s : Sock) (length : Int) : Recv := recvLoop length length.toNat s []

/-- The loop of `sendAll` (server.cpp 50-55); every pass sends at least one byte. -/
def sendLoop (data : List Byte) : Nat → Sock → Nat → Int × Sock
  | 0, s, sent => (if sent < data.length then -1 else (sent : Int), s)
  | fuel + 1, s, sent =>
    if sent < data.length then
      let r := send s (data.drop sent)
      if r.1 ≤ 0 then (-1, r.2)
      else sendLoop data fuel r.2 (sent + r.1.toNat)
    else ((sent : Int), s)

/-- The function `sendAll(s, data, length)` (server.cpp 48-56, client.cpp 37-45). -/
def sendAll (s : Sock) (data : List Byte) : Int × Sock := sendLoop data data.length s 0

/-! ## Command frames -/

/-- Value of `sizeof(CommandPacket)`: a `uint32_t` and `char[256]`. -/
def sizeofCommandPacket : Nat := 260

/-- Memory image of the `CommandPacket pkt{}` that `sendCommand` fills for `cmd`:
`htonl(size)`, the bytes of `cmd`, and the zeros left by the value-initialisation. -/
def packet (cmd : List Byte) : List Byte :=
  htonl (cmd.length % 2 ^ 32) ++ cmd ++ List.replicate (256 - cmd.length) 0

/-- The function `sendCommand(s, cmd)` (server.cpp 58-64, client.cpp 47-53). -/
def sendCommand (s : Sock) (cmd : List Byte) : Bool × Sock :=
  if cmd.length > 256 then (false, s)
  else
    let r := sendAll s (packet cmd)
    (r.1 == (sizeofCommandPacket : Int), r.2)

/-- Result of `receiveCommand`: return value, the caller's `outCmd` afterwards, socket. -/
structure Received where
  ok : Bool
  outCmd : List Byte
  sock : Sock

/-- The function `receiveCommand(s, outCmd)` (server.cpp 66-73, client.cpp 55-62). -/
def receiveCommand (s : Sock) (outCmd : List Byte) : Received :=
  let r := recvAll s sizeofCommandPacket
  if r.ret ≠ (sizeofCommandPacket : Int) then ⟨false, outCmd, r.sock⟩
  else
    let len := ntohl r.buf
    if len > 256 then ⟨false, outCmd, r.sock⟩
    else ⟨true, (r.buf.drop 4).take len, r.sock⟩

/-- Every call of `send` on the socket takes at least one byte. -/
def Sock.Healthy (s : Sock) : Prop := ∀ k, 0 < s.quota k

/-- A sample socket: nothing pending, nothing sent, `send` takes 3 bytes per call. -/
def demoSock : Sock := ⟨[], [], fun _ => 3, 0⟩

/-- A sample socket on which the frame of `HI` arrives in two fragments. -/
def demoRecvSock : Sock :=
  ⟨[htonl 2, [72, 73] ++ List.replicate 254 0], [], fun _ => 3, 0⟩

/-! ## Session state and the server command loop (server.cpp) -/

/-- A measured elapsed time. The program holds it as a `double` and only ever shows
`std::to_string` of it, so the model carries a measurement as that rendering. -/
structure Seconds where
  text : List Byte
deriving DecidableEq

/-- The struct `ClientTask` (server.cpp 28-34). -/
structure ClientTask where
  baseMatrix : Matrix
  threadConfigs : List Int
  times : List Seconds
  currentIndex : Nat
  isProcessing : Bool
deriving DecidableEq

/-- The value `ClientTask{}` stored when a client connects (server.cpp 133). -/
def ClientTask.fresh : ClientTask := ⟨[], [], [], 0, false⟩

/-- `std::to_string` of an integer. -/
def to_string (n : Int) : List Byte := bytesOf (toString n)

/-- Conversion of an `int` to `uint32_t`. -/
def toUInt32 (x : Int) : Nat := (x % 2 ^ 32).toNat

/-- `v.resize(k)` on a `vector<int>`. -/
def vector_resize (v : List Int) (k : Nat) : List Int :=
  v.take k ++ List.replicate (k - v.length) 0

/-- The loop of server.cpp 153-156 over the received buffer `cfgNet`:
`threadConfigs[i] = ntohl(cfgNet[i]); if (threadConfigs[i] <= 0) threadConfigs[i] = 1;`. -/
def readConfigs (threadConfigs : List Int) (cfgCount : Nat) (cfgNet : List Byte) : List Int :=
  (List.range cfgCount).foldl (fun acc i =>
    let acc1 := acc.set i (toInt32 (wordAt cfgNet i))
    if acc1.getD i 0 ≤ 0 then acc1.set i 1 else acc1) threadConfigs

/-- The loops of server.cpp 161-164 over the received buffer `flat`:
`baseMatrix[i][j] = ntohl(flat[idx++])`. The pair carries the matrix and `idx`. (For
`n >= 65536` the source reads `flat` past its end; the model reads zeros there.) -/
def fillMatrix (a : Matrix) (n : Nat) (flat : List Byte) : Matrix :=
  ((List.range n).foldl (fun (st : Matrix × Nat) i =>
    (List.range n).foldl (fun (st : Matrix × Nat) j =>
      (setCell st.1 i j (toInt32 (wordAt flat st.2)), st.2 + 1)) st) (a, 0)).1

/-- What one pass of the `while (receiveCommand(cs, cmd))` loop leaves behind: the session,
the socket, whether the loop goes on (`false`: `break`, exception or failed receive, after
which the socket is closed) and whether a dispatcher thread was created. -/
structure Step where
  ct : ClientTask
  sock : Sock
  alive : Bool
  spawned : Bool

/-- Branch `HELLO` (server.cpp 137-138). -/
def onHello (ct : ClientTask) (sock : Sock) : Step :=
  ⟨ct, (sendCommand sock (bytesOf "WELCOME")).2, true, false⟩

/-- Branch `UPLOAD_MATRIX` (server.cpp 139-165). `int` products wrap to 32 bits; a negative
size makes the `vector` constructor or `resize` throw `std::length_error`, which the
`catch (...)` of `serveClient` turns into leaving the loop. -/
def onUploadMatrix (ct : ClientTask) (sock : Sock) : Step :=
  let r1 := recvAll sock 12
  if r1.ret ≠ 12 then ⟨ct, r1.sock, false, false⟩
  else
    let n : Int := toInt32 (ntohl r1.buf)
    let cfgCount : Int := toInt32 (ntohl (r1.buf.drop 4))
    let bytes : Int := toInt32 (ntohl (r1.buf.drop 8))
    if bytes ≠ wrap32 (wrap32 (n * n) * 4) then ⟨ct, r1.sock, false, false⟩
    else if n < 0 then ⟨ct, r1.sock, false, false⟩
    else
      let ct1 := { ct with baseMatrix := List.replicate n.toNat (List.replicate n.toNat 0) }
      if cfgCount < 0 then ⟨ct1, r1.sock, false, false⟩
      else
        let ct2 := { ct1 with threadConfigs := vector_resize ct1.threadConfigs cfgCount.toNat }
        let r2 := recvAll r1.sock (wrap32 (cfgCount * 4))
        if r2.ret ≠ wrap32 (cfgCount * 4) then ⟨ct2, r2.sock, false, false⟩
        else
          let ct3 := { ct2 with
            threadConfigs := readConfigs ct2.threadConfigs cfgCount.toNat r2.buf }
          let total : Int := wrap32 (n * n)
          if total < 0 then ⟨ct3, r2.sock, false, false⟩
          else
            let r3 := recvAll r2.sock (wrap32 (total * 4))
            if r3.ret ≠ wrap32 (total * 4) then ⟨ct3, r3.sock, false, false⟩
            else
              let ct4 := { ct3 with baseMatrix := fillMatrix ct3.baseMatrix n.toNat r3.buf }
              ⟨ct4, (sendCommand r3.sock (bytesOf "MATRIX_RECEIVED")).2, true, false⟩

/-- Branch `START_TRANSPOSE` (server.cpp 166-177). -/
def onStartTranspose (ct : ClientTask) (sock : Sock) : Step :=
  if ct.baseMatrix.isEmpty || ct.threadConfigs.isEmpty then
    ⟨ct, (sendCommand sock (bytesOf "ERROR: NO DATA")).2, true, false⟩
  else if ct.isProcessing then
    ⟨ct, (sendCommand sock (bytesOf "ERROR: ALREADY")).2, true, false⟩
  else
    ⟨ct, (sendCommand sock (bytesOf "TRANSPOSE_STARTED")).2, true, true⟩

/-- Branch `REQUEST_STATUS` (server.cpp 178-186). -/
def onRequestStatus (ct : ClientTask) (sock : Sock) : Step :=
  if !ct.isProcessing then
    ⟨ct, (sendCommand sock (bytesOf "STATUS: FINISHED")).2, true, false⟩
  else
    let s := bytesOf "STATUS: " ++ to_string (ct.currentIndex + 1 : Nat) ++ bytesOf "/"
      ++ to_string (ct.threadConfigs.length : Nat)
    ⟨ct, (sendCommand sock s).2, true, false⟩

/-- One line of the report: `to_string(threadConfigs[i]) + " threads: " +
to_string(times[i]) + " s\n"`. (Where `times` is shorter than `threadConfigs` the source
reads `times[i]` past its end; the model reads an empty rendering there.) -/
def reportLine (ct : ClientTask) (i : Nat) : List Byte :=
  to_string (ct.threadConfigs.getD i 0) ++ bytesOf " threads: "
    ++ (ct.times.getD i ⟨[]⟩).text ++ bytesOf " s\n"

/-- The string `report` built by server.cpp 193-197. -/
def buildReport (ct : ClientTask) : List Byte :=
  (List.range ct.threadConfigs.length).foldl (fun report i => report ++ reportLine ct i)
    (bytesOf "RESULT:\n" ++ (bytesOf "Matrix " ++ to_string (ct.baseMatrix.length : Nat)
      ++ bytesOf "x" ++ to_string (ct.baseMatrix.length : Nat) ++ bytesOf "\n"))

/-- Branch `REQUEST_RESULTS` (server.cpp 187-198). -/
def onRequestResults (ct : ClientTask) (sock : Sock) : Step :=
  if ct.times.isEmpty then
    ⟨ct, (sendCommand sock (bytesOf "ERROR: NO RESULTS")).2, true, false⟩
  else
    ⟨ct, (sendCommand sock (buildReport ct)).2, true, false⟩

/-- Branch `QUIT` (server.cpp 199-201). -/
def onQuit (ct : ClientTask) (sock : Sock) : Step :=
  ⟨ct, (sendCommand sock (bytesOf "BYE")).2, false, false⟩

/-- The final `else` (server.cpp 202-204). -/
def onUnknown (ct : ClientTask) (sock : Sock) : Step :=
  ⟨ct, (sendCommand sock (bytesOf "ERROR")).2, true, false⟩

/-- The `if / else if` chain of `serveClient` on a decoded command. -/
def handleCommand (cmd : List Byte) (ct : ClientTask) (sock : Sock) : Step :=
  if cmd = bytesOf "HELLO" then onHello ct sock
  else if cmd = bytesOf "UPLOAD_MATRIX" then onUploadMatrix ct sock
  else if cmd = bytesOf "START_TRANSPOSE" then onStartTranspose ct sock
  else if cmd = bytesOf "REQUEST_STATUS" then onRequestStatus ct sock
  else if cmd = bytesOf "REQUEST_RESULTS" then onRequestResults ct sock
  else if cmd = bytesOf "QUIT" then onQuit ct sock
  else onUnknown ct sock

/-- One pass of the loop of `serveClient` (server.cpp 136-205). -/
def serveClient_step (ct : ClientTask) (sock : Sock) : Step :=
  let r := receiveCommand sock []
  if r.ok then handleCommand r.outCmd ct r.sock
  else ⟨ct, r.sock, false, false⟩

/-! ## The job dispatcher (`processingThreadFunc`) -/

/-- Where a dispatcher thread stands: created but not yet run, about to test
`i < threadConfigs.size()` for pass `i` of its loop, or returned. -/
inductive DispatcherPc where
  | entry
  | pass (i : Nat)
  | finished
deriving DecidableEq

/-- Result of one dispatcher step; `work` is the local matrix after `transpose_multi`
when the step was a pass of the loop. -/
structure DispatcherStep where
  pc : DispatcherPc
  ct : ClientTask
  sock : Sock
  work : Option Matrix

/-- One step of `processingThreadFunc` (server.cpp 104-129): from `entry` lines 105-114,
from `pass i` lines 115-126 for that `i`, or lines 127-128 when the loop is over. `sec` is
the time the clock measures for the pass. -/
def processingThreadFunc_step (pc : DispatcherPc) (ct : ClientTask) (sock : Sock) (sec : Seconds) :
    DispatcherStep :=
  match pc with
  | .entry =>
    if ct.baseMatrix.length = 0 ∨ ct.threadConfigs.isEmpty then
      ⟨.finished, { ct with isProcessing := false },
        (sendCommand sock (bytesOf "ERROR: NO DATA")).2, none⟩
    else
      ⟨.pass 0, { ct with times := [], currentIndex := 0, isProcessing := true }, sock, none⟩
  | .pass i =>
    if i < ct.threadConfigs.length then
      let threads_num := ct.threadConfigs.getD i 0
      let work := transpose_multi ct.baseMatrix threads_num
      let info := bytesOf "INFO: threads=" ++ to_string threads_num ++ bytesOf ", time="
        ++ sec.text ++ bytesOf " s"
      ⟨.pass (i + 1), { ct with currentIndex := i, times := ct.times ++ [sec] },
        (sendCommand sock info).2, some work⟩
    else
      ⟨.finished, { ct with isProcessing := false },
        (sendCommand sock (bytesOf "TRANSPOSE_COMPLETED")).2, none⟩
  | .finished => ⟨.finished, ct, sock, none⟩

/-! ## A session: the command loop interleaved with its dispatcher threads -/

/-- One connection: its `ClientTask`, its socket, whether the command loop is still
running, and the dispatcher threads created so far. -/
structure Session where
  ct : ClientTask
  sock : Sock
  alive : Bool
  dispatchers : List DispatcherPc

/-- What happens next: the command loop handles the next frame, or dispatcher thread `k`
takes its next step (measuring `sec` if the step is a pass). -/
inductive Event where
  | command
  | dispatcher (k : Nat) (sec : Seconds)

/-- The state when `serveClient` enters its loop. -/
def Session.start (sock : Sock) : Session := ⟨ClientTask.fresh, sock, true, []⟩

/-- One scheduling step. -/
def Session.step (s : Session) : Event → Session
  | .command =>
    if s.alive then
      let r := serveClient_step s.ct s.sock
      ⟨r.ct, r.sock, r.alive, if r.spawned then s.dispatchers ++ [.entry] else s.dispatchers⟩
    else s
  | .dispatcher k sec =>
    match s.dispatchers[k]? with
    | none => s
    | some pc =>
      let r := processingThreadFunc_step pc s.ct s.sock sec
      ⟨r.ct, r.sock, s.alive, s.dispatchers.set k r.pc⟩

/-- A schedule run from a state. -/
def Session.run (s : Session) (es : List Event) : Session := es.foldl Session.step s

/-- Number of dispatcher threads that have not returned. -/
def Session.activeDispatchers (s : Session) : Nat :=
  (s.dispatchers.filter fun pc => pc ≠ .finished).length

/-! ## The upload phase of the client (client.cpp 105-122) -/

/-- The bytes the client emits for `sendCommand("UPLOAD_MATRIX")`, the header, the
configuration list and the row-major matrix, on a socket that takes everything. -/
def clientUploadBytes (n : Int) (cfg : List Int) (matrix : Matrix) : List Byte :=
  packet (bytesOf "UPLOAD_MATRIX")
    ++ (htonl (toUInt32 n) ++ htonl (cfg.length % 2 ^ 32) ++ htonl (toUInt32 (wrap32 (wrap32 (n * n) * 4))))
    ++ (cfg.map fun c => htonl (toUInt32 c)).flatten
    ++ (matrix.map fun row => (row.map fun v => htonl (toUInt32 v)).flatten).flatten

/-! ## The report as the specification words it -/

/-- The `RESULT:` text of the specification: the header with the matrix size, then one
line per configuration, in submission order, each with that configuration's recorded
time. -/
def reportText (n : Nat) (configs : List Int) (times : List Seconds) : List Byte :=
  bytesOf "RESULT:\n" ++ (bytesOf "Matrix " ++ to_string (n : Nat) ++ bytesOf "x"
    ++ to_string (n : Nat) ++ bytesOf "\n")
  ++ ((configs.zip times).map fun p =>
        to_string p.1 ++ bytesOf " threads: " ++ p.2.text ++ bytesOf " s\n").flatten

/-! ## Concrete inputs used by the closed theorems below -/

/-- An upload header announcing `n = 32768`, no configuration and `0` matrix bytes. -/
def wrappedHeader : List Byte := htonl 32768 ++ htonl 0 ++ htonl 0

/-- A socket on which exactly `wrappedHeader` is pending. -/
def wrappedUploadSock : Sock := ⟨[wrappedHeader], [], fun _ => 260, 0⟩

/-- The frames of a 1 x 1 upload with configuration list `[1]`, then `START_TRANSPOSE`
twice, as the client would emit them. -/
def raceInput : List Byte :=
  clientUploadBytes 1 [1] [[5]] ++ packet (bytesOf "START_TRANSPOSE")
    ++ packet (bytesOf "START_TRANSPOSE")

/-- A socket on which `raceInput` is pending. -/
def raceSock : Sock := ⟨[raceInput], [], fun _ => 260, 0⟩

/-- The frames of a 1 x 1 upload with configuration list `[1]`, `START_TRANSPOSE`, an
upload of the 0 x 0 matrix with no configuration, and `START_TRANSPOSE` again. -/
def emptiedInput : List Byte :=
  clientUploadBytes 1 [1] [[5]] ++ packet (bytesOf "START_TRANSPOSE")
    ++ clientUploadBytes 0 [] [] ++ packet (bytesOf "START_TRANSPOSE")

/-- A socket on which `emptiedInput` is pending. -/
def emptiedSock : Sock := ⟨[emptiedInput], [], fun _ => 260, 0⟩

/-- The session reached from `emptiedSock` once the first upload and `START_TRANSPOSE`
are handled, the dispatcher has run its entry step and the second upload is handled. -/
def emptiedBusy : Session :=
  (Session.start emptiedSock).run
    [Event.command, Event.command, Event.dispatcher 0 ⟨[]⟩, Event.command]

/-- A finished session with twelve configurations and twelve recorded times. -/
def twelveRuns : ClientTask :=
  ⟨[[0]], List.replicate 12 1, List.replicate 12 ⟨bytesOf "0.000001"⟩, 11, false⟩

/-- A busy session holding a 1 x 1 matrix and one configuration. -/
def busyTask : ClientTask := ⟨[[5]], [1], [], 0, true⟩

/-- A finished session with two configurations and their two recorded times. -/
def twoRuns : ClientTask :=
  ⟨[[1, 2], [3, 4]], [1, 2], [⟨bytesOf "0.000003"⟩, ⟨bytesOf "0.000120"⟩], 1, false⟩

/-- The frames of a 1 x 1 upload with configuration list `[1]`, `START_TRANSPOSE`, a second
upload (matrix `[[7]]`, configuration list `[3]`) and `REQUEST_RESULTS`. -/
def reuploadInput : List Byte :=
  clientUploadBytes 1 [1] [[5]] ++ packet (bytesOf "START_TRANSPOSE")
    ++ clientUploadBytes 1 [3] [[7]] ++ packet (bytesOf "REQUEST_RESULTS")

/-- A socket on which `reuploadInput` is pending. -/
def reuploadSock : Sock := ⟨[reuploadInput], [], fun _ => 260, 0⟩

/-- The session reached from `reuploadSock` once the first upload and `START_TRANSPOSE`
are handled and the dispatcher has run its entry step: a run is in progress. -/
def reuploadBusy : Session :=
  (Session.start reuploadSock).run [Event.command, Event.command, Event.dispatcher 0 ⟨[]⟩]

/-- The session reached from `reuploadSock` once the first upload and `START_TRANSPOSE`
are handled and the dispatcher has run to its end, measuring `0.000004` s. -/
def reuploadDone : Session :=
  (Session.start reuploadSock).run
    [Event.command, Event.command, Event.dispatcher 0 ⟨[]⟩,
      Event.dispatcher 0 ⟨bytesOf "0.000004"⟩, Event.dispatcher 0 ⟨[]⟩]

/-- A session holding a 2 x 2 matrix, two configurations and stale cursor and timings. -/
def staleTask : ClientTask :=
  ⟨[[1, 2], [3, 4]], [2, 1], [⟨bytesOf "9.000000"⟩], 7, false⟩

/-- The session `reuploadDone` once the command loop has handled the second upload. -/
def reuploaded : Session := reuploadDone.step Event.command

/-- A clock measuring `0.5` s for every pass. -/
def demoClock : Nat → Seconds := fun _ => ⟨bytesOf "0.5"⟩

/-! ## A dispatcher thread run alone -/

/-- Result of running `processingThreadFunc` alone: where the thread stands, the session,
the socket, and the local `work` matrices of its passes, in order. -/
structure DispatcherRun where
  pc : DispatcherPc
  ct : ClientTask
  sock : Sock
  works : List Matrix

/-- The pass a dispatcher step belongs to (`0` outside the loop). -/
def DispatcherPc.index : DispatcherPc → Nat
  | DispatcherPc.pass i => i
  | _ => 0

/-- Steps of one dispatcher thread with no other thread in between, at most `fuel` of them;
`clock i` is the time the clock measures for pass `i`. -/
def runDispatcher (clock : Nat → Seconds) :
    Nat → DispatcherPc → ClientTask → Sock → List Matrix → DispatcherRun
  | 0, pc, ct, sock, works => ⟨pc, ct, sock, works⟩
  | fuel + 1, pc, ct, sock, works =>
    if pc = DispatcherPc.finished then ⟨pc, ct, sock, works⟩
    else
      let r := processingThreadFunc_step pc ct sock (clock pc.index)
      runDispatcher clock fuel r.pc r.ct r.sock (works ++ r.work.toList)

/-- The function `processingThreadFunc(cs)` (server.cpp 104-129) run from its first
statement with no other thread in between: the entry step, one step per configuration
and the step that leaves the loop. -/
def processingThreadFunc (clock : Nat → Seconds) (ct : ClientTask) (sock : Sock) :
    DispatcherRun :=
  runDispatcher clock (ct.threadConfigs.length + 2) DispatcherPc.entry ct sock []

/-! ## The upload as the client sends it (client.cpp 105-122) -/

/-- A value of type `int`. -/
def IsInt32 (v : Int) : Prop := -2 ^ 31 ≤ v ∧ v < 2 ^ 31

instance (v : Int) : Decidable (IsInt32 v) := by
  unfold IsInt32; infer_instance

/-- Memory image of a `vector<int32_t>` filled with `htonl(v)` for each `v` of `l`. -/
def encodeInts (l : List Int) : List Byte := (l.map fun v => htonl (toUInt32 v)).flatten

/-- Memory image of the `MatrixUploadInfo hdr` the client fills (client.cpp 106-109). -/
def uploadHeader (n : Int) (cfg : List Int) : List Byte :=
  htonl (toUInt32 n) ++ htonl (cfg.length % 2 ^ 32)
    ++ htonl (toUInt32 (wrap32 (wrap32 (n * n) * 4)))

/-- The call `sendAll(s, buffer, length)` with a `length` that is not the size of the
buffer: the bytes sent are the first `length` ones (none when `length <= 0`). -/
def sendAllN (s : Sock) (buffer : List Byte) (length : Int) : Int × Sock :=
  sendAll s (buffer.take length.toNat)

/-- Conversion of a `size_t` byte count to the `int length` parameter of `sendAll`. -/
def sizeToInt (x : Nat) : Int := toInt32 (x % 2 ^ 64)

/-- The upload phase of the client's `main` (client.cpp 105-122) for dimension `n`,
configurations `cfg` and matrix `matrix`, on socket `s`. -/
def clientUpload (s : Sock) (n : Int) (cfg : List Int) (matrix : Matrix) : Sock :=
  let s1 := (sendCommand s (bytesOf "UPLOAD_MATRIX")).2
  let s2 := (sendAllN s1 (uploadHeader n cfg) 12).2
  let cfgNet := encodeInts cfg
  let s3 := (sendAllN s2 cfgNet (sizeToInt (cfg.length * 4))).2
  let flat := encodeInts matrix.flatten
  (sendAllN s3 flat (sizeToInt (matrix.flatten.length * 4))).2

/-- The clamp of server.cpp 155: values `<= 0` become `1`. -/
def clampThreads (v : Int) : Int := if v ≤ 0 then 1 else v

/-! ## Concrete uploads used by the closed theorems below -/

/-- A configuration list of `2 ^ 30` entries, all `5`. -/
def hugeConfig : List Int := 5 :: List.replicate 1073741823 5

/-- A socket on which an upload of the 0 x 0 matrix with the configuration list
`hugeConfig` is pending: header, then the `2 ^ 30` configuration words. -/
def hugeConfigSock : Sock :=
  ⟨[uploadHeader 0 hugeConfig ++ encodeInts hugeConfig], [], fun _ => 260, 0⟩

/-- A configuration list of `2 ^ 29` entries, all `1`. -/
def manyConfigs : List Int := 1 :: List.replicate 536870911 1

/-- The server-side socket on which the bytes the client emits for the 0 x 0 matrix and the
configuration list `manyConfigs` are pending. -/
def manyConfigsSock : Sock :=
  ⟨[(clientUpload demoSock 0 manyConfigs []).tx], [], fun _ => 260, 0⟩

/-- The server-side socket on which the bytes the client emits for the matrix
`[[1, 2], [3, 4]]` and the configuration list `[2, 1]` are pending. -/
def smallUploadSock : Sock :=
  ⟨[(clientUpload demoSock 2 [2, 1] [[1, 2], [3, 4]]).tx], [], fun _ => 7, 0⟩

/-- A socket on which the body of an upload of `[[7]]` with the configuration list
`[2, -3]` is pending (the `UPLOAD_MATRIX` frame already read). -/
def clampUploadSock : Sock :=
  ⟨[uploadHeader 1 [2, -3], encodeInts [2, -3] ++ encodeInts [7]], [], fun _ => 7, 0⟩

/-! ## lab2: sum and minimum of the odd elements (`src/lab2/main.cpp`)

The array is a `List Int` read with `getD`; `long long` additions wrap to 64 bits and
`size_t` arithmetic is taken modulo `2 ^ 64`. -/

/-- Result of `size_t` arithmetic whose exact value is `x`. -/
def sizeT (x : Nat) : Nat := x % 2 ^ 64

/-- The number of threads: `if (threadsCount < 1) threadsCount = 1;`. -/
def threadTotal (threadsCount : Int) : Nat :=
  (if threadsCount < 1 then 1 else threadsCount).toNat

/-- The line `size_t chunk = (n + threadsCount - 1) / threadsCount;` for a thread count
already raised to at least one. -/
def chunkSize (n threads : Nat) : Nat := sizeT (n + threads - 1) / threads

/-- The function `isOdd(x)`: `x % 2 != 0` with C++ truncating remainder. -/
def isOdd (x : Int) : Bool := Int.tmod x 2 != 0

/-- The constant `INT_MAX`. -/
def INT_MAX : Int := 2147483647

/-- The struct `Result` (main.cpp 15-18). -/
structure Result where
  sum : Int
  minOdd : Int
deriving DecidableEq

/-- Result of `long long` arithmetic whose exact value is `x` (wrap-around). -/
def wrap64 (x : Int) : Int := (x + 2 ^ 63) % 2 ^ 64 - 2 ^ 63

/-- The loop body shared by the three functions:
`if (isOdd(a[i])) { r.sum += a[i]; r.minOdd = min(r.minOdd, a[i]); }`. -/
def accumulate (r : Result) (x : Int) : Result :=
  if isOdd x then ⟨wrap64 (r.sum + x), min r.minOdd x⟩ else r

/-- The loop `for (i = L; i < R; ++i)` over `a` from a default-initialised `Result`
(the worker lambdas, main.cpp 48-53 and 85-92). -/
def scan (a : List Int) (L R : Nat) : Result :=
  (List.range' L (R - L)).foldl (fun r i => accumulate r (a.getD i 0)) ⟨0, INT_MAX⟩

/-- The function `sequential(a, n)` (main.cpp 20-28). -/
def sequential (a : List Int) (n : Nat) : Result :=
  (List.range n).foldl (fun r i => accumulate r (a.getD i 0)) ⟨0, INT_MAX⟩

/-- The function `parallel_mutex(a, n, threadsCount)` (main.cpp 30-65), the worker threads
reaching the end of their lambda (the locked merge) in the order `order`. -/
def parallel_mutex_in (order : List Nat) (a : List Int) (n : Nat) (threadsCount : Int) : Result :=
  let chunk := chunkSize n (threadTotal threadsCount)
  order.foldl (fun global t =>
    let L := sizeT (t * chunk)
    let R := min n (sizeT (L + chunk))
    if L ≥ n then global
    else
      let loc := scan a L R
      ⟨wrap64 (global.sum + loc.sum), min global.minOdd loc.minOdd⟩) ⟨0, INT_MAX⟩

/-- The function `parallel_mutex` with the threads merging in creation order. -/
def parallel_mutex (a : List Int) (n : Nat) (threadsCount : Int) : Result :=
  parallel_mutex_in (List.range (threadTotal threadsCount)) a n threadsCount

/-- The loop `while (localMin < current && !minOdd.compare_exchange_weak(current, localMin))`
run with no other thread in between, on a `minOdd` holding `v`: the exchange fails
spuriously `spurious` times, each time reloading `current`, then succeeds. The value is
what `minOdd` holds afterwards. -/
def casLoop : Nat → Int → Int → Int
  | 0, v, localMin => if localMin < v then localMin else v
  | spurious + 1, v, localMin => if localMin < v then casLoop spurious v localMin else v

/-- The function `parallel_atomic(a, n, threadsCount)` (main.cpp 67-112): the `fetch_add`s
on `sum` take effect in the order `orderSum`, the compare-exchange loops on `minOdd` in the
order `orderMin`, and thread `t` meets `spurious t` spurious failures. -/
def parallel_atomic_in (orderSum orderMin : List Nat) (spurious : Nat → Nat) (a : List Int)
    (n : Nat) (threadsCount : Int) : Result :=
  let chunk := chunkSize n (threadTotal threadsCount)
  let sum := orderSum.foldl (fun s t =>
    let L := sizeT (t * chunk)
    let R := min n (sizeT (L + chunk))
    if L ≥ n then s else wrap64 (s + (scan a L R).sum)) 0
  let minOdd := orderMin.foldl (fun m t =>
    let L := sizeT (t * chunk)
    let R := min n (sizeT (L + chunk))
    if L ≥ n then m else casLoop (spurious t) m (scan a L R).minOdd) INT_MAX
  ⟨sum, minOdd⟩

/-- The function `parallel_atomic` with the threads taking effect in creation order and no
spurious failure. -/
def parallel_atomic (a : List Int) (n : Nat) (threadsCount : Int) : Result :=
  parallel_atomic_in (List.range (threadTotal threadsCount))
    (List.range (threadTotal threadsCount)) (fun _ => 0) a n threadsCount

/-- The odd elements among `a[L], ..., a[R - 1]` (used only in proofs). -/
def oddsIn (a : List Int) (L R : Nat) : List Int :=
  ((List.range' L (R - L)).map fun i => a.getD i 0).filter isOdd

/-- The closed form of the fold of `min` from `m` over `l` (used only in proofs). -/
def minWith (m : Int) (l : List Int) : Int := l.foldl min m

/-- A sample array with four odd elements, for closed examples. -/
def oddsDemo : List Int := [3, -5, 4, 7, 8, -1, 2]

/-! ## Cell-level facts about `setCell` and `swapCells` -/

theorem IsSquare.setCell {a : Matrix} {n : Nat} (h : IsSquare a n) (i j : Nat) (v : Int) :
    IsSquare (setCell a i j v) n := by
  obtain ⟨hl, hr⟩ := h
  refine ⟨by simp [ParallelLabs.setCell, hl], ?_⟩
  intro r hr'
  unfold ParallelLabs.setCell at hr'
  rcases List.mem_or_eq_of_mem_set hr' with hm | he
  · exact hr r hm
  · subst he
    rw [List.length_set]
    by_cases hi : i < a.length
    · rw [List.getD_eq_getElem _ _ hi]
      exact hr _ (List.getElem_mem hi)
    · simp only [not_lt] at hi
      rw [List.set_eq_of_length_le hi] at hr'
      rw [List.getD_eq_default _ _ hi] at hr' ⊢
      exact hr _ hr'

theorem cell_setCell {a : Matrix} {n : Nat} (h : IsSquare a n) {i j : Nat}
    (hi : i < n) (hj : j < n) (v : Int) (p q : Nat) :
    cell (setCell a i j v) p q = if p = i ∧ q = j then v else cell a p q := by
  obtain ⟨hl, hr⟩ := h
  have hia : i < a.length := by omega
  have hrow : (a.getD i []).length = n := by
    rw [List.getD_eq_getElem _ _ hia]; exact hr _ (List.getElem_mem hia)
  unfold cell ParallelLabs.setCell
  by_cases hp : p = i
  · subst hp
    have : (a.set p ((a.getD p []).set j v)).getD p [] = (a.getD p []).set j v := by
      simp [List.getD_eq_getElem?_getD, hia]
    rw [this]
    generalize a.getD p [] = row at hrow
    by_cases hq : q = j
    · subst hq
      simp [List.getD_eq_getElem?_getD, hrow, hj]
    · have hq' : j ≠ q := fun e => hq e.symm
      simp [List.getD_eq_getElem?_getD, hq, List.getElem?_set_ne hq']
  · have hp' : i ≠ p := fun e => hp e.symm
    simp [List.getD_eq_getElem?_getD, hp, List.getElem?_set_ne hp']

theorem IsSquare.swapCells {a : Matrix} {n : Nat} (h : IsSquare a n) (i j : Nat) :
    IsSquare (swapCells a i j) n := by
  unfold ParallelLabs.swapCells
  exact (h.setCell _ _ _).setCell _ _ _

theorem cell_swapCells {a : Matrix} {n : Nat} (h : IsSquare a n) {i j : Nat}
    (hi : i < n) (hj : j < n) (p q : Nat) :
    cell (swapCells a i j) p q =
      if p = j ∧ q = i then cell a i j
      else if p = i ∧ q = j then cell a j i
      else cell a p q := by
  unfold ParallelLabs.swapCells
  simp only
  rw [cell_setCell (h.setCell _ _ _) hj hi, cell_setCell h hi hj]

/-! ## What `transpose_part` does to every cell -/

theorem transpose_row_steps {a : Matrix} {n : Nat} (h : IsSquare a n) (i : Nat) :
    ∀ m, i + 1 + m ≤ n →
      IsSquare ((List.range' (i + 1) m).foldl (fun acc j => swapCells acc i j) a) n ∧
      ∀ p q, cell ((List.range' (i + 1) m).foldl (fun acc j => swapCells acc i j) a) p q =
        if p = i ∧ i < q ∧ q < i + 1 + m then cell a q i
        else if q = i ∧ i < p ∧ p < i + 1 + m then cell a i p
        else cell a p q := by
  intro m
  induction m with
  | zero =>
    intro _
    refine ⟨by simpa using h, fun p q => ?_⟩
    have h1 : ¬ (p = i ∧ i < q ∧ q < i + 1 + 0) := by omega
    have h2 : ¬ (q = i ∧ i < p ∧ p < i + 1 + 0) := by omega
    simp [h1, h2]
  | succ m ih =>
    intro hm
    obtain ⟨hsq, hc⟩ := ih (by omega)
    rw [List.range'_concat, List.foldl_append]
    simp only [List.foldl_cons, List.foldl_nil, one_mul]
    refine ⟨hsq.swapCells _ _, fun p q => ?_⟩
    rw [cell_swapCells hsq (by omega) (by omega), hc, hc, hc]
    split_ifs <;> first | rfl | (exfalso; omega) | (congr 1 <;> omega)

theorem transpose_row_spec {a : Matrix} {n : Nat} (h : IsSquare a n) {i : Nat} (hi : i < n) :
    IsSquare (transpose_row a n i) n ∧
    ∀ p q, cell (transpose_row a n i) p q =
      if p = i ∧ i < q ∧ q < n then cell a q i
      else if q = i ∧ i < p ∧ p < n then cell a i p
      else cell a p q := by
  have key := transpose_row_steps h i (n - (i + 1)) (by omega)
  have e : i + 1 + (n - (i + 1)) = n := by omega
  rw [e] at key
  exact key

theorem transpose_part_steps {a : Matrix} {n : Nat} (h : IsSquare a n) (s : Nat) :
    ∀ m, s + m ≤ n →
      IsSquare ((List.range' s m).foldl (fun acc i => transpose_row acc n i) a) n ∧
      ∀ p q, cell ((List.range' s m).foldl (fun acc i => transpose_row acc n i) a) p q =
        if Owns n s (s + m) p q then cell a q p else cell a p q := by
  intro m
  induction m with
  | zero =>
    intro _
    refine ⟨by simpa using h, fun p q => ?_⟩
    have h1 : ¬ Owns n s (s + 0) p q := by unfold Owns; omega
    rw [if_neg h1]; rfl
  | succ m ih =>
    intro hm
    obtain ⟨hsq, hc⟩ := ih (by omega)
    rw [List.range'_concat, List.foldl_append]
    simp only [List.foldl_cons, List.foldl_nil, one_mul]
    obtain ⟨hsq', hc'⟩ := transpose_row_spec hsq (i := s + m) (by omega)
    refine ⟨hsq', fun p q => ?_⟩
    rw [hc', hc, hc, hc]
    unfold Owns
    split_ifs <;> first | rfl | (exfalso; omega) | (congr 1 <;> omega)

theorem transpose_part_spec {a : Matrix} {n : Nat} (h : IsSquare a n) {s e : Nat}
    (he : e ≤ n) :
    IsSquare (transpose_part a n s e) n ∧
    ∀ p q, cell (transpose_part a n s e) p q =
      if Owns n s e p q then cell a q p else cell a p q := by
  by_cases hse : s ≤ e
  · have key := transpose_part_steps h s (e - s) (by omega)
    have e1 : s + (e - s) = e := by omega
    rw [e1] at key
    exact key
  · have e0 : e - s = 0 := by omega
    refine ⟨by simpa [transpose_part, e0] using h, fun p q => ?_⟩
    have h1 : ¬ Owns n s e p q := by unfold Owns; omega
    simp [transpose_part, e0, h1]

/-! ## The spawning loop in closed form -/

theorem chunkStart_succ (base extra t : Nat) :
    chunkStart base extra (t + 1) = chunkStart base extra t + (base + if t < extra then 1 else 0) := by
  unfold chunkStart
  rw [Nat.succ_mul]
  split_ifs <;> omega

theorem chunkStart_mono (base extra : Nat) {u v : Nat} (h : u ≤ v) :
    chunkStart base extra u ≤ chunkStart base extra v := by
  induction v with
  | zero =>
    have : u = 0 := by omega
    subst this; exact le_refl _
  | succ v ih =>
    by_cases huv : u = v + 1
    · subst huv; exact le_refl _
    · have := ih (by omega)
      rw [chunkStart_succ]
      omega

theorem spawnLoop_eq (base extra : Nat) :
    ∀ fuel t, spawnLoop base extra fuel t (chunkStart base extra t) =
      (List.range' t (spawnCount base extra fuel t)).map
        (fun u => (chunkStart base extra u, chunkStart base extra (u + 1))) := by
  intro fuel
  induction fuel with
  | zero =>
    intro t
    have : spawnCount base extra 0 t = 0 := by unfold spawnCount; split_ifs <;> omega
    simp [spawnLoop, this]
  | succ fuel ih =>
    intro t
    unfold spawnLoop
    simp only
    by_cases hc : base + (if t < extra then 1 else 0) = 0
    · have h0 : spawnCount base extra (fuel + 1) t = 0 := by
        unfold spawnCount; split_ifs at hc ⊢ <;> omega
      have hge : chunkStart base extra t ≥ chunkStart base extra t + (base + if t < extra then 1 else 0) := by
        omega
      rw [if_pos hge, h0]; rfl
    · have h1 : spawnCount base extra (fuel + 1) t = spawnCount base extra fuel (t + 1) + 1 := by
        unfold spawnCount; split_ifs at hc ⊢ <;> omega
      have hlt : ¬ chunkStart base extra t ≥
          chunkStart base extra t + (base + if t < extra then 1 else 0) := by omega
      rw [if_neg hlt, h1, ← chunkStart_succ, ih (t + 1), List.range'_succ]
      simp [chunkStart_succ]

theorem spawnCount_spawned (n k : Nat) (hk : 1 ≤ k) :
    spawnCount (n / k) (n % k) k 0 = min n k := by
  unfold spawnCount
  by_cases h : n / k = 0
  · rw [if_pos h]
    have hlt : n < k := (Nat.div_eq_zero_iff (by omega)).1 h
    rw [Nat.mod_eq_of_lt hlt]; omega
  · rw [if_neg h]
    have : k ≤ n := by
      by_contra hc
      exact h (Nat.div_eq_of_lt (by omega))
    omega

theorem spawnedChunks_eq (n k : Nat) (hk : 1 ≤ k) :
    spawnedChunks n k = (List.range' 0 (min n k)).map
      (fun u => (chunkStart (n / k) (n % k) u, chunkStart (n / k) (n % k) (u + 1))) := by
  unfold spawnedChunks
  have h0 : chunkStart (n / k) (n % k) 0 = 0 := by simp [chunkStart]
  have := spawnLoop_eq (n / k) (n % k) k 0
  rw [h0, spawnCount_spawned n k hk] at this
  exact this

theorem chunkStart_last (n k : Nat) (hk : 1 ≤ k) :
    chunkStart (n / k) (n % k) (min n k) = n := by
  unfold chunkStart
  by_cases h : n < k
  · rw [Nat.div_eq_of_lt h, Nat.mod_eq_of_lt h]
    simp [le_of_lt h]
  · have hkn : k ≤ n := by omega
    have hm : n % k < k := Nat.mod_lt _ (by omega)
    rw [Nat.min_eq_right hkn, Nat.min_eq_right (le_of_lt hm)]
    exact Nat.div_add_mod n k

theorem chunk_nonempty (n k : Nat) {u : Nat} (hu : u < min n k) :
    chunkStart (n / k) (n % k) u < chunkStart (n / k) (n % k) (u + 1) := by
  rw [chunkStart_succ]
  by_cases h : n < k
  · have : u < n % k := by rw [Nat.mod_eq_of_lt h]; omega
    rw [if_pos this]
    generalize n / k = b
    omega
  · have : 0 < n / k := Nat.div_pos (by omega) (by omega)
    omega

theorem chunk_cover (base extra : Nat) :
    ∀ L i, i < chunkStart base extra L →
      ∃ u, u < L ∧ chunkStart base extra u ≤ i ∧ i < chunkStart base extra (u + 1) := by
  intro L
  induction L with
  | zero => intro i hi; simp [chunkStart] at hi
  | succ L ih =>
    intro i hi
    by_cases h : i < chunkStart base extra L
    · obtain ⟨u, hu, h1, h2⟩ := ih i h
      exact ⟨u, by omega, h1, h2⟩
    · exact ⟨L, by omega, by omega, hi⟩

/-! ## Running the workers of one `transpose_multi` call -/

theorem RowDisjoint.symm {c d : Nat × Nat} (h : RowDisjoint c d) : RowDisjoint d c := by
  intro i hi
  exact h i ⟨hi.2.2.1, hi.2.2.2, hi.1, hi.2.1⟩

theorem Owns.swap {n s e p q : Nat} (h : Owns n s e p q) : Owns n s e q p := by
  unfold Owns at h ⊢
  omega

theorem Owns.not_of_rowDisjoint {n : Nat} {c d : Nat × Nat} (hcd : RowDisjoint c d) {p q : Nat}
    (hc : Owns n c.1 c.2 p q) : ¬ Owns n d.1 d.2 p q := by
  intro hd
  exact hcd (min p q) ⟨hc.1, hc.2.1, hd.1, hd.2.1⟩

theorem runWorkers_spec {n : Nat} :
    ∀ (cs : List (Nat × Nat)) (a : Matrix), IsSquare a n → (∀ c ∈ cs, c.2 ≤ n) →
      cs.Pairwise RowDisjoint →
      IsSquare (runWorkers a n cs) n ∧
      ∀ p q, cell (runWorkers a n cs) p q =
        if ∃ c ∈ cs, Owns n c.1 c.2 p q then cell a q p else cell a p q := by
  intro cs
  induction cs with
  | nil =>
    intro a h _ _
    exact ⟨h, fun p q => by simp [runWorkers]⟩
  | cons c cs ih =>
    intro a h hle hpw
    obtain ⟨hsq, hc⟩ := transpose_part_spec h (s := c.1) (hle c (List.mem_cons_self _ _))
    rw [List.pairwise_cons] at hpw
    obtain ⟨hsq', hc'⟩ := ih (transpose_part a n c.1 c.2) hsq
      (fun d hd => hle d (List.mem_cons_of_mem _ hd)) hpw.2
    have hrun : runWorkers a n (c :: cs) = runWorkers (transpose_part a n c.1 c.2) n cs := rfl
    rw [hrun]
    refine ⟨hsq', fun p q => ?_⟩
    rw [hc', hc, hc]
    by_cases hex : ∃ d ∈ cs, Owns n d.1 d.2 p q
    · obtain ⟨d, hd, hown⟩ := hex
      have hnc : ¬ Owns n c.1 c.2 q p := fun ho =>
        Owns.not_of_rowDisjoint (hpw.1 d hd) ho.swap hown
      have hex' : ∃ d ∈ c :: cs, Owns n d.1 d.2 p q := ⟨d, List.mem_cons_of_mem _ hd, hown⟩
      rw [if_pos ⟨d, hd, hown⟩, if_neg hnc, if_pos hex']
    · rw [if_neg hex]
      by_cases ho : Owns n c.1 c.2 p q
      · rw [if_pos ho, if_pos ⟨c, List.mem_cons_self _ _, ho⟩]
      · have hex' : ¬ ∃ d ∈ c :: cs, Owns n d.1 d.2 p q := by
          rintro ⟨d, hd, hown⟩
          rcases List.mem_cons.1 hd with e | hd'
          · subst e; exact ho hown
          · exact hex ⟨d, hd', hown⟩
        rw [if_neg ho, if_neg hex']

theorem mem_spawnedChunks {n k : Nat} (hk : 1 ≤ k) {c : Nat × Nat} :
    c ∈ spawnedChunks n k ↔ ∃ u, u < min n k ∧
      c = (chunkStart (n / k) (n % k) u, chunkStart (n / k) (n % k) (u + 1)) := by
  rw [spawnedChunks_eq n k hk, List.mem_map]
  constructor
  · rintro ⟨u, hu, rfl⟩
    rw [List.mem_range'_1] at hu
    exact ⟨u, by omega, rfl⟩
  · rintro ⟨u, hu, rfl⟩
    exact ⟨u, by rw [List.mem_range'_1]; omega, rfl⟩

theorem spawnedChunks_le {n k : Nat} (hk : 1 ≤ k) : ∀ c ∈ spawnedChunks n k, c.2 ≤ n := by
  intro c hc
  obtain ⟨u, hu, rfl⟩ := (mem_spawnedChunks hk).1 hc
  have := chunkStart_mono (n / k) (n % k) (show u + 1 ≤ min n k by omega)
  rw [chunkStart_last n k hk] at this
  exact this

theorem spawnedChunks_pairwise (n k : Nat) : (spawnedChunks n k).Pairwise RowDisjoint := by
  by_cases hk : 1 ≤ k
  · rw [spawnedChunks_eq n k hk, List.pairwise_map]
    refine List.Pairwise.imp ?_ (List.pairwise_lt_range' 0 (min n k))
    intro u v huv i hi
    have := chunkStart_mono (n / k) (n % k) (show u + 1 ≤ v by omega)
    simp only at hi
    omega
  · have : k = 0 := by omega
    subst this
    exact List.Pairwise.nil

theorem spawnedChunks_cover {n k : Nat} (hk : 1 ≤ k) {i : Nat} (hi : i < n) :
    ∃ c ∈ spawnedChunks n k, c.1 ≤ i ∧ i < c.2 := by
  have hi' : i < chunkStart (n / k) (n % k) (min n k) := by rw [chunkStart_last n k hk]; exact hi
  obtain ⟨u, hu, h1, h2⟩ := chunk_cover _ _ _ _ hi'
  exact ⟨_, (mem_spawnedChunks hk).2 ⟨u, hu, rfl⟩, h1, h2⟩

/-- Effect of the workers of one run, executed in any order, on every cell. -/
theorem runWorkers_perm_spec {n k : Nat} (hk : 1 ≤ k) {a : Matrix} (h : IsSquare a n)
    {order : List (Nat × Nat)} (hp : order.Perm (spawnedChunks n k)) :
    IsSquare (runWorkers a n order) n ∧
    ∀ p q, cell (runWorkers a n order) p q =
      if p ≠ q ∧ p < n ∧ q < n then cell a q p else cell a p q := by
  have hle : ∀ c ∈ order, c.2 ≤ n := fun c hc => spawnedChunks_le hk c (hp.mem_iff.1 hc)
  have hpw : order.Pairwise RowDisjoint :=
    (hp.pairwise_iff (fun h => RowDisjoint.symm h)).2 (spawnedChunks_pairwise n k)
  obtain ⟨hsq, hc⟩ := runWorkers_spec order a h hle hpw
  refine ⟨hsq, fun p q => ?_⟩
  rw [hc]
  by_cases hpq : p ≠ q ∧ p < n ∧ q < n
  · have hmin : min p q < n := by omega
    obtain ⟨c, hcm, h1, h2⟩ := spawnedChunks_cover hk hmin
    have hex : ∃ c ∈ order, Owns n c.1 c.2 p q :=
      ⟨c, hp.mem_iff.2 hcm, h1, h2, hpq.1, hpq.2.1, hpq.2.2⟩
    rw [if_pos hex, if_pos hpq]
  · have hex : ¬ ∃ c ∈ order, Owns n c.1 c.2 p q := by
      rintro ⟨c, _, ho⟩
      exact hpq ⟨ho.2.2.1, ho.2.2.2.1, ho.2.2.2.2⟩
    rw [if_neg hex, if_neg hpq]

theorem transpose_part_full {a : Matrix} {n : Nat} (h : IsSquare a n) :
    IsSquare (transpose_part a n 0 n) n ∧
    ∀ p q, cell (transpose_part a n 0 n) p q =
      if p ≠ q ∧ p < n ∧ q < n then cell a q p else cell a p q := by
  obtain ⟨hsq, hc⟩ := transpose_part_spec h (s := 0) (le_refl n)
  refine ⟨hsq, fun p q => ?_⟩
  rw [hc]
  unfold Owns
  split_ifs <;> first | rfl | (exfalso; omega)

theorem cell_diag_or_out {a : Matrix} {n : Nat} (h : IsSquare a n) (p q : Nat)
    (hpq : ¬ (p ≠ q ∧ p < n ∧ q < n)) : cell a p q = cell a q p := by
  by_cases e : p = q
  · subst e; rfl
  · obtain ⟨hl, hr⟩ := h
    have hrow : ∀ i, (a.getD i []).length ≤ n := by
      intro i
      by_cases hi : i < a.length
      · rw [List.getD_eq_getElem _ _ hi, hr _ (List.getElem_mem hi)]
      · rw [List.getD_eq_default _ _ (by omega)]; simp
    have hout : ∀ i j, ¬ (i < n ∧ j < n) → cell a i j = 0 := by
      intro i j hij
      unfold cell
      by_cases hi : i < n
      · exact List.getD_eq_default _ _ (by have := hrow i; omega)
      · rw [List.getD_eq_default a _ (by omega)]; rfl
    rw [hout p q (by omega), hout q p (by omega)]

/-- Effect of server.cpp's `transpose_multi` on every cell, for any worker order. -/
theorem transpose_multi_in_spec {n : Nat} {a : Matrix} (h : IsSquare a n) (k : Int)
    {order : List (Nat × Nat)} (hp : order.Perm (spawnedChunks n k.toNat)) :
    IsSquare (transpose_multi_in order a k) n ∧
    ∀ p q, cell (transpose_multi_in order a k) p q = cell a q p := by
  have hl : a.length = n := h.1
  have key : IsSquare (transpose_multi_in order a k) n ∧
      ∀ p q, cell (transpose_multi_in order a k) p q =
        if p ≠ q ∧ p < n ∧ q < n then cell a q p else cell a p q := by
    unfold transpose_multi_in
    simp only [hl]
    by_cases hn : n = 0
    · rw [if_pos hn]
      refine ⟨h, fun p q => ?_⟩
      have : ¬ (p ≠ q ∧ p < n ∧ q < n) := by omega
      rw [if_neg this]
    · rw [if_neg hn]
      by_cases hk : k ≤ 1
      · rw [if_pos hk]; exact transpose_part_full h
      · rw [if_neg hk]
        exact runWorkers_perm_spec (k := k.toNat) (by omega) h hp
  refine ⟨key.1, fun p q => ?_⟩
  rw [key.2]
  split_ifs with hpq
  · rfl
  · exact cell_diag_or_out h p q hpq

theorem Matrix_ext {a b : Matrix} {n : Nat} (ha : IsSquare a n) (hb : IsSquare b n)
    (h : ∀ p q, cell a p q = cell b p q) : a = b := by
  obtain ⟨hla, hra⟩ := ha
  obtain ⟨hlb, hrb⟩ := hb
  apply List.ext_getElem (by omega)
  intro i h1 h2
  have e1 := hra _ (List.getElem_mem h1)
  have e2 := hrb _ (List.getElem_mem h2)
  apply List.ext_getElem (by omega)
  intro j h3 h4
  have := h i j
  unfold cell at this
  rw [List.getD_eq_getElem _ _ h1, List.getD_eq_getElem _ _ h2,
    List.getD_eq_getElem _ _ h3, List.getD_eq_getElem _ _ h4] at this
  exact this

theorem spawnedChunks_length {n k : Nat} (hk : 1 ≤ k) : (spawnedChunks n k).length = min n k := by
  rw [spawnedChunks_eq n k hk, List.length_map, List.length_range']

theorem spawnedChunks_getElem? {n k : Nat} (hk : 1 ≤ k) {t : Nat} {c : Nat × Nat}
    (h : (spawnedChunks n k)[t]? = some c) :
    t < min n k ∧ c = (chunkStart (n / k) (n % k) t, chunkStart (n / k) (n % k) (t + 1)) := by
  have ht : t < min n k := by
    have := (List.getElem?_eq_some_iff.1 h).1
    rw [spawnedChunks_length hk] at this
    exact this
  refine ⟨ht, ?_⟩
  rw [spawnedChunks_eq n k hk, List.getElem?_map, List.getElem?_range' 0 1 ht] at h
  simp only [Option.map_some', Option.some.injEq, one_mul, zero_add] at h
  exact h.symm

theorem mem_touchedCells {n s e : Nat} {c : Nat × Nat} :
    c ∈ touchedCells n s e ↔
      ∃ i j, s ≤ i ∧ i < e ∧ i < j ∧ j < n ∧ (c = (i, j) ∨ c = (j, i)) := by
  unfold touchedCells
  simp only [List.mem_flatMap, List.mem_range'_1, List.mem_cons, List.mem_singleton,
    List.not_mem_nil, or_false]
  constructor
  · rintro ⟨i, hi, j, hj, hc⟩
    exact ⟨i, j, by omega, by omega, by omega, by omega, hc⟩
  · rintro ⟨i, j, h1, h2, h3, h4, hc⟩
    exact ⟨i, ⟨h1, by omega⟩, j, ⟨by omega, by omega⟩, hc⟩

theorem mem_touchedCells_iff_owns {n s e p q : Nat} :
    (p, q) ∈ touchedCells n s e ↔ Owns n s e p q := by
  rw [mem_touchedCells]
  unfold Owns
  constructor
  · rintro ⟨i, j, h1, h2, h3, h4, hc | hc⟩ <;>
    · simp only [Prod.mk.injEq] at hc
      omega
  · intro h
    by_cases hpq : p < q
    · exact ⟨p, q, by omega, by omega, hpq, by omega, Or.inl rfl⟩
    · exact ⟨q, p, by omega, by omega, by omega, by omega, Or.inr rfl⟩

theorem touchedCells_disjoint {n : Nat} {c d : Nat × Nat} (h : RowDisjoint c d) :
    (touchedCells n c.1 c.2).Disjoint (touchedCells n d.1 d.2) := by
  rw [List.disjoint_left]
  rintro ⟨p, q⟩ h1 h2
  rw [mem_touchedCells_iff_owns] at h1 h2
  exact Owns.not_of_rowDisjoint h h1 h2

/-! ## `sendAll` and `recvAll` -/

theorem sendLoop_healthy (data : List Byte) :
    ∀ (fuel : Nat) (s : Sock) (sent : Nat), s.Healthy → sent ≤ data.length →
      data.length - sent ≤ fuel →
      (sendLoop data fuel s sent).1 = (data.length : Int) ∧
      (sendLoop data fuel s sent).2.tx = s.tx ++ data.drop sent ∧
      (sendLoop data fuel s sent).2.rx = s.rx ∧
      (sendLoop data fuel s sent).2.quota = s.quota := by
  intro fuel
  induction fuel with
  | zero =>
    intro s sent _ h1 h2
    have e : sent = data.length := by omega
    subst e
    simp [sendLoop]
  | succ fuel ih =>
    intro s sent hs h1 h2
    unfold sendLoop
    by_cases hlt : sent < data.length
    · rw [if_pos hlt]
      have hq : s.quota s.sends ≠ 0 := Nat.pos_iff_ne_zero.1 (hs _)
      have hlen : (data.drop sent).length = data.length - sent := List.length_drop _ _
      have hsend : send s (data.drop sent) =
          (((min (s.quota s.sends) (data.drop sent).length : Nat) : Int),
            { s with tx := s.tx ++ (data.drop sent).take (min (s.quota s.sends) (data.drop sent).length),
                     sends := s.sends + 1 }) := by
        unfold send
        simp only [if_neg hq]
      have hpos : 0 < min (s.quota s.sends) (data.drop sent).length := by
        have := hs s.sends
        rw [hlen]; omega
      simp only [hsend]
      have hnle : ¬ (((min (s.quota s.sends) (data.drop sent).length : Nat) : Int) ≤ 0) := by omega
      rw [if_neg hnle, Int.toNat_ofNat]
      have key := ih { s with tx := s.tx ++ (data.drop sent).take (min (s.quota s.sends) (data.drop sent).length),
                              sends := s.sends + 1 }
        (sent + min (s.quota s.sends) (data.drop sent).length) hs (by rw [hlen]; omega)
        (by rw [hlen]; omega)
      refine ⟨key.1, ?_, key.2.2.1, key.2.2.2⟩
      rw [key.2.1]
      simp only [List.append_assoc]
      rw [← List.drop_drop, List.take_append_drop]
    · rw [if_neg hlt]
      have e : sent = data.length := by omega
      subst e
      simp

theorem sendAll_healthy (s : Sock) (data : List Byte) (hs : s.Healthy) :
    (sendAll s data).1 = (data.length : Int) ∧ (sendAll s data).2.tx = s.tx ++ data ∧
    (sendAll s data).2.rx = s.rx ∧ (sendAll s data).2.quota = s.quota := by
  have := sendLoop_healthy data data.length s 0 hs (by omega) (by omega)
  simpa [sendAll] using this

theorem recv_cons (s : Sock) (f : List Byte) (rest : List (List Byte)) (len : Nat)
    (h : s.rx = f :: rest) :
    recv s len =
      (f.take len, { s with rx := if (f.drop len).isEmpty then rest else f.drop len :: rest }) := by
  unfold recv
  rw [h]

theorem recvLoop_spec (L : Nat) :
    ∀ (fuel : Nat) (s : Sock) (buf : List Byte), (∀ f ∈ s.rx, f ≠ []) → buf.length ≤ L →
      L - buf.length ≤ fuel →
      (L - buf.length ≤ s.rx.flatten.length →
        (recvLoop (L : Int) fuel s buf).ret = (L : Int) ∧
        (recvLoop (L : Int) fuel s buf).buf = buf ++ s.rx.flatten.take (L - buf.length) ∧
        (recvLoop (L : Int) fuel s buf).sock.rx.flatten = s.rx.flatten.drop (L - buf.length) ∧
        (∀ f ∈ (recvLoop (L : Int) fuel s buf).sock.rx, f ≠ [])) ∧
      (s.rx.flatten.length < L - buf.length → (recvLoop (L : Int) fuel s buf).ret = -1) ∧
      (recvLoop (L : Int) fuel s buf).sock.tx = s.tx ∧
      (recvLoop (L : Int) fuel s buf).sock.quota = s.quota ∧
      (recvLoop (L : Int) fuel s buf).sock.sends = s.sends := by
  intro fuel
  induction fuel with
  | zero =>
    intro s buf hne h1 h2
    have e : L - buf.length = 0 := by omega
    have hnlt : ¬ ((buf.length : Int) < (L : Int)) := by omega
    have hL : (buf.length : Int) = (L : Int) := by omega
    simp only [recvLoop, if_neg hnlt, e, List.take_zero, List.append_nil, List.drop_zero]
    refine ⟨fun _ => ⟨hL, ?_, ?_, hne⟩, fun h => absurd h (by omega), ?_, ?_, ?_⟩ <;>
      first | rfl | trivial
  | succ fuel ih =>
    intro s buf hne h1 h2
    unfold recvLoop
    by_cases hlt : buf.length < L
    · have hlt' : (buf.length : Int) < (L : Int) := by omega
      have hneed : ((L : Int) - (buf.length : Int)).toNat = L - buf.length := by omega
      rw [if_pos hlt', hneed]
      cases hrx : s.rx with
      | nil =>
        have hrecv : recv s (L - buf.length) = ([], s) := by unfold recv; rw [hrx]
        simp only [hrecv, List.length_nil, Nat.cast_zero, le_refl, if_true, List.flatten_nil]
        refine ⟨fun h => absurd h (by omega), fun _ => ?_, ?_, ?_, ?_⟩ <;> first | rfl | trivial
      | cons f rest =>
        have hf : f ≠ [] := hne f (by rw [hrx]; exact List.mem_cons_self _ _)
        have hfpos : 0 < f.length := List.length_pos.2 hf
        rw [recv_cons s f rest _ hrx]
        have htl : (f.take (L - buf.length)).length = min (L - buf.length) f.length :=
          List.length_take _ _
        have hnle : ¬ (((f.take (L - buf.length)).length : Int) ≤ 0) := by
          rw [htl]; omega
        simp only [if_neg hnle]
        have hrest : ∀ g ∈ rest, g ≠ [] := fun g hg => hne g (by rw [hrx]; exact List.mem_cons_of_mem _ hg)
        by_cases hcmp : f.length ≤ L - buf.length
        · -- the whole fragment is consumed
          have hd : (f.drop (L - buf.length)).isEmpty = true := by
            rw [List.isEmpty_iff, List.drop_eq_nil_iff]; exact hcmp
          have ht : f.take (L - buf.length) = f := List.take_of_length_le hcmp
          simp only [hd, if_true, ht]
          have key := ih { s with rx := rest } (buf ++ f) hrest
            (by rw [List.length_append]; omega) (by rw [List.length_append]; omega)
          have e1 : L - (buf ++ f).length = L - buf.length - f.length := by
            rw [List.length_append]; omega
          rw [e1] at key
          simp only [List.flatten_cons, List.length_append]
          refine ⟨fun h => ?_, fun h => key.2.1 (by simpa using (by omega : rest.flatten.length < L - buf.length - f.length)), key.2.2⟩
          obtain ⟨k1, k2, k3, k4⟩ := key.1 (by simpa using (by omega : L - buf.length - f.length ≤ rest.flatten.length))
          refine ⟨k1, ?_, ?_, k4⟩
          · rw [k2, List.take_append_eq_append_take, List.take_of_length_le hcmp, List.append_assoc]
          · rw [k3, List.drop_append_eq_append_drop, List.drop_eq_nil_iff.2 hcmp, List.nil_append]
        · -- the request is satisfied from the first fragment
          have hcmp' : L - buf.length < f.length := by omega
          have hdne : f.drop (L - buf.length) ≠ [] := by
            intro h; rw [List.drop_eq_nil_iff] at h; omega
          have hd : (f.drop (L - buf.length)).isEmpty = false := by
            cases hx : (f.drop (L - buf.length)).isEmpty
            · rfl
            · exact absurd (List.isEmpty_iff.1 hx) hdne
          simp only [hd, Bool.false_eq_true, if_false]
          have hne2 : ∀ g ∈ f.drop (L - buf.length) :: rest, g ≠ [] := by
            intro g hg
            rcases List.mem_cons.1 hg with e | hg'
            · rw [e]; exact hdne
            · exact hrest g hg'
          have hlen2 : (buf ++ f.take (L - buf.length)).length = L := by
            rw [List.length_append, htl]; omega
          have key := ih { s with rx := f.drop (L - buf.length) :: rest }
            (buf ++ f.take (L - buf.length)) hne2 (by omega) (by omega)
          have e1 : L - (buf ++ f.take (L - buf.length)).length = 0 := by omega
          rw [e1] at key
          simp only [List.flatten_cons, List.length_append]
          refine ⟨fun _ => ?_, fun h => absurd h (by omega), key.2.2⟩
          obtain ⟨k1, k2, k3, k4⟩ := key.1 (Nat.zero_le _)
          refine ⟨k1, ?_, ?_, k4⟩
          · rw [k2, List.take_zero, List.append_nil, List.take_append_eq_append_take]
            have : L - buf.length - f.length = 0 := by omega
            rw [this, List.take_zero, List.append_nil]
          · rw [k3, List.drop_zero, List.flatten_cons, List.drop_append_eq_append_drop]
            have : L - buf.length - f.length = 0 := by omega
            rw [this, List.drop_zero]
    · have hnlt : ¬ ((buf.length : Int) < (L : Int)) := by omega
      have e : L - buf.length = 0 := by omega
      have hL : (buf.length : Int) = (L : Int) := by omega
      simp only [if_neg hnlt, e, List.take_zero, List.append_nil, List.drop_zero]
      refine ⟨fun _ => ⟨hL, ?_, ?_, hne⟩, fun h => absurd h (by omega), ?_, ?_, ?_⟩ <;>
        first | rfl | trivial

theorem recvAll_spec (s : Sock) (L : Nat) (hne : ∀ f ∈ s.rx, f ≠ []) :
    (L ≤ s.rx.flatten.length →
      (recvAll s (L : Int)).ret = (L : Int) ∧
      (recvAll s (L : Int)).buf = s.rx.flatten.take L ∧
      (recvAll s (L : Int)).sock.rx.flatten = s.rx.flatten.drop L ∧
      (∀ f ∈ (recvAll s (L : Int)).sock.rx, f ≠ [])) ∧
    (s.rx.flatten.length < L → (recvAll s (L : Int)).ret = -1) ∧
    (recvAll s (L : Int)).sock.tx = s.tx ∧
    (recvAll s (L : Int)).sock.quota = s.quota ∧
    (recvAll s (L : Int)).sock.sends = s.sends := by
  have := recvLoop_spec L L s [] hne (Nat.zero_le _) (by simp)
  simpa [recvAll] using this

/-! ## Command frames -/

theorem packet_length {cmd : List Byte} (h : cmd.length ≤ 256) : (packet cmd).length = 260 := by
  simp [packet, htonl]
  omega

theorem ntohl_htonl_append (x : Nat) (hx : x < 2 ^ 32) (rest : List Byte) :
    ntohl (htonl x ++ rest) = x := by
  simp [ntohl, htonl, Fin.ofNat]
  omega

theorem ntohl_take (l : List Byte) {k : Nat} (hk : 4 ≤ k) : ntohl (l.take k) = ntohl l := by
  have h : ∀ i, i < 4 → (l.take k).getD i 0 = l.getD i 0 := by
    intro i hi
    have hik : i < k := by omega
    simp [List.getD_eq_getElem?_getD, List.getElem?_take, hik]
  unfold ntohl
  rw [h 0 (by omega), h 1 (by omega), h 2 (by omega), h 3 (by omega)]

theorem sendCommand_healthy (s : Sock) (cmd : List Byte) (hs : s.Healthy)
    (h : cmd.length ≤ 256) :
    (sendCommand s cmd).1 = true ∧ (sendCommand s cmd).2.tx = s.tx ++ packet cmd ∧
    (sendCommand s cmd).2.rx = s.rx ∧ (sendCommand s cmd).2.quota = s.quota := by
  obtain ⟨h1, h2, h3, h4⟩ := sendAll_healthy s (packet cmd) hs
  have hn : ¬ (cmd.length > 256) := by omega
  unfold sendCommand
  rw [if_neg hn]
  refine ⟨?_, h2, h3, h4⟩
  simp only [h1, packet_length h, sizeofCommandPacket]
  rfl

theorem sendCommand_too_long (s : Sock) (cmd : List Byte) (h : 256 < cmd.length) :
    sendCommand s cmd = (false, s) := by
  unfold sendCommand
  rw [if_pos h]

theorem sendCommand_healthy_preserved (s : Sock) (cmd : List Byte) (hs : s.Healthy) :
    (sendCommand s cmd).2.Healthy := by
  by_cases h : cmd.length ≤ 256
  · intro k
    rw [(sendCommand_healthy s cmd hs h).2.2.2]
    exact hs k
  · rw [sendCommand_too_long s cmd (by omega)]
    exact hs

theorem receiveCommand_spec (s : Sock) (out : List Byte) (hne : ∀ f ∈ s.rx, f ≠ []) :
    ((receiveCommand s out).ok = true ↔
      260 ≤ s.rx.flatten.length ∧ ntohl s.rx.flatten ≤ 256) ∧
    ((receiveCommand s out).ok = true →
      (receiveCommand s out).outCmd = (s.rx.flatten.drop 4).take (ntohl s.rx.flatten) ∧
      (receiveCommand s out).sock.rx.flatten = s.rx.flatten.drop 260 ∧
      (∀ f ∈ (receiveCommand s out).sock.rx, f ≠ [])) ∧
    ((receiveCommand s out).ok = false → (receiveCommand s out).outCmd = out) ∧
    (receiveCommand s out).sock.tx = s.tx ∧
    (receiveCommand s out).sock.quota = s.quota ∧
    (receiveCommand s out).sock.sends = s.sends := by
  obtain ⟨hok, hshort, htx, hq, hsn⟩ := recvAll_spec s 260 hne
  have e260 : ((sizeofCommandPacket : Nat) : Int) = ((260 : Nat) : Int) := rfl
  unfold receiveCommand
  simp only [e260]
  by_cases hlen : 260 ≤ s.rx.flatten.length
  · obtain ⟨h1, h2, h3, h4⟩ := hok hlen
    have hret : ¬ ((recvAll s ((260 : Nat) : Int)).ret ≠ ((260 : Nat) : Int)) := by
      rw [h1]; simp
    rw [if_neg hret]
    have hnt : ntohl (recvAll s ((260 : Nat) : Int)).buf = ntohl s.rx.flatten := by
      rw [h2]; exact ntohl_take _ (by omega)
    rw [hnt]
    by_cases hbig : ntohl s.rx.flatten > 256
    · rw [if_pos hbig]
      refine ⟨?_, ?_, fun _ => rfl, htx, hq, hsn⟩
      · constructor
        · intro h; exact absurd h (by simp)
        · intro h; omega
      · intro h; exact absurd h (by simp)
    · rw [if_neg hbig]
      refine ⟨?_, ?_, ?_, htx, hq, hsn⟩
      · constructor
        · intro _; exact ⟨hlen, by omega⟩
        · intro _; rfl
      · intro _
        refine ⟨?_, h3, h4⟩
        simp only [h2]
        rw [List.drop_take, List.take_take]
        congr 1
        omega
      · intro h; exact absurd h (by simp)
  · have hret : (recvAll s ((260 : Nat) : Int)).ret ≠ ((260 : Nat) : Int) := by
      rw [hshort (by omega)]; omega
    rw [if_pos hret]
    refine ⟨?_, ?_, fun _ => rfl, htx, hq, hsn⟩
    · constructor
      · intro h; exact absurd h (by simp)
      · intro h; omega
    · intro h; exact absurd h (by simp)

theorem packet_decodes (cmd rest : List Byte) (h : cmd.length ≤ 256) (pad : List Byte)
    (hpad : pad.length = 256 - cmd.length) :
    260 ≤ (htonl cmd.length ++ cmd ++ pad ++ rest).length ∧
    ntohl (htonl cmd.length ++ cmd ++ pad ++ rest) = cmd.length ∧
    ((htonl cmd.length ++ cmd ++ pad ++ rest).drop 4).take cmd.length = cmd := by
  refine ⟨?_, ?_, ?_⟩
  · simp [htonl]; omega
  · rw [List.append_assoc, List.append_assoc]
    exact ntohl_htonl_append _ (by omega) _
  · have : (htonl cmd.length ++ cmd ++ pad ++ rest).drop 4 = cmd ++ (pad ++ rest) := by
      simp [htonl]
    rw [this, List.take_left']
    rfl

/-! ## The `UPLOAD_MATRIX` branch -/

theorem onUploadMatrix_accept (ct : ClientTask) (sock : Sock) (hne : ∀ f ∈ sock.rx, f ≠ [])
    (hdr cfgBytes matBytes rest : List Byte) (n c : Nat)
    (hrx : sock.rx.flatten = hdr ++ (cfgBytes ++ (matBytes ++ rest)))
    (hlen : hdr.length = 12)
    (hn : toInt32 (ntohl hdr) = (n : Int))
    (hc : toInt32 (ntohl (hdr.drop 4)) = (c : Int))
    (hb : toInt32 (ntohl (hdr.drop 8)) = wrap32 (wrap32 ((n : Int) * n) * 4))
    (hcb : wrap32 ((c : Int) * 4) = (cfgBytes.length : Int))
    (htot : 0 ≤ wrap32 ((n : Int) * n))
    (hmb : wrap32 (wrap32 ((n : Int) * n) * 4) = (matBytes.length : Int)) :
    (onUploadMatrix ct sock).alive = true ∧ (onUploadMatrix ct sock).spawned = false ∧
    (onUploadMatrix ct sock).ct =
      { ct with
        baseMatrix := fillMatrix (List.replicate n (List.replicate n 0)) n matBytes,
        threadConfigs := readConfigs (vector_resize ct.threadConfigs c) c cfgBytes } ∧
    ∃ s3 : Sock, (onUploadMatrix ct sock).sock = (sendCommand s3 (bytesOf "MATRIX_RECEIVED")).2 ∧
      s3.rx.flatten = rest ∧ (∀ f ∈ s3.rx, f ≠ []) ∧ s3.tx = sock.tx ∧ s3.quota = sock.quota ∧
      s3.sends = sock.sends := by
  -- the header
  obtain ⟨a1, _, a3, a4, a5⟩ := recvAll_spec sock 12 hne
  obtain ⟨a11, a12, a13, a14⟩ := a1 (by rw [hrx, List.length_append]; omega)
  have e12 : ((12 : Nat) : Int) = (12 : Int) := rfl
  rw [e12] at a11 a12 a13 a14 a3 a4 a5
  have hbuf1 : (recvAll sock 12).buf = hdr := by
    rw [a12, hrx, ← hlen, List.take_left]
  have hrx1 : (recvAll sock 12).sock.rx.flatten = cfgBytes ++ (matBytes ++ rest) := by
    rw [a13, hrx, ← hlen, List.drop_left]
  -- the configuration list
  obtain ⟨b1, _, b3, b4, b5⟩ := recvAll_spec (recvAll sock 12).sock cfgBytes.length a14
  obtain ⟨b11, b12, b13, b14⟩ := b1 (by rw [hrx1, List.length_append]; omega)
  have hbuf2 : (recvAll (recvAll sock 12).sock (cfgBytes.length : Int)).buf = cfgBytes := by
    rw [b12, hrx1, List.take_left]
  have hrx2 : (recvAll (recvAll sock 12).sock (cfgBytes.length : Int)).sock.rx.flatten
      = matBytes ++ rest := by
    rw [b13, hrx1, List.drop_left]
  -- the matrix
  obtain ⟨c1, _, c3, c4, c5⟩ :=
    recvAll_spec (recvAll (recvAll sock 12).sock (cfgBytes.length : Int)).sock matBytes.length b14
  obtain ⟨c11, c12, c13, c14⟩ := c1 (by rw [hrx2, List.length_append]; omega)
  have hbuf3 : (recvAll (recvAll (recvAll sock 12).sock (cfgBytes.length : Int)).sock
      (matBytes.length : Int)).buf = matBytes := by
    rw [c12, hrx2, List.take_left]
  have hrx3 : (recvAll (recvAll (recvAll sock 12).sock (cfgBytes.length : Int)).sock
      (matBytes.length : Int)).sock.rx.flatten = rest := by
    rw [c13, hrx2, List.drop_left]
  have hn0 : ¬ ((n : Int) < 0) := by omega
  have hc0 : ¬ ((c : Int) < 0) := by omega
  have ht0 : ¬ (wrap32 ((n : Int) * n) < 0) := by omega
  unfold onUploadMatrix
  simp only [a11, hbuf1, hn, hc, hb, hcb, hmb, b11, hbuf2, c11, hbuf3, ne_eq, not_true_eq_false,
    if_false, hn0, hc0, ht0, Int.toNat_ofNat, true_and]
  exact ⟨_, rfl, hrx3, c14, by rw [c3, b3, a3], by rw [c4, b4, a4], by rw [c5, b5, a5]⟩

theorem onUploadMatrix_reject (ct : ClientTask) (sock : Sock)
    (h : (recvAll sock 12).ret ≠ 12 ∨
      toInt32 (ntohl ((recvAll sock 12).buf.drop 8)) ≠
        wrap32 (wrap32 (toInt32 (ntohl (recvAll sock 12).buf) *
          toInt32 (ntohl (recvAll sock 12).buf)) * 4)) :
    onUploadMatrix ct sock = ⟨ct, (recvAll sock 12).sock, false, false⟩ := by
  unfold onUploadMatrix
  by_cases h1 : (recvAll sock 12).ret ≠ 12
  · simp only [if_pos h1]
  · rcases h with h | h
    · exact absurd h h1
    · simp only [if_neg h1, if_pos h]

theorem foldl_invariant {α β : Type} (P : β → Prop) (f : β → α → β)
    (h : ∀ b a, P b → P (f b a)) : ∀ (l : List α) (b : β), P b → P (l.foldl f b) := by
  intro l
  induction l with
  | nil => intro b hb; exact hb
  | cons x xs ih => intro b hb; exact ih _ (h b x hb)

theorem fillMatrix_length (a : Matrix) (n : Nat) (flat : List Byte) :
    (fillMatrix a n flat).length = a.length := by
  unfold fillMatrix
  refine foldl_invariant (fun st : Matrix × Nat => st.1.length = a.length) _ ?_ _ _ rfl
  intro st i hst
  refine foldl_invariant (fun st : Matrix × Nat => st.1.length = a.length) _ ?_ _ _ hst
  intro st2 j hst2
  simp only [setCell, List.length_set]
  exact hst2

theorem onUploadMatrix_flag (ct : ClientTask) (sock : Sock) (b : Bool) :
    onUploadMatrix { ct with isProcessing := b } sock
      = ⟨{ (onUploadMatrix ct sock).ct with isProcessing := b }, (onUploadMatrix ct sock).sock,
          (onUploadMatrix ct sock).alive, (onUploadMatrix ct sock).spawned⟩ := by
  unfold onUploadMatrix
  dsimp only
  by_cases h1 : (recvAll sock 12).ret ≠ 12
  · simp only [if_pos h1]
  · simp only [if_neg h1]
    by_cases h2 : toInt32 (ntohl (List.drop 8 (recvAll sock 12).buf)) ≠
        wrap32 (wrap32 (toInt32 (ntohl (recvAll sock 12).buf) * toInt32 (ntohl (recvAll sock 12).buf)) * 4)
    · simp only [if_pos h2]
    · simp only [if_neg h2]
      by_cases h3 : toInt32 (ntohl (recvAll sock 12).buf) < 0
      · simp only [if_pos h3]
      · simp only [if_neg h3]
        by_cases h4 : toInt32 (ntohl (List.drop 4 (recvAll sock 12).buf)) < 0
        · simp only [if_pos h4]
        · simp only [if_neg h4]
          split_ifs <;> rfl

theorem handleCommand_upload (ct : ClientTask) (sock : Sock) :
    handleCommand (bytesOf "UPLOAD_MATRIX") ct sock = onUploadMatrix ct sock := by
  unfold handleCommand
  rw [if_neg (by decide), if_pos rfl]

/-! ## The command chain and the report -/

theorem handleCommand_start (ct : ClientTask) (sock : Sock) :
    handleCommand (bytesOf "START_TRANSPOSE") ct sock = onStartTranspose ct sock := by
  unfold handleCommand
  rw [if_neg (by decide), if_neg (by decide), if_pos rfl]

theorem handleCommand_results (ct : ClientTask) (sock : Sock) :
    handleCommand (bytesOf "REQUEST_RESULTS") ct sock = onRequestResults ct sock := by
  unfold handleCommand
  rw [if_neg (by decide), if_neg (by decide), if_neg (by decide), if_neg (by decide), if_pos rfl]

theorem foldl_append_flatten {α : Type} (g : α → List Byte) :
    ∀ (l : List α) (init : List Byte),
      l.foldl (fun rep i => rep ++ g i) init = init ++ (l.map g).flatten := by
  intro l
  induction l with
  | nil => intro init; simp
  | cons x xs ih =>
    intro init
    simp only [List.foldl_cons, List.map_cons, List.flatten_cons]
    rw [ih, List.append_assoc]

theorem buildReport_eq (ct : ClientTask) (h : ct.times.length = ct.threadConfigs.length) :
    buildReport ct = reportText ct.baseMatrix.length ct.threadConfigs ct.times := by
  unfold buildReport reportText
  rw [foldl_append_flatten]
  congr 2
  apply List.ext_getElem
  · simp [h]
  · intro i h1 h2
    have hi : i < ct.threadConfigs.length := by simpa using h1
    have hi2 : i < ct.times.length := by omega
    simp only [List.getElem_map, List.getElem_range, List.getElem_zip, reportLine]
    rw [List.getD_eq_getElem _ _ hi, List.getD_eq_getElem _ _ hi2]

theorem buildReport_eq_of_le (ct : ClientTask)
    (h : ct.threadConfigs.length ≤ ct.times.length) :
    buildReport ct = reportText ct.baseMatrix.length ct.threadConfigs ct.times := by
  unfold buildReport reportText
  rw [foldl_append_flatten]
  congr 2
  apply List.ext_getElem
  · simp [h]
  · intro i h1 h2
    have hi : i < ct.threadConfigs.length := by simpa using h1
    have hi2 : i < ct.times.length := by omega
    simp only [List.getElem_map, List.getElem_range, List.getElem_zip, reportLine]
    rw [List.getD_eq_getElem _ _ hi, List.getD_eq_getElem _ _ hi2]

/-! ## The dispatcher run alone -/

theorem runDispatcher_finished (clock : Nat → Seconds) (fuel : Nat) (ct : ClientTask)
    (sock : Sock) (works : List Matrix) :
    runDispatcher clock fuel DispatcherPc.finished ct sock works
      = ⟨DispatcherPc.finished, ct, sock, works⟩ := by
  cases fuel with
  | zero => rfl
  | succ f => simp [runDispatcher]

theorem runDispatcher_passes (clock : Nat → Seconds) (base : Matrix) (cfgs : List Int) :
    ∀ (k i : Nat) (ct : ClientTask) (sock : Sock) (works : List Matrix) (fuel : Nat),
      ct.baseMatrix = base → ct.threadConfigs = cfgs → i + k = cfgs.length → k + 1 ≤ fuel →
      (runDispatcher clock fuel (DispatcherPc.pass i) ct sock works).pc = DispatcherPc.finished ∧
      (runDispatcher clock fuel (DispatcherPc.pass i) ct sock works).ct.baseMatrix = base ∧
      (runDispatcher clock fuel (DispatcherPc.pass i) ct sock works).ct.threadConfigs = cfgs ∧
      (runDispatcher clock fuel (DispatcherPc.pass i) ct sock works).ct.times
        = ct.times ++ (List.range' i k).map clock ∧
      (runDispatcher clock fuel (DispatcherPc.pass i) ct sock works).ct.isProcessing = false ∧
      (runDispatcher clock fuel (DispatcherPc.pass i) ct sock works).ct.currentIndex
        = (if k = 0 then ct.currentIndex else cfgs.length - 1) ∧
      (runDispatcher clock fuel (DispatcherPc.pass i) ct sock works).works
        = works ++ (cfgs.drop i).map (fun t => transpose_multi base t) := by
  intro k
  induction k with
  | zero =>
    intro i ct sock works fuel hb hc hik hf
    obtain ⟨f, rfl⟩ : ∃ f, fuel = f + 1 := ⟨fuel - 1, by omega⟩
    have hnlt : ¬ (i < ct.threadConfigs.length) := by rw [hc]; omega
    have hdrop : cfgs.drop i = [] := List.drop_eq_nil_iff.2 (by omega)
    have hstep : runDispatcher clock (f + 1) (DispatcherPc.pass i) ct sock works
        = ⟨DispatcherPc.finished, { ct with isProcessing := false },
            (sendCommand sock (bytesOf "TRANSPOSE_COMPLETED")).2, works⟩ := by
      simp [runDispatcher, processingThreadFunc_step, hnlt, runDispatcher_finished]
    rw [hstep, hdrop]
    refine ⟨rfl, hb, hc, ?_, rfl, ?_, ?_⟩ <;> simp
  | succ k ih =>
    intro i ct sock works fuel hb hc hik hf
    obtain ⟨f, rfl⟩ : ∃ f, fuel = f + 1 := ⟨fuel - 1, by omega⟩
    have hlt : i < ct.threadConfigs.length := by rw [hc]; omega
    have hlt' : i < cfgs.length := by omega
    have hstep : runDispatcher clock (f + 1) (DispatcherPc.pass i) ct sock works
        = runDispatcher clock f (DispatcherPc.pass (i + 1))
            { ct with currentIndex := i, times := ct.times ++ [clock i] }
            (sendCommand sock (bytesOf "INFO: threads=" ++ to_string (ct.threadConfigs.getD i 0)
              ++ bytesOf ", time=" ++ (clock i).text ++ bytesOf " s")).2
            (works ++ [transpose_multi ct.baseMatrix (ct.threadConfigs.getD i 0)]) := by
      simp [runDispatcher, processingThreadFunc_step, hlt, DispatcherPc.index]
    rw [hstep]
    obtain ⟨h1, h2, h3, h4, h5, h6, h7⟩ :=
      ih (i + 1) { ct with currentIndex := i, times := ct.times ++ [clock i] }
        (sendCommand sock (bytesOf "INFO: threads=" ++ to_string (ct.threadConfigs.getD i 0)
          ++ bytesOf ", time=" ++ (clock i).text ++ bytesOf " s")).2
        (works ++ [transpose_multi ct.baseMatrix (ct.threadConfigs.getD i 0)]) f hb hc
        (by omega) (by omega)
    refine ⟨h1, h2, h3, ?_, h5, ?_, ?_⟩
    · rw [h4, List.range'_succ, List.map_cons, List.append_assoc]
      rfl
    · rw [h6]
      have hk : ¬ (k + 1 = 0) := by omega
      rw [if_neg hk]
      split_ifs with hk0
      · show i = cfgs.length - 1
        omega
      · rfl
    · rw [h7, hb, hc, List.getD_eq_getElem _ _ hlt', List.append_assoc,
        List.drop_eq_getElem_cons hlt']
      rfl

theorem processingThreadFunc_spec (clock : Nat → Seconds) (ct : ClientTask) (sock : Sock)
    (hm : ct.baseMatrix ≠ []) (hc : ct.threadConfigs ≠ []) :
    (processingThreadFunc clock ct sock).pc = DispatcherPc.finished ∧
    (processingThreadFunc clock ct sock).works
      = ct.threadConfigs.map (fun t => transpose_multi ct.baseMatrix t) ∧
    (processingThreadFunc clock ct sock).ct
      = { ct with
          times := (List.range ct.threadConfigs.length).map clock,
          currentIndex := ct.threadConfigs.length - 1,
          isProcessing := false } := by
  have hlc : 0 < ct.threadConfigs.length := List.length_pos.2 hc
  have hstep : processingThreadFunc clock ct sock
      = runDispatcher clock (ct.threadConfigs.length + 1) (DispatcherPc.pass 0)
          { ct with times := [], currentIndex := 0, isProcessing := true } sock [] := by
    simp [processingThreadFunc, runDispatcher, processingThreadFunc_step, hm, hc]
  rw [hstep]
  obtain ⟨h1, h2, h3, h4, h5, h6, h7⟩ :=
    runDispatcher_passes clock ct.baseMatrix ct.threadConfigs ct.threadConfigs.length 0
      { ct with times := [], currentIndex := 0, isProcessing := true } sock []
      (ct.threadConfigs.length + 1) rfl rfl (by omega) (by omega)
  refine ⟨h1, by simpa using h7, ?_⟩
  have hk : ¬ (ct.threadConfigs.length = 0) := by omega
  rw [if_neg hk] at h6
  simp only [List.nil_append] at h4
  rw [← List.range_eq_range'] at h4
  generalize runDispatcher clock (ct.threadConfigs.length + 1) (DispatcherPc.pass 0)
      { ct with times := [], currentIndex := 0, isProcessing := true } sock [] = r at *
  obtain ⟨pc, ⟨bm, tc, tm, ci, ip⟩, sk, wk⟩ := r
  simp only at h2 h3 h4 h5 h6
  subst h2 h3 h4 h5 h6
  rfl

/-! ## 32-bit words on the wire -/

theorem toUInt32_lt (v : Int) : toUInt32 v < 2 ^ 32 := by
  unfold toUInt32
  have h1 : (0 : Int) ≤ v % 2 ^ 32 := Int.emod_nonneg _ (by norm_num)
  have h2 : v % 2 ^ 32 < 2 ^ 32 := Int.emod_lt_of_pos _ (by norm_num)
  omega

theorem toInt32_toUInt32 {v : Int} (h : IsInt32 v) : toInt32 (toUInt32 v) = v := by
  unfold IsInt32 at h
  unfold toInt32 toUInt32
  have h1 : (0 : Int) ≤ v % 2 ^ 32 := Int.emod_nonneg _ (by norm_num)
  have h2 : v % 2 ^ 32 < 2 ^ 32 := Int.emod_lt_of_pos _ (by norm_num)
  norm_num at h h1 h2 ⊢
  split_ifs <;> omega

theorem toInt32_of_lt {u : Nat} (h : u < 2 ^ 31) : toInt32 u = (u : Int) := by
  unfold toInt32
  norm_num at h ⊢
  split_ifs <;> omega

theorem isInt32_toInt32 (u : Nat) : IsInt32 (toInt32 u) := by
  unfold IsInt32 toInt32
  norm_num
  split_ifs <;> omega

theorem isInt32_wrap32 (x : Int) : IsInt32 (wrap32 x) := isInt32_toInt32 _

theorem wrap32_of_isInt32 {x : Int} (h : IsInt32 x) : wrap32 x = x := by
  have := toInt32_toUInt32 h
  unfold toUInt32 at this
  exact this

theorem wrap32_natCast {x : Nat} (h : x < 2 ^ 31) : wrap32 (x : Int) = (x : Int) := by
  apply wrap32_of_isInt32
  unfold IsInt32
  norm_num at h ⊢
  omega

theorem htonl_length (x : Nat) : (htonl x).length = 4 := rfl

theorem encodeInts_cons (v : Int) (l : List Int) :
    encodeInts (v :: l) = htonl (toUInt32 v) ++ encodeInts l := rfl

theorem encodeInts_length (l : List Int) : (encodeInts l).length = 4 * l.length := by
  induction l with
  | nil => rfl
  | cons v l ih =>
    rw [encodeInts_cons, List.length_append, ih, htonl_length, List.length_cons]
    omega

theorem encodeInts_drop (l : List Int) (rest : List Byte) :
    ∀ i, (encodeInts l ++ rest).drop (4 * i) = encodeInts (l.drop i) ++ rest.drop (4 * i - 4 * l.length) := by
  induction l with
  | nil =>
    intro i
    simp [encodeInts]
  | cons v l ih =>
    intro i
    cases i with
    | zero => simp
    | succ i =>
      have e : 4 * (i + 1) = 4 + 4 * i := by omega
      rw [encodeInts_cons, List.append_assoc, e, ← List.drop_drop,
        List.drop_left' (htonl_length _), ih i, List.drop_succ_cons, List.length_cons]
      congr 2
      omega

theorem wordAt_encodeInts (l : List Int) (rest : List Byte) {i : Nat} (hi : i < l.length) :
    wordAt (encodeInts l ++ rest) i = toUInt32 (l.get ⟨i, hi⟩) := by
  unfold wordAt
  rw [encodeInts_drop, List.drop_eq_getElem_cons hi, encodeInts_cons, List.append_assoc]
  exact ntohl_htonl_append _ (toUInt32_lt _) _

theorem wordAt_nil (i : Nat) : wordAt [] i = 0 := by
  simp [wordAt, ntohl]

/-! ## Decoding the configuration list and the matrix -/

theorem readConfigs_eq (v : List Int) (buf : List Byte) :
    ∀ c, c ≤ v.length →
      readConfigs v c buf
        = (List.range c).map (fun i => clampThreads (toInt32 (wordAt buf i))) ++ v.drop c := by
  intro c
  induction c with
  | zero => intro _; simp [readConfigs]
  | succ c ih =>
    intro hc
    have hc' : c < v.length := by omega
    have ih' := ih (by omega)
    unfold readConfigs at ih' ⊢
    rw [List.range_succ, List.foldl_append, ih']
    simp only [List.foldl_cons, List.foldl_nil, List.map_append, List.map_cons, List.map_nil]
    have hlenA : ((List.range c).map (fun i => clampThreads (toInt32 (wordAt buf i)))).length = c := by
      simp
    generalize (List.range c).map (fun i => clampThreads (toInt32 (wordAt buf i))) = A at hlenA
    have hset : ∀ x : Int, (A ++ v.drop c).set c x = A ++ x :: v.drop (c + 1) := by
      intro x
      rw [List.set_append, if_neg (by omega), hlenA, Nat.sub_self,
        ← List.getElem_cons_drop v c hc', List.set_cons_zero]
    have hset2 : ∀ x y : Int, (A ++ x :: v.drop (c + 1)).set c y = A ++ y :: v.drop (c + 1) := by
      intro x y
      rw [List.set_append, if_neg (by omega), hlenA, Nat.sub_self, List.set_cons_zero]
    have hget : ∀ x : Int, (A ++ x :: v.drop (c + 1)).getD c 0 = x := by
      intro x
      rw [List.getD_append_right _ _ _ _ (by omega), hlenA, Nat.sub_self]
      rfl
    rw [hset, hget]
    unfold clampThreads
    split_ifs
    · rw [hset2]; simp
    · simp

theorem vector_resize_length (v : List Int) (k : Nat) : (vector_resize v k).length = k := by
  unfold vector_resize
  rw [List.length_append, List.length_take, List.length_replicate]
  omega

theorem readConfigs_resize (old : List Int) (c : Nat) (buf : List Byte) :
    readConfigs (vector_resize old c) c buf
      = (List.range c).map (fun i => clampThreads (toInt32 (wordAt buf i))) := by
  rw [readConfigs_eq _ _ c (by rw [vector_resize_length]),
    List.drop_eq_nil_iff.2 (by rw [vector_resize_length]), List.append_nil]

theorem readConfigs_encodeInts (old : List Int) (cfg : List Int) (h : ∀ v ∈ cfg, IsInt32 v) :
    readConfigs (vector_resize old cfg.length) cfg.length (encodeInts cfg)
      = cfg.map clampThreads := by
  rw [readConfigs_resize]
  apply List.ext_getElem
  · simp
  · intro i h1 h2
    have hi : i < cfg.length := by simpa using h1
    simp only [List.getElem_map, List.getElem_range]
    have hw := wordAt_encodeInts cfg [] hi
    rw [List.append_nil] at hw
    rw [hw, toInt32_toUInt32 (h _ (List.get_mem _ _ _))]
    rfl

theorem Matrix_ext_inRange {a b : Matrix} {n : Nat} (ha : IsSquare a n) (hb : IsSquare b n)
    (h : ∀ p q, p < n → q < n → cell a p q = cell b p q) : a = b := by
  obtain ⟨hla, hra⟩ := ha
  obtain ⟨hlb, hrb⟩ := hb
  apply List.ext_getElem (by omega)
  intro i h1 h2
  have e1 := hra _ (List.getElem_mem h1)
  have e2 := hrb _ (List.getElem_mem h2)
  apply List.ext_getElem (by omega)
  intro j h3 h4
  have := h i j (by omega) (by omega)
  unfold cell at this
  rw [List.getD_eq_getElem _ _ h1, List.getD_eq_getElem _ _ h2,
    List.getD_eq_getElem _ _ h3, List.getD_eq_getElem _ _ h4] at this
  exact this

theorem fillRow_spec (flat : List Byte) {n : Nat} (i : Nat) (hi : i < n) :
    ∀ (m : Nat) (a : Matrix) (idx : Nat), m ≤ n → IsSquare a n →
      IsSquare ((List.range m).foldl (fun (st : Matrix × Nat) j =>
        (setCell st.1 i j (toInt32 (wordAt flat st.2)), st.2 + 1)) (a, idx)).1 n ∧
      ((List.range m).foldl (fun (st : Matrix × Nat) j =>
        (setCell st.1 i j (toInt32 (wordAt flat st.2)), st.2 + 1)) (a, idx)).2 = idx + m ∧
      ∀ p q, cell ((List.range m).foldl (fun (st : Matrix × Nat) j =>
          (setCell st.1 i j (toInt32 (wordAt flat st.2)), st.2 + 1)) (a, idx)).1 p q
        = if p = i ∧ q < m then toInt32 (wordAt flat (idx + q)) else cell a p q := by
  intro m
  induction m with
  | zero =>
    intro a idx _ ha
    refine ⟨ha, rfl, fun p q => ?_⟩
    have : ¬ (p = i ∧ q < 0) := by omega
    rw [if_neg this]; rfl
  | succ m ih =>
    intro a idx hm ha
    obtain ⟨h1, h2, h3⟩ := ih a idx (by omega) ha
    rw [List.range_succ, List.foldl_append]
    simp only [List.foldl_cons, List.foldl_nil]
    refine ⟨h1.setCell _ _ _, by rw [h2]; omega, fun p q => ?_⟩
    rw [cell_setCell h1 hi (by omega), h3, h2]
    by_cases hpm : p = i ∧ q = m
    · have hlt : p = i ∧ q < m + 1 := by omega
      rw [if_pos hpm, if_pos hlt, hpm.2]
    · rw [if_neg hpm]
      by_cases hlt : p = i ∧ q < m
      · have hlt2 : p = i ∧ q < m + 1 := by omega
        rw [if_pos hlt, if_pos hlt2]
      · have hlt2 : ¬ (p = i ∧ q < m + 1) := by omega
        rw [if_neg hlt, if_neg hlt2]

theorem fillRows_spec (flat : List Byte) {n : Nat} :
    ∀ (k : Nat) (a : Matrix), k ≤ n → IsSquare a n →
      IsSquare ((List.range k).foldl (fun (st : Matrix × Nat) i =>
        (List.range n).foldl (fun (st : Matrix × Nat) j =>
          (setCell st.1 i j (toInt32 (wordAt flat st.2)), st.2 + 1)) st) (a, 0)).1 n ∧
      ((List.range k).foldl (fun (st : Matrix × Nat) i =>
        (List.range n).foldl (fun (st : Matrix × Nat) j =>
          (setCell st.1 i j (toInt32 (wordAt flat st.2)), st.2 + 1)) st) (a, 0)).2 = k * n ∧
      ∀ p q, cell ((List.range k).foldl (fun (st : Matrix × Nat) i =>
          (List.range n).foldl (fun (st : Matrix × Nat) j =>
            (setCell st.1 i j (toInt32 (wordAt flat st.2)), st.2 + 1)) st) (a, 0)).1 p q
        = if p < k ∧ q < n then toInt32 (wordAt flat (p * n + q)) else cell a p q := by
  intro k
  induction k with
  | zero =>
    intro a _ ha
    refine ⟨ha, by simp, fun p q => ?_⟩
    have : ¬ (p < 0 ∧ q < n) := by omega
    rw [if_neg this]; rfl
  | succ k ih =>
    intro a hk ha
    obtain ⟨h1, h2, h3⟩ := ih a (by omega) ha
    rw [List.range_succ, List.foldl_append]
    simp only [List.foldl_cons, List.foldl_nil]
    generalize (List.range k).foldl (fun (st : Matrix × Nat) i =>
        (List.range n).foldl (fun (st : Matrix × Nat) j =>
          (setCell st.1 i j (toInt32 (wordAt flat st.2)), st.2 + 1)) st) (a, 0) = st at h1 h2 h3
    obtain ⟨b, idx⟩ := st
    simp only at h1 h2 h3
    obtain ⟨g1, g2, g3⟩ := fillRow_spec flat k (by omega) n b idx (le_refl n) h1
    refine ⟨g1, by rw [g2, h2, Nat.succ_mul], fun p q => ?_⟩
    rw [g3, h3, h2]
    by_cases hpk : p = k ∧ q < n
    · have hlt : p < k + 1 ∧ q < n := by omega
      rw [if_pos hpk, if_pos hlt, hpk.1]
    · rw [if_neg hpk]
      by_cases hlt : p < k ∧ q < n
      · have hlt2 : p < k + 1 ∧ q < n := by omega
        rw [if_pos hlt, if_pos hlt2]
      · have hlt2 : ¬ (p < k + 1 ∧ q < n) := by omega
        rw [if_neg hlt, if_neg hlt2]

theorem fillMatrix_spec (flat : List Byte) {n : Nat} {a : Matrix} (ha : IsSquare a n) :
    IsSquare (fillMatrix a n flat) n ∧
    ∀ p q, p < n → q < n → cell (fillMatrix a n flat) p q = toInt32 (wordAt flat (p * n + q)) := by
  obtain ⟨h1, _, h3⟩ := fillRows_spec flat n a (le_refl n) ha
  refine ⟨h1, fun p q hp hq => ?_⟩
  unfold fillMatrix
  rw [h3, if_pos ⟨hp, hq⟩]

theorem isSquare_replicate (n : Nat) : IsSquare (List.replicate n (List.replicate n (0 : Int))) n := by
  refine ⟨List.length_replicate _ _, fun r hr => ?_⟩
  rw [List.eq_of_mem_replicate hr, List.length_replicate]

theorem flatten_uniform (n : Nat) :
    ∀ (M : Matrix), (∀ r ∈ M, r.length = n) →
      M.flatten.length = M.length * n ∧
      ∀ p q, p < M.length → q < n → M.flatten.getD (p * n + q) 0 = cell M p q := by
  intro M
  induction M with
  | nil => intro _; exact ⟨by simp, fun p q hp _ => absurd hp (by simp)⟩
  | cons r rs ih =>
    intro h
    have hr : r.length = n := h r (List.mem_cons_self _ _)
    obtain ⟨i1, i2⟩ := ih (fun x hx => h x (List.mem_cons_of_mem _ hx))
    refine ⟨?_, fun p q hp hq => ?_⟩
    · rw [List.flatten_cons, List.length_append, i1, hr, List.length_cons, Nat.succ_mul]
      omega
    · rw [List.flatten_cons]
      cases p with
      | zero =>
        rw [Nat.zero_mul, Nat.zero_add, List.getD_append _ _ _ _ (by omega)]
        rfl
      | succ p =>
        have hp' : p < rs.length := by simpa using hp
        have e : (p + 1) * n + q - r.length = p * n + q := by
          rw [hr, Nat.succ_mul]; omega
        rw [List.getD_append_right _ _ _ _ (by rw [hr, Nat.succ_mul]; omega), e, i2 p q hp' hq]
        rfl

theorem fillMatrix_encodeInts {n : Nat} {M : Matrix} (hM : IsSquare M n)
    (hv : ∀ r ∈ M, ∀ v ∈ r, IsInt32 v) :
    fillMatrix (List.replicate n (List.replicate n 0)) n (encodeInts M.flatten) = M := by
  obtain ⟨h1, h2⟩ := fillMatrix_spec (encodeInts M.flatten) (isSquare_replicate n)
  apply Matrix_ext_inRange h1 hM
  intro p q hp hq
  obtain ⟨f1, f2⟩ := flatten_uniform n M hM.2
  have hlt : p * n + q < M.flatten.length := by
    rw [f1, hM.1]
    calc p * n + q < p * n + n := by omega
      _ = (p + 1) * n := by rw [Nat.succ_mul]
      _ ≤ n * n := Nat.mul_le_mul_right _ (by omega)
  have hw := wordAt_encodeInts M.flatten [] hlt
  rw [List.append_nil] at hw
  have hmem : M.flatten.get ⟨p * n + q, hlt⟩ ∈ M.flatten := List.get_mem _ _ _
  obtain ⟨r, hr, hvr⟩ := List.mem_flatten.1 hmem
  rw [h2 p q hp hq, hw, toInt32_toUInt32 (hv r hr _ hvr)]
  have := f2 p q (by rw [hM.1]; exact hp) hq
  rw [List.getD_eq_getElem _ _ hlt] at this
  exact this

/-! ## The upload the client sends, as the server reads it -/

theorem uploadHeader_length (n : Int) (cfg : List Int) : (uploadHeader n cfg).length = 12 := rfl

theorem uploadHeader_fields (n : Int) (cfg : List Int) (hc : cfg.length < 2 ^ 31) :
    ntohl (uploadHeader n cfg) = toUInt32 n ∧
    ntohl ((uploadHeader n cfg).drop 4) = cfg.length ∧
    ntohl ((uploadHeader n cfg).drop 8) = toUInt32 (wrap32 (wrap32 (n * n) * 4)) := by
  have hmod : cfg.length % 2 ^ 32 = cfg.length := Nat.mod_eq_of_lt (by norm_num at hc ⊢; omega)
  refine ⟨?_, ?_, ?_⟩
  · unfold uploadHeader
    rw [List.append_assoc]
    exact ntohl_htonl_append _ (toUInt32_lt _) _
  · have : (uploadHeader n cfg).drop 4
        = htonl (cfg.length % 2 ^ 32) ++ htonl (toUInt32 (wrap32 (wrap32 (n * n) * 4))) := rfl
    rw [this, ntohl_htonl_append _ (Nat.mod_lt _ (by norm_num)), hmod]
  · have : (uploadHeader n cfg).drop 8 = htonl (toUInt32 (wrap32 (wrap32 (n * n) * 4))) ++ [] := rfl
    rw [this, ntohl_htonl_append _ (toUInt32_lt _)]

theorem upload_accept_encoded (ct : ClientTask) (sock : Sock) (hne : ∀ f ∈ sock.rx, f ≠ [])
    (n : Nat) (cfg : List Int) (M : Matrix) (rest : List Byte)
    (hM : IsSquare M n) (hv : ∀ r ∈ M, ∀ v ∈ r, IsInt32 v) (hcfg : ∀ v ∈ cfg, IsInt32 v)
    (hn : 4 * (n * n) < 2 ^ 31) (hc : 4 * cfg.length < 2 ^ 31)
    (hrx : sock.rx.flatten
      = uploadHeader n cfg ++ (encodeInts cfg ++ (encodeInts M.flatten ++ rest))) :
    (onUploadMatrix ct sock).alive = true ∧ (onUploadMatrix ct sock).spawned = false ∧
    (onUploadMatrix ct sock).ct
      = { ct with baseMatrix := M, threadConfigs := cfg.map clampThreads } ∧
    ∃ s3 : Sock, (onUploadMatrix ct sock).sock = (sendCommand s3 (bytesOf "MATRIX_RECEIVED")).2 ∧
      s3.rx.flatten = rest ∧ (∀ f ∈ s3.rx, f ≠ []) ∧ s3.tx = sock.tx ∧ s3.quota = sock.quota ∧
      s3.sends = sock.sends := by
  have hpow : (2 : Nat) ^ 31 = 2147483648 := by norm_num
  rw [hpow] at hn hc
  have hnn : n ≤ n * n := Nat.le_mul_self n
  obtain ⟨f1, f2, f3⟩ := uploadHeader_fields (n : Int) cfg (by rw [hpow]; omega)
  have hn32 : IsInt32 (n : Int) := by
    unfold IsInt32; norm_num; omega
  have hMlen : M.flatten.length = n * n := by
    rw [(flatten_uniform n M hM.2).1, hM.1]
  have hwnn : wrap32 ((n : Int) * n) = ((n * n : Nat) : Int) := by
    rw [← Nat.cast_mul]
    exact wrap32_natCast (by rw [hpow]; omega)
  have hw4 : wrap32 (wrap32 ((n : Int) * n) * 4) = ((4 * (n * n) : Nat) : Int) := by
    rw [hwnn]
    have : ((n * n : Nat) : Int) * 4 = ((4 * (n * n) : Nat) : Int) := by push_cast; ring
    rw [this]
    exact wrap32_natCast (by rw [hpow]; omega)
  obtain ⟨a1, a2, a3, a4⟩ := onUploadMatrix_accept ct sock hne (uploadHeader n cfg)
    (encodeInts cfg) (encodeInts M.flatten) rest n cfg.length hrx (uploadHeader_length _ _)
    (by rw [f1]; exact toInt32_toUInt32 hn32)
    (by rw [f2]; exact toInt32_of_lt (by rw [hpow]; omega))
    (by rw [f3]; exact toInt32_toUInt32 (isInt32_wrap32 _))
    (by
      have : ((cfg.length : Nat) : Int) * 4 = ((4 * cfg.length : Nat) : Int) := by push_cast; ring
      rw [this, encodeInts_length]
      exact wrap32_natCast (by rw [hpow]; omega))
    (by rw [hwnn]; exact Int.natCast_nonneg _)
    (by rw [hw4, encodeInts_length, hMlen])
  refine ⟨a1, a2, ?_, a4⟩
  rw [a3, fillMatrix_encodeInts hM hv, readConfigs_encodeInts _ cfg hcfg]

theorem clampThreads_pos {v : Int} (h : 0 < v) : clampThreads v = v := by
  unfold clampThreads
  rw [if_neg (by omega)]

theorem clampThreads_ge (v : Int) : 1 ≤ clampThreads v := by
  unfold clampThreads
  split_ifs <;> omega

theorem map_clampThreads_pos (cfg : List Int) (h : ∀ v ∈ cfg, 0 < v) :
    cfg.map clampThreads = cfg := by
  induction cfg with
  | nil => rfl
  | cons v l ih =>
    rw [List.map_cons, clampThreads_pos (h v (List.mem_cons_self _ _)),
      ih (fun x hx => h x (List.mem_cons_of_mem _ hx))]

theorem sendAllN_healthy (s : Sock) (buffer : List Byte) (length : Int) (hs : s.Healthy) :
    (sendAllN s buffer length).2.tx = s.tx ++ buffer.take length.toNat ∧
    (sendAllN s buffer length).2.Healthy := by
  obtain ⟨_, h2, _, h4⟩ := sendAll_healthy s (buffer.take length.toNat) hs
  refine ⟨h2, fun k => ?_⟩
  unfold sendAllN
  rw [h4]
  exact hs k

theorem clientUpload_tx (s : Sock) (n : Int) (cfg : List Int) (M : Matrix) (hs : s.Healthy) :
    (clientUpload s n cfg M).tx
      = s.tx ++ (packet (bytesOf "UPLOAD_MATRIX") ++ (uploadHeader n cfg
          ++ ((encodeInts cfg).take (sizeToInt (cfg.length * 4)).toNat
          ++ (encodeInts M.flatten).take (sizeToInt (M.flatten.length * 4)).toNat))) := by
  obtain ⟨_, b1, _, _⟩ := sendCommand_healthy s (bytesOf "UPLOAD_MATRIX") hs (by decide)
  have hs1 := sendCommand_healthy_preserved s (bytesOf "UPLOAD_MATRIX") hs
  obtain ⟨c1, hs2⟩ := sendAllN_healthy _ (uploadHeader n cfg) 12 hs1
  obtain ⟨d1, hs3⟩ := sendAllN_healthy _ (encodeInts cfg) (sizeToInt (cfg.length * 4)) hs2
  obtain ⟨e1, _⟩ := sendAllN_healthy _ (encodeInts M.flatten)
    (sizeToInt (M.flatten.length * 4)) hs3
  have h12 : (uploadHeader n cfg).take (12 : Int).toNat = uploadHeader n cfg := rfl
  unfold clientUpload
  simp only
  rw [e1, d1, c1, b1, h12]
  simp only [List.append_assoc]

theorem sizeToInt_small {x : Nat} (h : x < 2 ^ 31) : sizeToInt x = (x : Int) := by
  unfold sizeToInt
  have : x % 2 ^ 64 = x := Nat.mod_eq_of_lt (by norm_num at h ⊢; omega)
  rw [this]
  exact toInt32_of_lt h

theorem clientUpload_tx_small (s : Sock) (n : Int) (cfg : List Int) (M : Matrix) (hs : s.Healthy)
    (hc : 4 * cfg.length < 2 ^ 31) (hm : 4 * M.flatten.length < 2 ^ 31) :
    (clientUpload s n cfg M).tx
      = s.tx ++ (packet (bytesOf "UPLOAD_MATRIX") ++ (uploadHeader n cfg
          ++ (encodeInts cfg ++ encodeInts M.flatten))) := by
  rw [clientUpload_tx s n cfg M hs, sizeToInt_small (by omega), sizeToInt_small (by omega),
    Int.toNat_ofNat, Int.toNat_ofNat, List.take_of_length_le (by rw [encodeInts_length]; omega),
    List.take_of_length_le (by rw [encodeInts_length]; omega)]

/-! ## One pass of the command loop on a well-formed frame -/

theorem packet_eq (cmd : List Byte) (h : cmd.length ≤ 256) :
    packet cmd = htonl cmd.length ++ cmd ++ List.replicate (256 - cmd.length) 0 := by
  unfold packet
  rw [Nat.mod_eq_of_lt (by omega)]

theorem receiveCommand_packet (s : Sock) (out cmd rest : List Byte) (hne : ∀ f ∈ s.rx, f ≠ [])
    (hcmd : cmd.length ≤ 256) (hrx : s.rx.flatten = packet cmd ++ rest) :
    (receiveCommand s out).ok = true ∧ (receiveCommand s out).outCmd = cmd ∧
    (receiveCommand s out).sock.rx.flatten = rest ∧
    (∀ f ∈ (receiveCommand s out).sock.rx, f ≠ []) ∧
    (receiveCommand s out).sock.tx = s.tx ∧ (receiveCommand s out).sock.quota = s.quota := by
  obtain ⟨r1, r2, _, r4, r5, _⟩ := receiveCommand_spec s out hne
  obtain ⟨d1, d2, d3⟩ := packet_decodes cmd rest hcmd (List.replicate (256 - cmd.length) 0)
    (List.length_replicate _ _)
  rw [← packet_eq cmd hcmd, ← hrx] at d1 d2 d3
  have hok : (receiveCommand s out).ok = true := r1.2 ⟨d1, by omega⟩
  obtain ⟨q1, q2, q3⟩ := r2 hok
  refine ⟨hok, by rw [q1, d2, d3], ?_, q3, r4, r5⟩
  rw [q2, hrx, ← packet_length hcmd, List.drop_left]

theorem serveClient_step_packet (ct : ClientTask) (s : Sock) (cmd rest : List Byte)
    (hne : ∀ f ∈ s.rx, f ≠ []) (hcmd : cmd.length ≤ 256)
    (hrx : s.rx.flatten = packet cmd ++ rest) :
    serveClient_step ct s = handleCommand cmd ct (receiveCommand s []).sock := by
  obtain ⟨h1, h2, _⟩ := receiveCommand_packet s [] cmd rest hne hcmd hrx
  unfold serveClient_step
  simp only [h1, h2, if_true]

theorem onUploadMatrix_alive (ct : ClientTask) (sock : Sock)
    (hok : (onUploadMatrix ct sock).alive = true) :
    (recvAll sock 12).ret = 12 ∧
    0 ≤ toInt32 (ntohl ((recvAll sock 12).buf.drop 4)) ∧
    (recvAll (recvAll sock 12).sock
      (wrap32 (toInt32 (ntohl ((recvAll sock 12).buf.drop 4)) * 4))).ret
        = wrap32 (toInt32 (ntohl ((recvAll sock 12).buf.drop 4)) * 4) ∧
    (onUploadMatrix ct sock).ct.threadConfigs
      = readConfigs
          (vector_resize ct.threadConfigs (toInt32 (ntohl ((recvAll sock 12).buf.drop 4))).toNat)
          (toInt32 (ntohl ((recvAll sock 12).buf.drop 4))).toNat
          (recvAll (recvAll sock 12).sock
            (wrap32 (toInt32 (ntohl ((recvAll sock 12).buf.drop 4)) * 4))).buf := by
  unfold onUploadMatrix at hok ⊢
  dsimp only at hok ⊢
  by_cases h1 : (recvAll sock 12).ret ≠ 12
  · rw [if_pos h1] at hok; exact absurd hok (by simp)
  · simp only [if_neg h1] at hok ⊢
    by_cases h2 : toInt32 (ntohl (List.drop 8 (recvAll sock 12).buf)) ≠
        wrap32 (wrap32 (toInt32 (ntohl (recvAll sock 12).buf) * toInt32 (ntohl (recvAll sock 12).buf)) * 4)
    · rw [if_pos h2] at hok; exact absurd hok (by simp)
    · simp only [if_neg h2] at hok ⊢
      by_cases h3 : toInt32 (ntohl (recvAll sock 12).buf) < 0
      · rw [if_pos h3] at hok; exact absurd hok (by simp)
      · simp only [if_neg h3] at hok ⊢
        by_cases h4 : toInt32 (ntohl (List.drop 4 (recvAll sock 12).buf)) < 0
        · rw [if_pos h4] at hok; exact absurd hok (by simp)
        · simp only [if_neg h4] at hok ⊢
          by_cases h5 : (recvAll (recvAll sock 12).sock
              (wrap32 (toInt32 (ntohl (List.drop 4 (recvAll sock 12).buf)) * 4))).ret ≠
                wrap32 (toInt32 (ntohl (List.drop 4 (recvAll sock 12).buf)) * 4)
          · rw [if_pos h5] at hok; exact absurd hok (by simp)
          · simp only [if_neg h5] at hok ⊢
            refine ⟨not_not.1 h1, by omega, not_not.1 h5, ?_⟩
            split_ifs <;> rfl

theorem recvAll_neg (s : Sock) (L : Int) (h : L < 0) : (recvAll s L).ret = 0 := by
  unfold recvAll
  rw [Int.toNat_of_nonpos (le_of_lt h)]
  unfold recvLoop
  rw [List.length_nil, if_neg (by simpa using le_of_lt h)]
  rfl

theorem upload_configs_stored (ct : ClientTask) (sock : Sock) (hne : ∀ f ∈ sock.rx, f ≠ [])
    (hdr more : List Byte) (c : List Int)
    (hrx : sock.rx.flatten = hdr ++ (encodeInts c ++ more)) (hlen : hdr.length = 12)
    (hcount : toInt32 (ntohl (hdr.drop 4)) = (c.length : Int))
    (hc32 : ∀ v ∈ c, IsInt32 v) (hsmall : c.length < 2 ^ 30)
    (hok : (onUploadMatrix ct sock).alive = true) :
    (onUploadMatrix ct sock).ct.threadConfigs = c.map clampThreads := by
  have hpow : (2 : Nat) ^ 30 = 1073741824 := by norm_num
  rw [hpow] at hsmall
  obtain ⟨a1, _, _⟩ := recvAll_spec sock 12 hne
  obtain ⟨_, a12, a13, a14⟩ := a1 (by rw [hrx, List.length_append]; omega)
  have e12 : ((12 : Nat) : Int) = (12 : Int) := rfl
  rw [e12] at a12 a13 a14
  have hbuf1 : (recvAll sock 12).buf = hdr := by
    rw [a12, hrx, ← hlen, List.take_left]
  have hrx1 : (recvAll sock 12).sock.rx.flatten = encodeInts c ++ more := by
    rw [a13, hrx, ← hlen, List.drop_left]
  by_cases hfit : 536870912 ≤ c.length
  · exfalso
    obtain ⟨_, _, k3, _⟩ := onUploadMatrix_alive ct sock hok
    rw [hbuf1, hcount] at k3
    have hneg : wrap32 ((c.length : Int) * 4) < 0 := by
      have hx : ((c.length : Int) * 4 % 2 ^ 32).toNat = 4 * c.length := by omega
      unfold wrap32
      rw [hx]
      unfold toInt32
      norm_num
      split_ifs <;> omega
    rw [recvAll_neg _ _ hneg] at k3
    omega
  obtain ⟨b1, _, _⟩ := recvAll_spec (recvAll sock 12).sock (encodeInts c).length a14
  obtain ⟨_, b12, _, _⟩ := b1 (by rw [hrx1, List.length_append]; omega)
  have hbuf2 : (recvAll (recvAll sock 12).sock ((encodeInts c).length : Int)).buf = encodeInts c := by
    rw [b12, hrx1, List.take_left]
  have hcb : wrap32 ((c.length : Int) * 4) = ((encodeInts c).length : Int) := by
    have : ((c.length : Nat) : Int) * 4 = ((4 * c.length : Nat) : Int) := by push_cast; ring
    rw [this, encodeInts_length]
    exact wrap32_natCast (by norm_num; omega)
  obtain ⟨_, _, _, k4⟩ := onUploadMatrix_alive ct sock hok
  rw [k4, hbuf1, hcount, hcb, hbuf2, Int.toNat_ofNat]
  exact readConfigs_encodeInts _ c hc32

theorem upload_configs_ge_one (ct : ClientTask) (sock : Sock)
    (hok : (onUploadMatrix ct sock).alive = true) :
    ∀ v ∈ (onUploadMatrix ct sock).ct.threadConfigs, 1 ≤ v := by
  obtain ⟨_, _, _, k4⟩ := onUploadMatrix_alive ct sock hok
  intro v hv
  rw [k4, readConfigs_resize, List.mem_map] at hv
  obtain ⟨i, _, rfl⟩ := hv
  exact clampThreads_ge _

theorem packet_ne_nil (cmd : List Byte) : packet cmd ≠ [] := by
  unfold packet htonl
  simp

theorem buildReport_head (ct : ClientTask) : (buildReport ct).head? = some 82 := by
  unfold buildReport
  rw [foldl_append_flatten]
  rfl

theorem packet_fifth (cmd : List Byte) (b : Byte) (h : cmd.head? = some b) :
    (packet cmd).getD 4 0 = b := by
  cases cmd with
  | nil => simp at h
  | cons x xs =>
    simp only [List.head?_cons, Option.some.injEq] at h
    subst h
    rfl

theorem report_not_error (s : Sock) (ct : ClientTask) (hs : s.Healthy) :
    (sendCommand s (buildReport ct)).2.tx ≠ s.tx ++ packet (bytesOf "ERROR: NO RESULTS") := by
  by_cases hlong : 256 < (buildReport ct).length
  · rw [sendCommand_too_long s _ hlong]
    intro h
    have h' : s.tx = s.tx ++ packet (bytesOf "ERROR: NO RESULTS") := h
    have := congrArg List.length h'
    rw [List.length_append, packet_length (by decide)] at this
    omega
  · rw [(sendCommand_healthy s _ hs (by omega)).2.1]
    intro h
    have h2 := congrArg (fun l => l.getD 4 0) (List.append_cancel_left h)
    simp only at h2
    rw [packet_fifth _ 82 (buildReport_head ct), packet_fifth (bytesOf "ERROR: NO RESULTS") 69 rfl] at h2
    exact absurd h2 (by decide)

/-! ## lab2: chunked sums and minima -/

theorem wrap64_zero : wrap64 0 = 0 := by decide

theorem wrap64_wrap64_add (x y : Int) : wrap64 (wrap64 x + y) = wrap64 (x + y) := by
  unfold wrap64
  omega

theorem minWith_le (m : Int) (l : List Int) : minWith m l ≤ m := by
  unfold minWith
  induction l generalizing m with
  | nil => exact le_refl _
  | cons x l ih =>
    rw [List.foldl_cons]
    exact le_trans (ih _) (min_le_left _ _)

theorem minWith_append (m : Int) (l₁ l₂ : List Int) :
    minWith m (l₁ ++ l₂) = minWith (minWith m l₁) l₂ := by
  unfold minWith
  rw [List.foldl_append]

theorem min_minWith (g k : Int) (l : List Int) :
    min g (minWith k l) = minWith (min g k) l := by
  unfold minWith
  induction l generalizing k with
  | nil => rfl
  | cons x l ih =>
    rw [List.foldl_cons, List.foldl_cons, ih, min_assoc]

theorem minWith_perm (m : Int) {l₁ l₂ : List Int} (h : l₁.Perm l₂) :
    minWith m l₁ = minWith m l₂ := by
  unfold minWith
  exact List.Perm.foldl_eq' h (fun x _ y _ z => by
    rw [min_assoc, min_assoc, min_comm x y]) m

theorem casLoop_eq (spurious : Nat) (v localMin : Int) :
    casLoop spurious v localMin = min v localMin := by
  induction spurious with
  | zero =>
    unfold casLoop
    split_ifs with h
    · exact (min_eq_right (le_of_lt h)).symm
    · exact (min_eq_left (not_lt.mp h)).symm
  | succ k ih =>
    unfold casLoop
    split_ifs with h
    · exact ih
    · exact (min_eq_left (not_lt.mp h)).symm

theorem foldl_accumulate (xs : List Int) (s m : Int) :
    xs.foldl accumulate ⟨wrap64 s, m⟩
      = ⟨wrap64 (s + (xs.filter isOdd).sum), minWith m (xs.filter isOdd)⟩ := by
  induction xs generalizing s m with
  | nil => simp [minWith]
  | cons x xs ih =>
    rw [List.foldl_cons]
    by_cases hx : isOdd x = true
    · rw [List.filter_cons_of_pos hx, List.sum_cons]
      have h : accumulate ⟨wrap64 s, m⟩ x = ⟨wrap64 (s + x), min m x⟩ := by
        unfold accumulate
        rw [if_pos hx, wrap64_wrap64_add]
      rw [h, ih, add_assoc]
      rfl
    · rw [List.filter_cons_of_neg hx]
      have h : accumulate ⟨wrap64 s, m⟩ x = ⟨wrap64 s, m⟩ := by
        unfold accumulate
        rw [if_neg hx]
      rw [h, ih]

theorem scan_eq (a : List Int) (L R : Nat) :
    scan a L R = ⟨wrap64 (oddsIn a L R).sum, minWith INT_MAX (oddsIn a L R)⟩ := by
  have h := foldl_accumulate ((List.range' L (R - L)).map fun i => a.getD i 0) 0 INT_MAX
  rw [List.foldl_map, wrap64_zero, zero_add] at h
  exact h

theorem sequential_eq (a : List Int) (n : Nat) :
    sequential a n = ⟨wrap64 (oddsIn a 0 n).sum, minWith INT_MAX (oddsIn a 0 n)⟩ := by
  have h := scan_eq a 0 n
  unfold scan at h
  rw [Nat.sub_zero, ← List.range_eq_range'] at h
  exact h

theorem oddsIn_empty (a : List Int) {L R : Nat} (h : R ≤ L) : oddsIn a L R = [] := by
  unfold oddsIn
  rw [Nat.sub_eq_zero_of_le h]
  rfl

theorem oddsIn_append (a : List Int) {L M R : Nat} (h₁ : L ≤ M) (h₂ : M ≤ R) :
    oddsIn a L M ++ oddsIn a M R = oddsIn a L R := by
  unfold oddsIn
  rw [← List.filter_append, ← List.map_append]
  have h := List.range'_append L (M - L) (R - M) 1
  rw [Nat.one_mul, Nat.add_sub_cancel' h₁] at h
  rw [h]
  congr 3
  omega

theorem chunks_flatMap (a : List Int) (n c k : Nat) :
    (List.range k).flatMap (fun t => oddsIn a (t * c) (min n (t * c + c)))
      = oddsIn a 0 (min n (k * c)) := by
  induction k with
  | zero =>
    rw [Nat.zero_mul, Nat.min_zero]
    rfl
  | succ k ih =>
    rw [List.range_succ, List.flatMap_append, ih, Nat.succ_mul]
    have hs : [k].flatMap (fun t => oddsIn a (t * c) (min n (t * c + c)))
        = oddsIn a (k * c) (min n (k * c + c)) := by
      simp [List.flatMap]
    rw [hs]
    by_cases h : k * c ≤ n
    · rw [Nat.min_eq_right h]
      exact oddsIn_append a (Nat.zero_le _) (Nat.le_min.mpr ⟨h, Nat.le_add_right _ _⟩)
    · have h' : n ≤ k * c := Nat.le_of_lt (Nat.lt_of_not_le h)
      rw [Nat.min_eq_left h', Nat.min_eq_left (Nat.le_trans h' (Nat.le_add_right _ _)),
        oddsIn_empty a h', List.append_nil]

theorem le_mul_ceil (n T : Nat) (hT : 1 ≤ T) : n ≤ T * ((n + T - 1) / T) := by
  have h₁ := Nat.div_add_mod (n + T - 1) T
  have h₂ := Nat.mod_lt (n + T - 1) (Nat.lt_of_lt_of_le Nat.zero_lt_one hT)
  generalize T * ((n + T - 1) / T) = q at h₁ ⊢
  omega

theorem chunks_cover (a : List Int) (n T : Nat) (hT : 1 ≤ T) :
    (List.range T).flatMap (fun t =>
        oddsIn a (t * ((n + T - 1) / T)) (min n (t * ((n + T - 1) / T) + (n + T - 1) / T)))
      = oddsIn a 0 n := by
  rw [chunks_flatMap, Nat.min_eq_left]
  exact le_mul_ceil n T hT

theorem wrap64_add_wrap64 (x y : Int) : wrap64 (wrap64 x + wrap64 y) = wrap64 (x + y) := by
  unfold wrap64
  omega

theorem min_minWith_append (acc l : List Int) :
    min (minWith INT_MAX acc) (minWith INT_MAX l) = minWith INT_MAX (acc ++ l) := by
  rw [min_minWith, min_eq_left (minWith_le _ _), minWith_append]

theorem mutex_fold (a : List Int) (n c : Nat) (order : List Nat)
    (hb : ∀ t ∈ order, sizeT (t * c) = t * c ∧ sizeT (t * c + c) = t * c + c)
    (acc : List Int) :
    order.foldl (fun global t =>
        let L := sizeT (t * c)
        let R := min n (sizeT (L + c))
        if L ≥ n then global
        else
          let loc := scan a L R
          (⟨wrap64 (global.sum + loc.sum), min global.minOdd loc.minOdd⟩ : Result))
        ⟨wrap64 acc.sum, minWith INT_MAX acc⟩
      = ⟨wrap64 (acc ++ order.flatMap fun t => oddsIn a (t * c) (min n (t * c + c))).sum,
          minWith INT_MAX
            (acc ++ order.flatMap fun t => oddsIn a (t * c) (min n (t * c + c)))⟩ := by
  induction order generalizing acc with
  | nil => simp
  | cons t order ih =>
    have ht := hb t (List.mem_cons_self _ _)
    have hrest : ∀ u ∈ order, sizeT (u * c) = u * c ∧ sizeT (u * c + c) = u * c + c :=
      fun u hu => hb u (List.mem_cons_of_mem _ hu)
    rw [List.foldl_cons, List.flatMap_cons, ← List.append_assoc]
    simp only [ht.1, ht.2]
    by_cases h : t * c ≥ n
    · rw [if_pos h, oddsIn_empty a (Nat.le_trans (Nat.min_le_left _ _) h), List.append_nil]
      exact ih hrest acc
    · rw [if_neg h, scan_eq]
      simp only [wrap64_add_wrap64, min_minWith_append, ← List.sum_append]
      exact ih hrest _

theorem atomic_sum_fold (a : List Int) (n c : Nat) (order : List Nat)
    (hb : ∀ t ∈ order, sizeT (t * c) = t * c ∧ sizeT (t * c + c) = t * c + c)
    (acc : List Int) :
    order.foldl (fun s t =>
        let L := sizeT (t * c)
        let R := min n (sizeT (L + c))
        if L ≥ n then s else wrap64 (s + (scan a L R).sum)) (wrap64 acc.sum)
      = wrap64 (acc ++ order.flatMap fun t => oddsIn a (t * c) (min n (t * c + c))).sum := by
  induction order generalizing acc with
  | nil => simp
  | cons t order ih =>
    have ht := hb t (List.mem_cons_self _ _)
    have hrest : ∀ u ∈ order, sizeT (u * c) = u * c ∧ sizeT (u * c + c) = u * c + c :=
      fun u hu => hb u (List.mem_cons_of_mem _ hu)
    rw [List.foldl_cons, List.flatMap_cons, ← List.append_assoc]
    simp only [ht.1, ht.2]
    by_cases h : t * c ≥ n
    · rw [if_pos h, oddsIn_empty a (Nat.le_trans (Nat.min_le_left _ _) h), List.append_nil]
      exact ih hrest acc
    · rw [if_neg h, scan_eq]
      simp only [wrap64_add_wrap64, ← List.sum_append]
      exact ih hrest _

theorem atomic_min_fold (spurious : Nat → Nat) (a : List Int) (n c : Nat) (order : List Nat)
    (hb : ∀ t ∈ order, sizeT (t * c) = t * c ∧ sizeT (t * c + c) = t * c + c)
    (acc : List Int) :
    order.foldl (fun m t =>
        let L := sizeT (t * c)
        let R := min n (sizeT (L + c))
        if L ≥ n then m else casLoop (spurious t) m (scan a L R).minOdd)
        (minWith INT_MAX acc)
      = minWith INT_MAX
          (acc ++ order.flatMap fun t => oddsIn a (t * c) (min n (t * c + c))) := by
  simp only [casLoop_eq]
  induction order generalizing acc with
  | nil => simp
  | cons t order ih =>
    have ht := hb t (List.mem_cons_self _ _)
    have hrest : ∀ u ∈ order, sizeT (u * c) = u * c ∧ sizeT (u * c + c) = u * c + c :=
      fun u hu => hb u (List.mem_cons_of_mem _ hu)
    rw [List.foldl_cons, List.flatMap_cons, ← List.append_assoc]
    simp only [ht.1, ht.2]
    by_cases h : t * c ≥ n
    · rw [if_pos h, oddsIn_empty a (Nat.le_trans (Nat.min_le_left _ _) h), List.append_nil]
      exact ih hrest acc
    · rw [if_neg h, scan_eq]
      simp only [min_minWith_append]
      exact ih hrest _

theorem threadTotal_bounds (threadsCount : Int) (h : IsInt32 threadsCount) :
    1 ≤ threadTotal threadsCount ∧ threadTotal threadsCount < 2 ^ 31 := by
  unfold IsInt32 at h
  unfold threadTotal
  split_ifs with h1 <;> omega

theorem chunkSize_exact (n T : Nat) (hn : n * 4 < 2 ^ 64) (hT : T < 2 ^ 31) :
    chunkSize n T = (n + T - 1) / T := by
  unfold chunkSize sizeT
  rw [Nat.mod_eq_of_lt (by omega)]

theorem chunk_bounds (n T : Nat) (hn : n * 4 < 2 ^ 64) (hT : T < 2 ^ 31) (t : Nat)
    (ht : t < T) :
    sizeT (t * ((n + T - 1) / T)) = t * ((n + T - 1) / T) ∧
      sizeT (t * ((n + T - 1) / T) + (n + T - 1) / T)
        = t * ((n + T - 1) / T) + (n + T - 1) / T := by
  have h₁ : T * ((n + T - 1) / T) ≤ n + T - 1 := Nat.mul_div_le _ _
  have h₂ : (t + 1) * ((n + T - 1) / T) ≤ T * ((n + T - 1) / T) :=
    Nat.mul_le_mul_right _ ht
  rw [Nat.succ_mul] at h₂
  generalize (n + T - 1) / T = c at h₁ h₂ ⊢
  generalize T * c = q at h₁ h₂
  generalize t * c = p at h₂ ⊢
  unfold sizeT
  constructor <;> exact Nat.mod_eq_of_lt (by omega)

theorem perm_chunks (a : List Int) (n T : Nat) (hT : 1 ≤ T) {order : List Nat}
    (ho : order.Perm (List.range T)) :
    (order.flatMap fun t =>
        oddsIn a (t * ((n + T - 1) / T)) (min n (t * ((n + T - 1) / T) + (n + T - 1) / T))).Perm
      (oddsIn a 0 n) := by
  have h := List.Perm.flatMap_right (fun t =>
    oddsIn a (t * ((n + T - 1) / T)) (min n (t * ((n + T - 1) / T) + (n + T - 1) / T))) ho
  rw [chunks_cover a n T hT] at h
  exact h

theorem parallel_mutex_in_eq (order : List Nat) (a : List Int) (n : Nat) (threadsCount : Int)
    (hn : n * 4 < 2 ^ 64) (ht : IsInt32 threadsCount)
    (ho : order.Perm (List.range (threadTotal threadsCount))) :
    parallel_mutex_in order a n threadsCount = sequential a n := by
  obtain ⟨hT1, hT⟩ := threadTotal_bounds threadsCount ht
  have hb := fun t (h : t ∈ order) =>
    chunk_bounds n _ hn hT t (List.mem_range.mp ((List.Perm.mem_iff ho).mp h))
  have h := mutex_fold a n _ order hb []
  rw [List.sum_nil, wrap64_zero, List.nil_append] at h
  have hp := perm_chunks a n _ hT1 ho
  unfold parallel_mutex_in
  rw [chunkSize_exact n _ hn hT, sequential_eq, ← List.Perm.sum_eq hp, ← minWith_perm _ hp]
  exact h

theorem parallel_atomic_in_eq (orderSum orderMin : List Nat) (spurious : Nat → Nat)
    (a : List Int) (n : Nat) (threadsCount : Int)
    (hn : n * 4 < 2 ^ 64) (ht : IsInt32 threadsCount)
    (hs : orderSum.Perm (List.range (threadTotal threadsCount)))
    (hm : orderMin.Perm (List.range (threadTotal threadsCount))) :
    parallel_atomic_in orderSum orderMin spurious a n threadsCount = sequential a n := by
  obtain ⟨hT1, hT⟩ := threadTotal_bounds threadsCount ht
  have hbs := fun t (h : t ∈ orderSum) =>
    chunk_bounds n _ hn hT t (List.mem_range.mp ((List.Perm.mem_iff hs).mp h))
  have hbm := fun t (h : t ∈ orderMin) =>
    chunk_bounds n _ hn hT t (List.mem_range.mp ((List.Perm.mem_iff hm).mp h))
  have h1 := atomic_sum_fold a n _ orderSum hbs []
  have h2 := atomic_min_fold spurious a n _ orderMin hbm []
  rw [List.sum_nil, wrap64_zero, List.nil_append] at h1
  rw [List.nil_append] at h2
  have hp1 := perm_chunks a n _ hT1 hs
  have hp2 := perm_chunks a n _ hT1 hm
  unfold parallel_atomic_in
  rw [chunkSize_exact n _ hn hT, sequential_eq, ← List.Perm.sum_eq hp1, ← minWith_perm _ hp2]
  exact congrArg₂ Result.mk h1 h2

theorem sequential_no_odd (a : List Int) (n : Nat)
    (h : ∀ i, i < n → isOdd (a.getD i 0) = false) : sequential a n = ⟨0, INT_MAX⟩ := by
  have he : oddsIn a 0 n = [] := by
    unfold oddsIn
    rw [List.filter_eq_nil_iff]
    intro x hx
    obtain ⟨i, hi, rfl⟩ := List.mem_map.mp hx
    rw [List.mem_range'] at hi
    obtain ⟨k, hk, rfl⟩ := hi
    rw [h _ (by omega)]
    exact Bool.false_ne_true
  rw [sequential_eq, he]
  rfl

/-! ## Claims about the parallel transpose engine -/

/-- C1: for every `n`, every `n x n` matrix `M` and every positive worker count `k`,
`transpose_multi` (server.cpp and main.cpp versions), with the workers' chunks run in any
order, leaves `M'` with `M'[j][i] = M[i][j]` for all `i, j < n`; main.cpp's own check
`is_transposed_ok` then answers `true`. -/
theorem C1_transpose_multi_transposes (n : Nat) (M : Matrix) (k : Int)
    (order : List (Nat × Nat)) (hM : IsSquare M n) (hk : 0 < k)
    (horder : order.Perm (spawnedChunks n k.toNat)) :
    (∀ i j, i < n → j < n → cell (transpose_multi_in order M k) j i = cell M i j) ∧
    (∀ i j, i < n → j < n → cell (transpose_multi_main_in order M n) j i = cell M i j) ∧
    is_transposed_ok M (transpose_multi_main_in order M n) n = true := by
  have h1 := (transpose_multi_in_spec hM k horder).2
  have h2 := (runWorkers_perm_spec (k := k.toNat) (by omega) hM horder).2
  have h3 : ∀ i j, i < n → j < n → cell (transpose_multi_main_in order M n) j i = cell M i j := by
    intro i j hi hj
    unfold transpose_multi_main_in
    rw [h2]
    split_ifs with hc
    · rfl
    · exact cell_diag_or_out hM j i hc
  refine ⟨fun i j _ _ => h1 j i, h3, ?_⟩
  unfold is_transposed_ok
  rw [List.all_eq_true]
  intro i hi
  rw [List.all_eq_true]
  intro j hj
  rw [List.mem_range] at hi hj
  rw [h3 i j hi hj]
  exact beq_self_eq_true _

theorem C1_transpose_multi_transposes_witness :
    (∀ i j, i < 2 → j < 2 →
      cell (transpose_multi_in [(1, 2), (0, 1)] [[1, 2], [3, 4]] 2) j i = cell [[1, 2], [3, 4]] i j) ∧
    (∀ i j, i < 2 → j < 2 →
      cell (transpose_multi_main_in [(1, 2), (0, 1)] [[1, 2], [3, 4]] 2) j i
        = cell [[1, 2], [3, 4]] i j) ∧
    is_transposed_ok [[1, 2], [3, 4]] (transpose_multi_main_in [(1, 2), (0, 1)] [[1, 2], [3, 4]] 2) 2
      = true :=
  C1_transpose_multi_transposes 2 [[1, 2], [3, 4]] 2 [(1, 2), (0, 1)] (by decide) (by decide)
    (by decide)

/-- C2: for every square matrix `M` and all integer worker counts `k1`, `k2` (values `<= 0`
take the sequential branch, as `1` does), `transpose_multi(M, k1)` and `transpose_multi(M, k2)`
are the same matrix, whatever the order the workers run in, and both equal the single
sequential pass `transpose_part(M, n, 0, n)`. -/
theorem C2_transpose_multi_independent_of_workers (n : Nat) (M : Matrix) (k1 k2 : Int)
    (o1 o2 : List (Nat × Nat)) (hM : IsSquare M n)
    (h1 : o1.Perm (spawnedChunks n k1.toNat)) (h2 : o2.Perm (spawnedChunks n k2.toNat)) :
    transpose_multi_in o1 M k1 = transpose_multi_in o2 M k2 ∧
    transpose_multi_in o1 M k1 = transpose_part M n 0 n ∧
    transpose_multi M k1 = transpose_multi M k2 ∧
    transpose_multi M k1 = transpose_part M n 0 n := by
  have hl : M.length = n := hM.1
  have a1 := transpose_multi_in_spec hM k1 h1
  have a2 := transpose_multi_in_spec hM k2 h2
  have a3 := transpose_part_full hM
  have e3 : ∀ p q, cell (transpose_part M n 0 n) p q = cell M q p := by
    intro p q
    rw [a3.2]
    split_ifs with hc
    · rfl
    · exact cell_diag_or_out hM p q hc
  have b1 := transpose_multi_in_spec hM k1 (List.Perm.refl (spawnedChunks n k1.toNat))
  have b2 := transpose_multi_in_spec hM k2 (List.Perm.refl (spawnedChunks n k2.toNat))
  refine ⟨Matrix_ext a1.1 a2.1 (fun p q => by rw [a1.2, a2.2]),
    Matrix_ext a1.1 a3.1 (fun p q => by rw [a1.2, e3]), ?_, ?_⟩
  · unfold transpose_multi
    rw [hl]
    exact Matrix_ext b1.1 b2.1 (fun p q => by rw [b1.2, b2.2])
  · unfold transpose_multi
    rw [hl]
    exact Matrix_ext b1.1 a3.1 (fun p q => by rw [b1.2, e3])

theorem C2_transpose_multi_independent_of_workers_witness :
    transpose_multi_in [(2, 3), (0, 2)] [[1, 2, 3], [4, 5, 6], [7, 8, 9]] 2
      = transpose_multi_in [] [[1, 2, 3], [4, 5, 6], [7, 8, 9]] (-4) ∧
    transpose_multi_in [(2, 3), (0, 2)] [[1, 2, 3], [4, 5, 6], [7, 8, 9]] 2
      = transpose_part [[1, 2, 3], [4, 5, 6], [7, 8, 9]] 3 0 3 ∧
    transpose_multi [[1, 2, 3], [4, 5, 6], [7, 8, 9]] 2
      = transpose_multi [[1, 2, 3], [4, 5, 6], [7, 8, 9]] (-4) ∧
    transpose_multi [[1, 2, 3], [4, 5, 6], [7, 8, 9]] 2
      = transpose_part [[1, 2, 3], [4, 5, 6], [7, 8, 9]] 3 0 3 :=
  C2_transpose_multi_independent_of_workers 3 [[1, 2, 3], [4, 5, 6], [7, 8, 9]] 2 (-4)
    [(2, 3), (0, 2)] [] (by decide) (by decide) (by decide)

/-- C3: for `n >= 1` and `k >= 2` the row ranges `[start, end)` that `transpose_multi`
hands to workers are non-empty; range `t` has `n / k + 1` rows when `t < n % k` and `n / k`
rows otherwise; consecutive ranges are contiguous, the first starts at `0`, the last ends
at `n`; the ranges are pairwise disjoint and cover exactly `[0, n)`; exactly `min n k`
workers are spawned; and these are the workers `transpose_multi` runs. -/
theorem C3_chunks_partition_rows (n k : Nat) (hn : 1 ≤ n) (hk : 2 ≤ k) :
    (spawnedChunks n k).length = min n k ∧
    (∀ t s e, (spawnedChunks n k)[t]? = some (s, e) →
      s < e ∧ e - s = n / k + (if t < n % k then 1 else 0)) ∧
    (∀ t c d, (spawnedChunks n k)[t]? = some c → (spawnedChunks n k)[t + 1]? = some d →
      c.2 = d.1) ∧
    (spawnedChunks n k).head?.map Prod.fst = some 0 ∧
    (spawnedChunks n k).getLast?.map Prod.snd = some n ∧
    (spawnedChunks n k).Pairwise RowDisjoint ∧
    (∀ i, (∃ c ∈ spawnedChunks n k, c.1 ≤ i ∧ i < c.2) ↔ i < n) ∧
    (∀ a : Matrix, a.length = n →
      transpose_multi a (k : Int) = runWorkers a n (spawnedChunks n k)) := by
  have hk1 : 1 ≤ k := by omega
  have hlen := spawnedChunks_length (n := n) hk1
  have hpos : 0 < min n k := by omega
  refine ⟨hlen, ?_, ?_, ?_, ?_, spawnedChunks_pairwise n k, ?_, ?_⟩
  · intro t s e h
    obtain ⟨ht, hc⟩ := spawnedChunks_getElem? hk1 h
    simp only [Prod.mk.injEq] at hc
    have h1 := chunk_nonempty n k ht
    have h2 := chunkStart_succ (n / k) (n % k) t
    rw [hc.1, hc.2]
    exact ⟨h1, by omega⟩
  · intro t c d hc hd
    obtain ⟨_, rfl⟩ := spawnedChunks_getElem? hk1 hc
    obtain ⟨_, rfl⟩ := spawnedChunks_getElem? hk1 hd
    rfl
  · rw [spawnedChunks_eq n k hk1, List.head?_map, List.head?_range']
    have : min n k ≠ 0 := by omega
    simp [this, chunkStart]
  · rw [spawnedChunks_eq n k hk1, List.getLast?_map, List.getLast?_range']
    have h0 : min n k ≠ 0 := by omega
    have h1 : 0 + min n k - 1 + 1 = min n k := by omega
    simp only [h0, if_false, Option.map_some', h1, chunkStart_last n k hk1]
  · intro i
    constructor
    · rintro ⟨c, hc, _, h2⟩
      have := spawnedChunks_le hk1 c hc
      omega
    · intro hi
      exact spawnedChunks_cover hk1 hi
  · intro a ha
    have h1 : ¬ (a.length = 0) := by omega
    have h2 : ¬ ((k : Int) ≤ 1) := by omega
    unfold transpose_multi transpose_multi_in
    simp only
    rw [if_neg h1, if_neg h2, ha, Int.toNat_ofNat]

theorem C3_chunks_partition_rows_witness :
    (spawnedChunks 5 3).length = min 5 3 ∧
    (∀ t s e, (spawnedChunks 5 3)[t]? = some (s, e) →
      s < e ∧ e - s = 5 / 3 + (if t < 5 % 3 then 1 else 0)) ∧
    (∀ t c d, (spawnedChunks 5 3)[t]? = some c → (spawnedChunks 5 3)[t + 1]? = some d →
      c.2 = d.1) ∧
    (spawnedChunks 5 3).head?.map Prod.fst = some 0 ∧
    (spawnedChunks 5 3).getLast?.map Prod.snd = some 5 ∧
    (spawnedChunks 5 3).Pairwise RowDisjoint ∧
    (∀ i, (∃ c ∈ spawnedChunks 5 3, c.1 ≤ i ∧ i < c.2) ↔ i < 5) ∧
    (∀ a : Matrix, a.length = 5 →
      transpose_multi a ((3 : Nat) : Int) = runWorkers a 5 (spawnedChunks 5 3)) :=
  C3_chunks_partition_rows 5 3 (by decide) (by decide)

/-- C4: for disjoint row ranges `[s1, e1)` and `[s2, e2)` the cells `transpose_part` reads or
writes for the first range, which are exactly `(i, j)` and `(j, i)` for `s1 <= i < e1`,
`i < j < n`, are disjoint from those of the second range; `transpose_part` leaves every
other cell as it was; hence no two workers of one `transpose_multi` run touch the same
cell. -/
theorem C4_workers_touch_disjoint_cells (n s1 e1 s2 e2 : Nat) (h1 : e1 ≤ n)
    (hd : ∀ i, ¬ (s1 ≤ i ∧ i < e1 ∧ s2 ≤ i ∧ i < e2)) :
    (∀ c, c ∈ touchedCells n s1 e1 ↔
      ∃ i j, s1 ≤ i ∧ i < e1 ∧ i < j ∧ j < n ∧ (c = (i, j) ∨ c = (j, i))) ∧
    (∀ c, c ∈ touchedCells n s1 e1 → c ∉ touchedCells n s2 e2) ∧
    (∀ a : Matrix, IsSquare a n → ∀ p q, (p, q) ∉ touchedCells n s1 e1 →
      cell (transpose_part a n s1 e1) p q = cell a p q) ∧
    (∀ k, (spawnedChunks n k).Pairwise fun c d =>
      ∀ x, x ∈ touchedCells n c.1 c.2 → x ∉ touchedCells n d.1 d.2) := by
  have hdis : RowDisjoint (s1, e1) (s2, e2) := hd
  refine ⟨fun c => mem_touchedCells, ?_, ?_, ?_⟩
  · intro c hc
    exact List.disjoint_left.1 (touchedCells_disjoint (n := n) hdis) hc
  · intro a ha p q hpq
    rw [(transpose_part_spec ha h1).2, if_neg (fun ho => hpq (mem_touchedCells_iff_owns.2 ho))]
  · intro k
    refine List.Pairwise.imp ?_ (spawnedChunks_pairwise n k)
    intro c d hcd x hx
    exact List.disjoint_left.1 (touchedCells_disjoint (n := n) hcd) hx

theorem C4_workers_touch_disjoint_cells_witness :
    (∀ c, c ∈ touchedCells 4 0 2 ↔
      ∃ i j, 0 ≤ i ∧ i < 2 ∧ i < j ∧ j < 4 ∧ (c = (i, j) ∨ c = (j, i))) ∧
    (∀ c, c ∈ touchedCells 4 0 2 → c ∉ touchedCells 4 2 4) ∧
    (∀ a : Matrix, IsSquare a 4 → ∀ p q, (p, q) ∉ touchedCells 4 0 2 →
      cell (transpose_part a 4 0 2) p q = cell a p q) ∧
    (∀ k, (spawnedChunks 4 k).Pairwise fun c d =>
      ∀ x, x ∈ touchedCells 4 c.1 c.2 → x ∉ touchedCells 4 d.1 d.2) :=
  C4_workers_touch_disjoint_cells 4 0 2 2 4 (by decide) (by omega)

/-! ## Claims about the frame codec -/

/-- C5: on a socket whose `send` keeps taking data, for every byte string `cmd` with
`|cmd| <= 256` `sendCommand` returns `true` and emits exactly one 260-byte frame (4-byte
big-endian length, the bytes of `cmd`, zero padding), and `receiveCommand` reading that
frame, however it is fragmented, returns exactly `cmd`; for `|cmd| > 256` `sendCommand`
returns `false` and emits nothing (on any socket). -/
theorem C5_sendCommand_roundtrip (s : Sock) (cmd : List Byte) (hs : s.Healthy) :
    (cmd.length ≤ 256 →
      (sendCommand s cmd).1 = true ∧
      (sendCommand s cmd).2.tx = s.tx ++ packet cmd ∧
      (packet cmd).length = 260 ∧
      packet cmd = htonl cmd.length ++ cmd ++ List.replicate (256 - cmd.length) 0 ∧
      ∀ (r : Sock) (out : List Byte), (∀ f ∈ r.rx, f ≠ []) → r.rx.flatten = packet cmd →
        (receiveCommand r out).ok = true ∧ (receiveCommand r out).outCmd = cmd ∧
        (receiveCommand r out).sock.rx.flatten = []) ∧
    (256 < cmd.length → sendCommand s cmd = (false, s)) := by
  refine ⟨fun h => ?_, fun h => sendCommand_too_long s cmd h⟩
  obtain ⟨h1, h2, _, _⟩ := sendCommand_healthy s cmd hs h
  have hp : packet cmd = htonl cmd.length ++ cmd ++ List.replicate (256 - cmd.length) 0 := by
    unfold packet
    rw [Nat.mod_eq_of_lt (by omega)]
  refine ⟨h1, h2, packet_length h, hp, fun r out hne hrx => ?_⟩
  obtain ⟨d1, d2, d3⟩ := packet_decodes cmd [] h (List.replicate (256 - cmd.length) 0)
    (List.length_replicate _ _)
  rw [List.append_nil, ← hp, ← hrx] at d1 d2 d3
  obtain ⟨r1, r2, _⟩ := receiveCommand_spec r out hne
  have hok : (receiveCommand r out).ok = true := r1.2 ⟨d1, by omega⟩
  obtain ⟨r3, r4, _⟩ := r2 hok
  refine ⟨hok, ?_, ?_⟩
  · rw [r3, d2, d3]
  · rw [r4, List.drop_eq_nil_iff, hrx, packet_length h]

theorem C5_sendCommand_roundtrip_witness :
    (([72, 73] : List Byte).length ≤ 256 →
      (sendCommand demoSock [72, 73]).1 = true ∧
      (sendCommand demoSock [72, 73]).2.tx = demoSock.tx ++ packet [72, 73] ∧
      (packet [72, 73]).length = 260 ∧
      packet [72, 73]
        = htonl ([72, 73] : List Byte).length ++ [72, 73]
          ++ List.replicate (256 - ([72, 73] : List Byte).length) 0 ∧
      ∀ (r : Sock) (out : List Byte), (∀ f ∈ r.rx, f ≠ []) → r.rx.flatten = packet [72, 73] →
        (receiveCommand r out).ok = true ∧ (receiveCommand r out).outCmd = [72, 73] ∧
        (receiveCommand r out).sock.rx.flatten = []) ∧
    (256 < ([72, 73] : List Byte).length → sendCommand demoSock [72, 73] = (false, demoSock)) :=
  C5_sendCommand_roundtrip demoSock [72, 73] (fun _ => (by decide : 0 < 3))

/-- C6: for every incoming byte stream delivered in non-empty fragments, `receiveCommand`
returns `true` exactly when at least 260 bytes arrive before the stream ends and the
big-endian declared length is `<= 256`; it then has consumed exactly 260 bytes and
`outCmd` is exactly the first `length` payload bytes, whatever the padding and whatever
the fragmentation; otherwise it returns `false` and leaves `outCmd` as it was. -/
theorem C6_receiveCommand_all_or_nothing (s : Sock) (out : List Byte)
    (hne : ∀ f ∈ s.rx, f ≠ []) :
    ((receiveCommand s out).ok = true ↔
      260 ≤ s.rx.flatten.length ∧ ntohl s.rx.flatten ≤ 256) ∧
    ((receiveCommand s out).ok = true →
      (receiveCommand s out).outCmd = (s.rx.flatten.drop 4).take (ntohl s.rx.flatten) ∧
      (receiveCommand s out).sock.rx.flatten = s.rx.flatten.drop 260) ∧
    ((receiveCommand s out).ok = false → (receiveCommand s out).outCmd = out) ∧
    (∀ payload pad rest : List Byte, payload.length ≤ 256 →
      pad.length = 256 - payload.length →
      s.rx.flatten = htonl payload.length ++ payload ++ pad ++ rest →
      (receiveCommand s out).ok = true ∧ (receiveCommand s out).outCmd = payload ∧
      (receiveCommand s out).sock.rx.flatten = rest) ∧
    (∀ s2 : Sock, (∀ f ∈ s2.rx, f ≠ []) → s2.rx.flatten = s.rx.flatten →
      (receiveCommand s2 out).ok = (receiveCommand s out).ok ∧
      (receiveCommand s2 out).outCmd = (receiveCommand s out).outCmd) := by
  obtain ⟨r1, r2, r3, _⟩ := receiveCommand_spec s out hne
  refine ⟨r1, fun h => ⟨(r2 h).1, (r2 h).2.1⟩, r3, ?_, ?_⟩
  · intro payload pad rest hp hpad hrx
    obtain ⟨d1, d2, d3⟩ := packet_decodes payload rest hp pad hpad
    rw [← hrx] at d1 d2 d3
    have hok : (receiveCommand s out).ok = true := r1.2 ⟨d1, by omega⟩
    obtain ⟨r4, r5, _⟩ := r2 hok
    refine ⟨hok, by rw [r4, d2, d3], ?_⟩
    rw [r5, hrx]
    have hl : (htonl payload.length ++ payload ++ pad).length = 260 := by
      simp [htonl]; omega
    rw [← hl, List.drop_left]
  · intro s2 hne2 hrx
    obtain ⟨q1, q2, q3, _⟩ := receiveCommand_spec s2 out hne2
    rw [hrx] at q1 q2
    cases hok : (receiveCommand s out).ok
    · have hok2 : (receiveCommand s2 out).ok = false := by
        cases h2 : (receiveCommand s2 out).ok
        · rfl
        · rw [r1.2 (q1.1 h2)] at hok; exact absurd hok (by simp)
      exact ⟨hok2, by rw [q3 hok2, r3 hok]⟩
    · have hok2 : (receiveCommand s2 out).ok = true := q1.2 (r1.1 hok)
      exact ⟨hok2, by rw [(q2 hok2).1, (r2 hok).1]⟩

theorem C6_receiveCommand_all_or_nothing_witness :
    (receiveCommand demoRecvSock []).ok = true ∧
    (receiveCommand demoRecvSock []).outCmd = [72, 73] ∧
    (receiveCommand demoRecvSock []).sock.rx.flatten = [] :=
  (C6_receiveCommand_all_or_nothing demoRecvSock []
    (by
      intro f hf
      simp only [demoRecvSock, List.mem_cons, List.mem_singleton, List.not_mem_nil,
        or_false] at hf
      rcases hf with e | e <;> rw [e]
      · exact List.cons_ne_nil _ _
      · exact List.cons_ne_nil _ _)).2.2.2.1
    [72, 73] (List.replicate 254 0) [] (by decide) (List.length_replicate 254 0)
    (by simp only [demoRecvSock, List.flatten_cons, List.flatten_nil, List.append_nil,
          List.append_assoc, List.length_cons, List.length_nil])

/-! ## Claims about the server command loop -/

/-- C7 (the code at the failing input): the header `n = 32768, configCount = 0,
expectedBytes = 0` has `expectedBytes != n * n * 4` over the integers, yet the 32-bit
product `n * n * 4` wraps to `0`, so the `UPLOAD_MATRIX` branch does not reject it: the
loop goes on, `MATRIX_RECEIVED` is sent and the session's matrix is replaced by one with
32768 rows. -/
theorem C7_upload_accepts_wrapped_byte_count :
    (ntohl (wrappedHeader.drop 8) : Int)
      ≠ (ntohl wrappedHeader : Int) * (ntohl wrappedHeader : Int) * 4 ∧
    (onUploadMatrix ClientTask.fresh wrappedUploadSock).alive = true ∧
    (onUploadMatrix ClientTask.fresh wrappedUploadSock).sock.tx
      = packet (bytesOf "MATRIX_RECEIVED") ∧
    (onUploadMatrix ClientTask.fresh wrappedUploadSock).ct.baseMatrix.length = 32768 ∧
    (onUploadMatrix ClientTask.fresh wrappedUploadSock).ct.baseMatrix
      ≠ ClientTask.fresh.baseMatrix := by
  have hne : ∀ f ∈ wrappedUploadSock.rx, f ≠ [] := by
    intro f hf
    simp only [wrappedUploadSock, List.mem_singleton] at hf
    rw [hf]; decide
  obtain ⟨h1, _, h3, s3, h4, _, _, h5, h6, _⟩ :=
    onUploadMatrix_accept ClientTask.fresh wrappedUploadSock hne wrappedHeader [] [] [] 32768 0
      (by simp [wrappedUploadSock]) (by decide) (by decide) (by decide) (by decide) (by decide)
      (by decide) (by decide)
  have hs3 : s3.Healthy := by
    intro k; rw [h6]; exact (by decide : 0 < 260)
  have hlenM : (onUploadMatrix ClientTask.fresh wrappedUploadSock).ct.baseMatrix.length = 32768 := by
    rw [h3]
    simp only [fillMatrix_length, List.length_replicate]
  refine ⟨by decide, h1, ?_, hlenM, ?_⟩
  · rw [h4, (sendCommand_healthy s3 _ hs3 (by decide)).2.1, h5]
    rfl
  · intro h
    rw [h] at hlenM
    exact absurd hlenM (by decide)

/-- C8 (as stated, refuted): a session reached by upload, `START_TRANSPOSE`, the
dispatcher's entry step and an upload of the empty matrix has its busy flag set and one
active dispatcher, and the command loop answers the next `START_TRANSPOSE` with
`ERROR: NO DATA`, not `ERROR: ALREADY`. -/
theorem C8_busy_without_data_counterexample :
    emptiedBusy.ct.isProcessing = true ∧ emptiedBusy.activeDispatchers = 1 ∧
    emptiedBusy.sock.rx.flatten = packet (bytesOf "START_TRANSPOSE") ∧
    (serveClient_step emptiedBusy.ct emptiedBusy.sock).sock.tx
      = emptiedBusy.sock.tx ++ packet (bytesOf "ERROR: NO DATA") ∧
    (serveClient_step emptiedBusy.ct emptiedBusy.sock).sock.tx
      ≠ emptiedBusy.sock.tx ++ packet (bytesOf "ERROR: ALREADY") := by
  decide

/-- C8 (amended): `START_TRANSPOSE` handled in a session state whose busy flag is set
replies `ERROR: ALREADY` when the matrix and the configuration list are both non-empty
and `ERROR: NO DATA` otherwise; either way no dispatcher is spawned, the loop goes on and
the session (cursor and timings included) is unchanged. -/
theorem C8_start_transpose_while_busy (ct : ClientTask) (sock : Sock) (hs : sock.Healthy)
    (hbusy : ct.isProcessing = true) :
    (handleCommand (bytesOf "START_TRANSPOSE") ct sock).spawned = false ∧
    (handleCommand (bytesOf "START_TRANSPOSE") ct sock).alive = true ∧
    (handleCommand (bytesOf "START_TRANSPOSE") ct sock).ct = ct ∧
    (ct.baseMatrix ≠ [] → ct.threadConfigs ≠ [] →
      (handleCommand (bytesOf "START_TRANSPOSE") ct sock).sock.tx
        = sock.tx ++ packet (bytesOf "ERROR: ALREADY")) ∧
    (ct.baseMatrix = [] ∨ ct.threadConfigs = [] →
      (handleCommand (bytesOf "START_TRANSPOSE") ct sock).sock.tx
        = sock.tx ++ packet (bytesOf "ERROR: NO DATA")) := by
  rw [handleCommand_start]
  unfold onStartTranspose
  by_cases hd : (ct.baseMatrix.isEmpty || ct.threadConfigs.isEmpty) = true
  · rw [if_pos hd]
    refine ⟨rfl, rfl, rfl, ?_, fun _ => (sendCommand_healthy sock _ hs (by decide)).2.1⟩
    intro h1 h2
    rw [Bool.or_eq_true, List.isEmpty_iff, List.isEmpty_iff] at hd
    rcases hd with e | e
    · exact absurd e h1
    · exact absurd e h2
  · rw [if_neg hd, if_pos hbusy]
    refine ⟨rfl, rfl, rfl, fun _ _ => (sendCommand_healthy sock _ hs (by decide)).2.1, ?_⟩
    intro h
    rw [Bool.or_eq_true, List.isEmpty_iff, List.isEmpty_iff] at hd
    exact absurd h hd

theorem C8_start_transpose_while_busy_witness :
    (handleCommand (bytesOf "START_TRANSPOSE") busyTask demoSock).spawned = false ∧
    (handleCommand (bytesOf "START_TRANSPOSE") busyTask demoSock).alive = true ∧
    (handleCommand (bytesOf "START_TRANSPOSE") busyTask demoSock).ct = busyTask ∧
    (busyTask.baseMatrix ≠ [] → busyTask.threadConfigs ≠ [] →
      (handleCommand (bytesOf "START_TRANSPOSE") busyTask demoSock).sock.tx
        = demoSock.tx ++ packet (bytesOf "ERROR: ALREADY")) ∧
    (busyTask.baseMatrix = [] ∨ busyTask.threadConfigs = [] →
      (handleCommand (bytesOf "START_TRANSPOSE") busyTask demoSock).sock.tx
        = demoSock.tx ++ packet (bytesOf "ERROR: NO DATA")) :=
  C8_start_transpose_while_busy busyTask demoSock (fun _ => (by decide : 0 < 3)) rfl

/-- C9 (the code at the failing input): after an upload and one `START_TRANSPOSE` a
dispatcher exists but the busy flag is still clear, since only the dispatcher thread sets
it; a second `START_TRANSPOSE` handled before that thread has taken a step is answered
`TRANSPOSE_STARTED` and creates a second dispatcher, and both then enter their loops. -/
theorem C9_second_start_spawns_second_dispatcher :
    ((Session.start raceSock).run [Event.command, Event.command]).activeDispatchers = 1 ∧
    ((Session.start raceSock).run [Event.command, Event.command]).ct.isProcessing = false ∧
    ((Session.start raceSock).run [Event.command, Event.command, Event.command]).activeDispatchers
      = 2 ∧
    ((Session.start raceSock).run [Event.command, Event.command, Event.command]).sock.tx
      = packet (bytesOf "MATRIX_RECEIVED") ++ packet (bytesOf "TRANSPOSE_STARTED")
        ++ packet (bytesOf "TRANSPOSE_STARTED") ∧
    ((Session.start raceSock).run [Event.command, Event.command, Event.command,
        Event.dispatcher 0 ⟨[]⟩, Event.dispatcher 1 ⟨[]⟩]).dispatchers
      = [DispatcherPc.pass 0, DispatcherPc.pass 0] := by
  decide

/-- C10 (as stated, refuted): in a finished session with twelve configurations, each with
its recorded time, the report is 283 bytes long, `sendCommand` refuses it, and handling
`REQUEST_RESULTS` sends no frame at all. -/
theorem C10_long_report_counterexample :
    twelveRuns.times ≠ [] ∧ twelveRuns.times.length = twelveRuns.threadConfigs.length ∧
    (reportText twelveRuns.baseMatrix.length twelveRuns.threadConfigs twelveRuns.times).length
      = 283 ∧
    (handleCommand (bytesOf "REQUEST_RESULTS") twelveRuns demoSock).sock.tx = demoSock.tx ∧
    (handleCommand (bytesOf "REQUEST_RESULTS") twelveRuns demoSock).sock.tx
      ≠ demoSock.tx ++ packet
          (reportText twelveRuns.baseMatrix.length twelveRuns.threadConfigs twelveRuns.times) := by
  decide

/-- C10 (amended): for every session state whose timings list is non-empty and has one
entry per configuration, handling `REQUEST_RESULTS` sends exactly one frame whose text is
`RESULT:\nMatrix <n>x<n>\n` followed by one line `<threads> threads: <seconds> s\n` per
configuration, in submission order, each with that configuration's recorded time,
provided that text is at most 256 bytes long; when it is longer no frame is sent. The
session is unchanged and the loop goes on. -/
theorem C10_request_results_report (ct : ClientTask) (sock : Sock) (hs : sock.Healthy)
    (ht : ct.times ≠ []) (hlen : ct.times.length = ct.threadConfigs.length) :
    ((reportText ct.baseMatrix.length ct.threadConfigs ct.times).length ≤ 256 →
      (handleCommand (bytesOf "REQUEST_RESULTS") ct sock).sock.tx
        = sock.tx ++ packet (reportText ct.baseMatrix.length ct.threadConfigs ct.times)) ∧
    (256 < (reportText ct.baseMatrix.length ct.threadConfigs ct.times).length →
      (handleCommand (bytesOf "REQUEST_RESULTS") ct sock).sock = sock) ∧
    (handleCommand (bytesOf "REQUEST_RESULTS") ct sock).ct = ct ∧
    (handleCommand (bytesOf "REQUEST_RESULTS") ct sock).alive = true ∧
    (handleCommand (bytesOf "REQUEST_RESULTS") ct sock).spawned = false := by
  have hne : ¬ (ct.times.isEmpty = true) := by
    rw [List.isEmpty_iff]; exact ht
  rw [handleCommand_results]
  unfold onRequestResults
  rw [if_neg hne, buildReport_eq ct hlen]
  refine ⟨fun h => (sendCommand_healthy sock _ hs h).2.1, fun h => ?_, rfl, rfl, rfl⟩
  simp only [sendCommand_too_long sock _ h]

theorem C10_request_results_report_witness :
    ((reportText twoRuns.baseMatrix.length twoRuns.threadConfigs twoRuns.times).length ≤ 256 →
      (handleCommand (bytesOf "REQUEST_RESULTS") twoRuns demoSock).sock.tx
        = demoSock.tx
          ++ packet (reportText twoRuns.baseMatrix.length twoRuns.threadConfigs twoRuns.times)) ∧
    (256 < (reportText twoRuns.baseMatrix.length twoRuns.threadConfigs twoRuns.times).length →
      (handleCommand (bytesOf "REQUEST_RESULTS") twoRuns demoSock).sock = demoSock) ∧
    (handleCommand (bytesOf "REQUEST_RESULTS") twoRuns demoSock).ct = twoRuns ∧
    (handleCommand (bytesOf "REQUEST_RESULTS") twoRuns demoSock).alive = true ∧
    (handleCommand (bytesOf "REQUEST_RESULTS") twoRuns demoSock).spawned = false :=
  C10_request_results_report twoRuns demoSock (fun _ => (by decide : 0 < 3)) (by decide)
    (by decide)

/-! ## Claims about uploads, the dispatcher and error replies -/

/-- C12 (as stated, refuted): in a session whose busy flag is set, with one active
dispatcher, the command loop handles an `UPLOAD_MATRIX` and replaces the base matrix
`[[5]]` by `[[7]]` and the configuration list `[1]` by `[3]`, the flag still being set. -/
theorem C12_upload_while_busy_counterexample :
    reuploadBusy.ct.isProcessing = true ∧ reuploadBusy.activeDispatchers = 1 ∧
    reuploadBusy.ct.baseMatrix = [[5]] ∧ reuploadBusy.ct.threadConfigs = [1] ∧
    (reuploadBusy.step Event.command).ct.baseMatrix = [[7]] ∧
    (reuploadBusy.step Event.command).ct.threadConfigs = [3] ∧
    (reuploadBusy.step Event.command).ct.isProcessing = true := by
  decide

/-- C12 (amended): in a session state whose busy flag is set, every command other than
`UPLOAD_MATRIX` leaves the base matrix and the configuration list (the whole session)
unchanged; `UPLOAD_MATRIX` is not gated by the busy flag: what it does to the matrix, the
configuration list, the socket and the loop is the same whether the flag is set or not. -/
theorem C12_only_upload_changes_matrix (cmd : List Byte) (ct : ClientTask) (sock : Sock)
    (hbusy : ct.isProcessing = true) :
    (cmd ≠ bytesOf "UPLOAD_MATRIX" → (handleCommand cmd ct sock).ct = ct) ∧
    (handleCommand (bytesOf "UPLOAD_MATRIX") ct sock).ct.baseMatrix
      = (handleCommand (bytesOf "UPLOAD_MATRIX") { ct with isProcessing := false } sock).ct.baseMatrix ∧
    (handleCommand (bytesOf "UPLOAD_MATRIX") ct sock).ct.threadConfigs
      = (handleCommand (bytesOf "UPLOAD_MATRIX") { ct with isProcessing := false } sock).ct.threadConfigs ∧
    (handleCommand (bytesOf "UPLOAD_MATRIX") ct sock).alive
      = (handleCommand (bytesOf "UPLOAD_MATRIX") { ct with isProcessing := false } sock).alive ∧
    (handleCommand (bytesOf "UPLOAD_MATRIX") ct sock).ct.isProcessing = true := by
  have hct : ct = { ({ ct with isProcessing := false } : ClientTask) with isProcessing := true } := by
    cases ct
    simp only at hbusy
    subst hbusy
    rfl
  have key : handleCommand (bytesOf "UPLOAD_MATRIX") ct sock
      = ⟨{ (onUploadMatrix { ct with isProcessing := false } sock).ct with isProcessing := true },
          (onUploadMatrix { ct with isProcessing := false } sock).sock,
          (onUploadMatrix { ct with isProcessing := false } sock).alive,
          (onUploadMatrix { ct with isProcessing := false } sock).spawned⟩ := by
    rw [handleCommand_upload]
    conv_lhs => rw [hct]
    exact onUploadMatrix_flag _ sock true
  refine ⟨fun hcmd => ?_, ?_, ?_, ?_, ?_⟩
  · unfold handleCommand
    rw [if_neg hcmd]
    unfold onHello onStartTranspose onRequestStatus onRequestResults onQuit onUnknown
    split_ifs <;> rfl
  · rw [key, handleCommand_upload]
  · rw [key, handleCommand_upload]
  · rw [key, handleCommand_upload]
  · rw [key]

theorem C12_only_upload_changes_matrix_witness :
    (bytesOf "HELLO" ≠ bytesOf "UPLOAD_MATRIX" →
      (handleCommand (bytesOf "HELLO") busyTask demoSock).ct = busyTask) ∧
    (handleCommand (bytesOf "UPLOAD_MATRIX") busyTask demoSock).ct.baseMatrix
      = (handleCommand (bytesOf "UPLOAD_MATRIX")
          { busyTask with isProcessing := false } demoSock).ct.baseMatrix ∧
    (handleCommand (bytesOf "UPLOAD_MATRIX") busyTask demoSock).ct.threadConfigs
      = (handleCommand (bytesOf "UPLOAD_MATRIX")
          { busyTask with isProcessing := false } demoSock).ct.threadConfigs ∧
    (handleCommand (bytesOf "UPLOAD_MATRIX") busyTask demoSock).alive
      = (handleCommand (bytesOf "UPLOAD_MATRIX")
          { busyTask with isProcessing := false } demoSock).alive ∧
    (handleCommand (bytesOf "UPLOAD_MATRIX") busyTask demoSock).ct.isProcessing = true :=
  C12_only_upload_changes_matrix (bytesOf "HELLO") busyTask demoSock rfl

/-- C13: for every session with a non-empty base matrix and a non-empty configuration
list, whatever its cursor and timings were, `processingThreadFunc` run alone returns; the
`work` matrix of every pass is `transpose_multi` of a copy of the base matrix (its transpose
when the matrix is square); the base matrix and the configuration list are unchanged, the
timings list holds exactly the measured time of each configuration in order, the cursor
is the index of the last configuration and the busy flag is cleared. -/
theorem C13_dispatcher_run_alone (clock : Nat → Seconds) (ct : ClientTask) (sock : Sock)
    (hm : ct.baseMatrix ≠ []) (hc : ct.threadConfigs ≠ []) :
    (processingThreadFunc clock ct sock).pc = DispatcherPc.finished ∧
    (processingThreadFunc clock ct sock).works
      = ct.threadConfigs.map (fun t => transpose_multi ct.baseMatrix t) ∧
    (∀ n, IsSquare ct.baseMatrix n → ∀ w ∈ (processingThreadFunc clock ct sock).works,
      ∀ i j, cell w j i = cell ct.baseMatrix i j) ∧
    (processingThreadFunc clock ct sock).ct.baseMatrix = ct.baseMatrix ∧
    (processingThreadFunc clock ct sock).ct.threadConfigs = ct.threadConfigs ∧
    (processingThreadFunc clock ct sock).ct.times
      = (List.range ct.threadConfigs.length).map clock ∧
    (processingThreadFunc clock ct sock).ct.times.length = ct.threadConfigs.length ∧
    (processingThreadFunc clock ct sock).ct.currentIndex = ct.threadConfigs.length - 1 ∧
    (processingThreadFunc clock ct sock).ct.isProcessing = false := by
  obtain ⟨h1, h2, h3⟩ := processingThreadFunc_spec clock ct sock hm hc
  refine ⟨h1, h2, ?_, by rw [h3], by rw [h3], by rw [h3], by rw [h3]; simp, by rw [h3],
    by rw [h3]⟩
  intro n hsq w hw i j
  rw [h2, List.mem_map] at hw
  obtain ⟨t, _, rfl⟩ := hw
  have := (transpose_multi_in_spec hsq t (List.Perm.refl (spawnedChunks n t.toNat))).2 j i
  unfold transpose_multi
  rw [hsq.1]
  exact this

theorem C13_dispatcher_run_alone_witness :
    (processingThreadFunc demoClock staleTask demoSock).pc = DispatcherPc.finished ∧
    (processingThreadFunc demoClock staleTask demoSock).works
      = staleTask.threadConfigs.map (fun t => transpose_multi staleTask.baseMatrix t) ∧
    (∀ n, IsSquare staleTask.baseMatrix n →
      ∀ w ∈ (processingThreadFunc demoClock staleTask demoSock).works,
      ∀ i j, cell w j i = cell staleTask.baseMatrix i j) ∧
    (processingThreadFunc demoClock staleTask demoSock).ct.baseMatrix = staleTask.baseMatrix ∧
    (processingThreadFunc demoClock staleTask demoSock).ct.threadConfigs
      = staleTask.threadConfigs ∧
    (processingThreadFunc demoClock staleTask demoSock).ct.times
      = (List.range staleTask.threadConfigs.length).map demoClock ∧
    (processingThreadFunc demoClock staleTask demoSock).ct.times.length
      = staleTask.threadConfigs.length ∧
    (processingThreadFunc demoClock staleTask demoSock).ct.currentIndex
      = staleTask.threadConfigs.length - 1 ∧
    (processingThreadFunc demoClock staleTask demoSock).ct.isProcessing = false :=
  C13_dispatcher_run_alone demoClock staleTask demoSock (by decide) (by decide)

/-- C15: for every session state, on a socket whose `send` keeps taking data,
`START_TRANSPOSE` with an empty matrix or an empty configuration list is answered
`ERROR: NO DATA`, `REQUEST_RESULTS` with an empty timings list `ERROR: NO RESULTS`, and any
command outside the six recognised ones `ERROR`; each time exactly that one frame is sent,
the loop goes on, no dispatcher is spawned and the session is unchanged. -/
theorem C15_error_replies_leave_state (ct : ClientTask) (sock : Sock) (hs : sock.Healthy) :
    (ct.baseMatrix = [] ∨ ct.threadConfigs = [] →
      (handleCommand (bytesOf "START_TRANSPOSE") ct sock).sock.tx
        = sock.tx ++ packet (bytesOf "ERROR: NO DATA") ∧
      (handleCommand (bytesOf "START_TRANSPOSE") ct sock).alive = true ∧
      (handleCommand (bytesOf "START_TRANSPOSE") ct sock).spawned = false ∧
      (handleCommand (bytesOf "START_TRANSPOSE") ct sock).ct = ct) ∧
    (ct.times = [] →
      (handleCommand (bytesOf "REQUEST_RESULTS") ct sock).sock.tx
        = sock.tx ++ packet (bytesOf "ERROR: NO RESULTS") ∧
      (handleCommand (bytesOf "REQUEST_RESULTS") ct sock).alive = true ∧
      (handleCommand (bytesOf "REQUEST_RESULTS") ct sock).spawned = false ∧
      (handleCommand (bytesOf "REQUEST_RESULTS") ct sock).ct = ct) ∧
    (∀ cmd : List Byte, cmd ≠ bytesOf "HELLO" → cmd ≠ bytesOf "UPLOAD_MATRIX" →
      cmd ≠ bytesOf "START_TRANSPOSE" → cmd ≠ bytesOf "REQUEST_STATUS" →
      cmd ≠ bytesOf "REQUEST_RESULTS" → cmd ≠ bytesOf "QUIT" →
      (handleCommand cmd ct sock).sock.tx = sock.tx ++ packet (bytesOf "ERROR") ∧
      (handleCommand cmd ct sock).alive = true ∧
      (handleCommand cmd ct sock).spawned = false ∧
      (handleCommand cmd ct sock).ct = ct) := by
  refine ⟨fun h => ?_, fun h => ?_, fun cmd h1 h2 h3 h4 h5 h6 => ?_⟩
  · have hd : (ct.baseMatrix.isEmpty || ct.threadConfigs.isEmpty) = true := by
      rw [Bool.or_eq_true, List.isEmpty_iff, List.isEmpty_iff]; exact h
    rw [handleCommand_start]
    unfold onStartTranspose
    rw [if_pos hd]
    exact ⟨(sendCommand_healthy sock _ hs (by decide)).2.1, rfl, rfl, rfl⟩
  · have hd : ct.times.isEmpty = true := by rw [List.isEmpty_iff]; exact h
    rw [handleCommand_results]
    unfold onRequestResults
    rw [if_pos hd]
    exact ⟨(sendCommand_healthy sock _ hs (by decide)).2.1, rfl, rfl, rfl⟩
  · unfold handleCommand
    rw [if_neg h1, if_neg h2, if_neg h3, if_neg h4, if_neg h5, if_neg h6]
    exact ⟨(sendCommand_healthy sock _ hs (by decide)).2.1, rfl, rfl, rfl⟩

theorem C15_error_replies_leave_state_witness :
    (ClientTask.fresh.baseMatrix = [] ∨ ClientTask.fresh.threadConfigs = [] →
      (handleCommand (bytesOf "START_TRANSPOSE") ClientTask.fresh demoSock).sock.tx
        = demoSock.tx ++ packet (bytesOf "ERROR: NO DATA") ∧
      (handleCommand (bytesOf "START_TRANSPOSE") ClientTask.fresh demoSock).alive = true ∧
      (handleCommand (bytesOf "START_TRANSPOSE") ClientTask.fresh demoSock).spawned = false ∧
      (handleCommand (bytesOf "START_TRANSPOSE") ClientTask.fresh demoSock).ct
        = ClientTask.fresh) ∧
    (ClientTask.fresh.times = [] →
      (handleCommand (bytesOf "REQUEST_RESULTS") ClientTask.fresh demoSock).sock.tx
        = demoSock.tx ++ packet (bytesOf "ERROR: NO RESULTS") ∧
      (handleCommand (bytesOf "REQUEST_RESULTS") ClientTask.fresh demoSock).alive = true ∧
      (handleCommand (bytesOf "REQUEST_RESULTS") ClientTask.fresh demoSock).spawned = false ∧
      (handleCommand (bytesOf "REQUEST_RESULTS") ClientTask.fresh demoSock).ct
        = ClientTask.fresh) ∧
    (∀ cmd : List Byte, cmd ≠ bytesOf "HELLO" → cmd ≠ bytesOf "UPLOAD_MATRIX" →
      cmd ≠ bytesOf "START_TRANSPOSE" → cmd ≠ bytesOf "REQUEST_STATUS" →
      cmd ≠ bytesOf "REQUEST_RESULTS" → cmd ≠ bytesOf "QUIT" →
      (handleCommand cmd ClientTask.fresh demoSock).sock.tx
        = demoSock.tx ++ packet (bytesOf "ERROR") ∧
      (handleCommand cmd ClientTask.fresh demoSock).alive = true ∧
      (handleCommand cmd ClientTask.fresh demoSock).spawned = false ∧
      (handleCommand cmd ClientTask.fresh demoSock).ct = ClientTask.fresh) :=
  C15_error_replies_leave_state ClientTask.fresh demoSock (fun _ => (by decide : 0 < 3))

/-! ## Claims about what an upload stores -/

/-- C11 (as stated, refuted): after a completed run (one recorded time, busy flag clear, no
active dispatcher) the command loop handles a second `UPLOAD_MATRIX`, answers
`MATRIX_RECEIVED` and stores the matrix `[[7]]`, but the timings list still holds the
earlier run's time, and the `REQUEST_RESULTS` handled next is answered with a `RESULT:`
frame carrying that time, not with `ERROR: NO RESULTS`. -/
theorem C11_reupload_keeps_timings_counterexample :
    reuploadDone.ct.times = [⟨bytesOf "0.000004"⟩] ∧ reuploadDone.ct.isProcessing = false ∧
    reuploadDone.activeDispatchers = 0 ∧ reuploaded.alive = true ∧
    reuploaded.sock.tx.drop reuploadDone.sock.tx.length = packet (bytesOf "MATRIX_RECEIVED") ∧
    reuploaded.ct.baseMatrix = [[7]] ∧ reuploaded.ct.times = [⟨bytesOf "0.000004"⟩] ∧
    (serveClient_step reuploaded.ct reuploaded.sock).sock.tx.drop reuploaded.sock.tx.length
      = packet (bytesOf "RESULT:\nMatrix 1x1\n3 threads: 0.000004 s\n") ∧
    (serveClient_step reuploaded.ct reuploaded.sock).sock.tx.drop reuploaded.sock.tx.length
      ≠ packet (bytesOf "ERROR: NO RESULTS") := by
  decide

/-- C11 (amended): a successful `UPLOAD_MATRIX` (an `n x n` matrix with `4 * n * n < 2^31`
and fewer than `2^29` configurations) replaces the base matrix with the uploaded one and
leaves the timings list as it was. The `REQUEST_RESULTS` handled next replies
`ERROR: NO RESULTS` when that list was empty (as on a new connection). After a completed
run it is not empty, and when it holds a time for every new configuration the reply is
never `ERROR: NO RESULTS`: it is the one frame whose text is the `RESULT:` report of the
new matrix size and the new (clamped) configurations, each paired in order with a time of
the earlier run, when that text is at most 256 bytes long, and no frame at all when it is
longer. -/
theorem C11_upload_leaves_timings (ct : ClientTask) (sock : Sock) (hs : sock.Healthy)
    (hne : ∀ f ∈ sock.rx, f ≠ []) (n : Nat) (cfg : List Int) (M : Matrix) (rest : List Byte)
    (hM : IsSquare M n) (hv : ∀ r ∈ M, ∀ v ∈ r, IsInt32 v) (hcfg : ∀ v ∈ cfg, IsInt32 v)
    (hn : 4 * (n * n) < 2 ^ 31) (hc : 4 * cfg.length < 2 ^ 31)
    (hrx : sock.rx.flatten
      = uploadHeader n cfg ++ (encodeInts cfg ++ (encodeInts M.flatten ++ rest))) :
    (handleCommand (bytesOf "UPLOAD_MATRIX") ct sock).alive = true ∧
    (handleCommand (bytesOf "UPLOAD_MATRIX") ct sock).sock.tx
      = sock.tx ++ packet (bytesOf "MATRIX_RECEIVED") ∧
    (handleCommand (bytesOf "UPLOAD_MATRIX") ct sock).ct.baseMatrix = M ∧
    (handleCommand (bytesOf "UPLOAD_MATRIX") ct sock).ct.times = ct.times ∧
    (ct.times = [] →
      (handleCommand (bytesOf "REQUEST_RESULTS")
          (handleCommand (bytesOf "UPLOAD_MATRIX") ct sock).ct
          (handleCommand (bytesOf "UPLOAD_MATRIX") ct sock).sock).sock.tx
        = (handleCommand (bytesOf "UPLOAD_MATRIX") ct sock).sock.tx
          ++ packet (bytesOf "ERROR: NO RESULTS")) ∧
    (ct.times ≠ [] → cfg.length ≤ ct.times.length →
      ((reportText n (cfg.map clampThreads) ct.times).length ≤ 256 →
        (handleCommand (bytesOf "REQUEST_RESULTS")
          (handleCommand (bytesOf "UPLOAD_MATRIX") ct sock).ct
          (handleCommand (bytesOf "UPLOAD_MATRIX") ct sock).sock).sock.tx
          = (handleCommand (bytesOf "UPLOAD_MATRIX") ct sock).sock.tx
            ++ packet (reportText n (cfg.map clampThreads) ct.times)) ∧
      (256 < (reportText n (cfg.map clampThreads) ct.times).length →
        (handleCommand (bytesOf "REQUEST_RESULTS")
          (handleCommand (bytesOf "UPLOAD_MATRIX") ct sock).ct
          (handleCommand (bytesOf "UPLOAD_MATRIX") ct sock).sock).sock
          = (handleCommand (bytesOf "UPLOAD_MATRIX") ct sock).sock) ∧
      (handleCommand (bytesOf "REQUEST_RESULTS")
          (handleCommand (bytesOf "UPLOAD_MATRIX") ct sock).ct
          (handleCommand (bytesOf "UPLOAD_MATRIX") ct sock).sock).sock.tx
        ≠ (handleCommand (bytesOf "UPLOAD_MATRIX") ct sock).sock.tx
          ++ packet (bytesOf "ERROR: NO RESULTS")) := by
  obtain ⟨a1, _, a3, s3, b1, _, _, b4, b5, _⟩ :=
    upload_accept_encoded ct sock hne n cfg M rest hM hv hcfg hn hc hrx
  have hs3 : s3.Healthy := fun k => by rw [b5]; exact hs k
  have hs' : (onUploadMatrix ct sock).sock.Healthy := by
    rw [b1]; exact sendCommand_healthy_preserved s3 _ hs3
  rw [handleCommand_upload, handleCommand_results]
  refine ⟨a1, ?_, by rw [a3], by rw [a3], fun ht => ?_, fun ht hle => ?_⟩
  · rw [b1, (sendCommand_healthy s3 _ hs3 (by decide)).2.1, b4]
  · have he : (onUploadMatrix ct sock).ct.times.isEmpty = true := by
      rw [a3, List.isEmpty_iff]; exact ht
    unfold onRequestResults
    rw [if_pos he]
    exact (sendCommand_healthy _ _ hs' (by decide)).2.1
  · have he : ¬ ((onUploadMatrix ct sock).ct.times.isEmpty = true) := by
      rw [a3, List.isEmpty_iff]; exact ht
    have hle' : (onUploadMatrix ct sock).ct.threadConfigs.length
        ≤ (onUploadMatrix ct sock).ct.times.length := by
      rw [a3]
      show (cfg.map clampThreads).length ≤ ct.times.length
      rw [List.length_map]
      exact hle
    have hb : buildReport (onUploadMatrix ct sock).ct
        = reportText n (cfg.map clampThreads) ct.times := by
      rw [buildReport_eq_of_le _ hle', a3]
      show reportText M.length _ _ = _
      rw [hM.1]
    have hnot := report_not_error (onUploadMatrix ct sock).sock (onUploadMatrix ct sock).ct hs'
    unfold onRequestResults
    rw [if_neg he]
    rw [hb] at hnot ⊢
    refine ⟨fun h => (sendCommand_healthy _ _ hs' h).2.1, fun h => ?_, hnot⟩
    rw [sendCommand_too_long _ _ h]

theorem C11_upload_leaves_timings_witness :
    (handleCommand (bytesOf "UPLOAD_MATRIX") twoRuns clampUploadSock).alive = true ∧
    (handleCommand (bytesOf "UPLOAD_MATRIX") twoRuns clampUploadSock).sock.tx
      = clampUploadSock.tx ++ packet (bytesOf "MATRIX_RECEIVED") ∧
    (handleCommand (bytesOf "UPLOAD_MATRIX") twoRuns clampUploadSock).ct.baseMatrix = [[7]] ∧
    (handleCommand (bytesOf "UPLOAD_MATRIX") twoRuns clampUploadSock).ct.times = twoRuns.times ∧
    (twoRuns.times = [] →
      (handleCommand (bytesOf "REQUEST_RESULTS")
          (handleCommand (bytesOf "UPLOAD_MATRIX") twoRuns clampUploadSock).ct
          (handleCommand (bytesOf "UPLOAD_MATRIX") twoRuns clampUploadSock).sock).sock.tx
        = (handleCommand (bytesOf "UPLOAD_MATRIX") twoRuns clampUploadSock).sock.tx
          ++ packet (bytesOf "ERROR: NO RESULTS")) ∧
    (twoRuns.times ≠ [] → ([2, -3] : List Int).length ≤ twoRuns.times.length →
      ((reportText 1 (([2, -3] : List Int).map clampThreads) twoRuns.times).length ≤ 256 →
        (handleCommand (bytesOf "REQUEST_RESULTS")
          (handleCommand (bytesOf "UPLOAD_MATRIX") twoRuns clampUploadSock).ct
          (handleCommand (bytesOf "UPLOAD_MATRIX") twoRuns clampUploadSock).sock).sock.tx
          = (handleCommand (bytesOf "UPLOAD_MATRIX") twoRuns clampUploadSock).sock.tx
            ++ packet (reportText 1 (([2, -3] : List Int).map clampThreads) twoRuns.times)) ∧
      (256 < (reportText 1 (([2, -3] : List Int).map clampThreads) twoRuns.times).length →
        (handleCommand (bytesOf "REQUEST_RESULTS")
          (handleCommand (bytesOf "UPLOAD_MATRIX") twoRuns clampUploadSock).ct
          (handleCommand (bytesOf "UPLOAD_MATRIX") twoRuns clampUploadSock).sock).sock
          = (handleCommand (bytesOf "UPLOAD_MATRIX") twoRuns clampUploadSock).sock) ∧
      (handleCommand (bytesOf "REQUEST_RESULTS")
          (handleCommand (bytesOf "UPLOAD_MATRIX") twoRuns clampUploadSock).ct
          (handleCommand (bytesOf "UPLOAD_MATRIX") twoRuns clampUploadSock).sock).sock.tx
        ≠ (handleCommand (bytesOf "UPLOAD_MATRIX") twoRuns clampUploadSock).sock.tx
          ++ packet (bytesOf "ERROR: NO RESULTS")) :=
  C11_upload_leaves_timings twoRuns clampUploadSock
    (fun _ => (by decide : 0 < 7)) (by decide) 1 [2, -3] [[7]] [] (by decide) (by decide)
    (by decide) (by decide) (by decide) (by decide)

/-- C14 (the code at the failing input): an upload of the 0 x 0 matrix with a configuration
list of `2 ^ 30` entries, all `5`, succeeds (`MATRIX_RECEIVED` is sent): the `int` product
`cfgCount * 4` wraps to `0`, no configuration byte is read, and the stored list is
`2 ^ 30` entries whose first is `1`, not `5`; the claim says the stored list is the
uploaded one with only its non-positive entries replaced by `1`. -/
theorem C14_huge_list_stored_as_ones :
    hugeConfig.length = 1073741824 ∧ (∀ v ∈ hugeConfig, IsInt32 v) ∧
    (onUploadMatrix ClientTask.fresh hugeConfigSock).alive = true ∧
    (onUploadMatrix ClientTask.fresh hugeConfigSock).sock.tx
      = packet (bytesOf "MATRIX_RECEIVED") ∧
    (onUploadMatrix ClientTask.fresh hugeConfigSock).ct.threadConfigs.length = 1073741824 ∧
    (onUploadMatrix ClientTask.fresh hugeConfigSock).ct.threadConfigs.head? = some 1 ∧
    hugeConfig.head? = some 5 ∧
    (onUploadMatrix ClientTask.fresh hugeConfigSock).ct.threadConfigs
      ≠ hugeConfig.map clampThreads := by
  have hlenC : hugeConfig.length = 1073741824 := by
    unfold hugeConfig
    rw [List.length_cons, List.length_replicate]
  have h32 : ∀ v ∈ hugeConfig, IsInt32 v := by
    intro v hv
    unfold hugeConfig at hv
    rcases List.mem_cons.1 hv with e | e
    · rw [e]; decide
    · rw [List.eq_of_mem_replicate e]; decide
  have hne : ∀ f ∈ hugeConfigSock.rx, f ≠ [] := by
    intro f hf
    simp only [hugeConfigSock, List.mem_singleton] at hf
    rw [hf]
    exact List.append_ne_nil_of_left_ne_nil (by decide) _
  obtain ⟨f1, f2, f3⟩ := uploadHeader_fields 0 hugeConfig (by rw [hlenC]; decide)
  obtain ⟨a1, _, a3, s3, b1, _, _, b4, b5, _⟩ :=
    onUploadMatrix_accept ClientTask.fresh hugeConfigSock hne (uploadHeader 0 hugeConfig) [] []
      (encodeInts hugeConfig) 0 1073741824
      (by
        show [uploadHeader 0 hugeConfig ++ encodeInts hugeConfig].flatten = _
        rw [List.flatten_cons, List.flatten_nil, List.append_nil, List.nil_append,
          List.nil_append])
      (uploadHeader_length _ _)
      (by rw [f1]; decide)
      (by rw [f2, hlenC]; decide)
      (by rw [f3]; decide)
      (by decide) (by decide) (by decide)
  have hs3 : s3.Healthy := fun k => by rw [b5]; exact (by decide : 0 < 260)
  have hstored : (onUploadMatrix ClientTask.fresh hugeConfigSock).ct.threadConfigs
      = (List.range 1073741824).map (fun i => clampThreads (toInt32 (wordAt [] i))) := by
    have h := congrArg ClientTask.threadConfigs a3
    rw [readConfigs_resize] at h
    simp only at h
    exact h
  have hhead : (onUploadMatrix ClientTask.fresh hugeConfigSock).ct.threadConfigs.head? = some 1 := by
    rw [hstored, List.head?_map, List.head?_range]
    decide
  have hhead2 : (hugeConfig.map clampThreads).head? = some 5 := by
    unfold hugeConfig
    rw [List.map_cons, List.head?_cons]
    decide
  refine ⟨hlenC, h32, a1, ?_, ?_, hhead, ?_, ?_⟩
  · rw [b1, (sendCommand_healthy s3 _ hs3 (by decide)).2.1, b4]
    rfl
  · rw [hstored, List.length_map, List.length_range]
  · unfold hugeConfig
    rfl
  · intro h
    rw [h, hhead2] at hhead
    exact absurd hhead (by decide)

/-- Away from the wrap of `cfgCount * 4` the clamp loop does its work: for every successful
`UPLOAD_MATRIX` with a configuration list `c` of fewer than `2 ^ 30` signed 32-bit values,
the stored thread-count list has the length and order of `c`, entry `i` being `c[i]` when
`c[i] > 0` and `1` otherwise; hence every stored thread count is `>= 1`. -/
theorem upload_configs_clamped_in_range (ct : ClientTask) (sock : Sock) (hne : ∀ f ∈ sock.rx, f ≠ [])
    (hdr more : List Byte) (c : List Int)
    (hrx : sock.rx.flatten = hdr ++ (encodeInts c ++ more)) (hlen : hdr.length = 12)
    (hcount : toInt32 (ntohl (hdr.drop 4)) = (c.length : Int))
    (hc32 : ∀ v ∈ c, IsInt32 v) (hsmall : c.length < 2 ^ 30)
    (hok : (handleCommand (bytesOf "UPLOAD_MATRIX") ct sock).alive = true) :
    (handleCommand (bytesOf "UPLOAD_MATRIX") ct sock).ct.threadConfigs.length = c.length ∧
    (∀ i, i < c.length →
      (handleCommand (bytesOf "UPLOAD_MATRIX") ct sock).ct.threadConfigs.getD i 0
        = if 0 < c.getD i 0 then c.getD i 0 else 1) ∧
    (∀ v ∈ (handleCommand (bytesOf "UPLOAD_MATRIX") ct sock).ct.threadConfigs, 1 ≤ v) := by
  rw [handleCommand_upload] at hok ⊢
  have hst := upload_configs_stored ct sock hne hdr more c hrx hlen hcount hc32 hsmall hok
  refine ⟨by rw [hst, List.length_map], fun i hi => ?_, upload_configs_ge_one ct sock hok⟩
  rw [hst, List.getD_eq_getElem _ _ (by rw [List.length_map]; exact hi), List.getElem_map,
    List.getD_eq_getElem _ _ hi]
  unfold clampThreads
  split_ifs <;> first | rfl | (exfalso; omega)

theorem upload_configs_clamped_in_range_witness :
    (handleCommand (bytesOf "UPLOAD_MATRIX") ClientTask.fresh clampUploadSock).ct.threadConfigs.length
      = ([2, -3] : List Int).length ∧
    (∀ i, i < ([2, -3] : List Int).length →
      (handleCommand (bytesOf "UPLOAD_MATRIX") ClientTask.fresh clampUploadSock).ct.threadConfigs.getD
          i 0
        = if 0 < ([2, -3] : List Int).getD i 0 then ([2, -3] : List Int).getD i 0 else 1) ∧
    (∀ v ∈ (handleCommand (bytesOf "UPLOAD_MATRIX") ClientTask.fresh clampUploadSock).ct.threadConfigs,
      1 ≤ v) :=
  upload_configs_clamped_in_range ClientTask.fresh clampUploadSock (by decide) (uploadHeader 1 [2, -3])
    (encodeInts [7]) [2, -3] (by decide) (by decide) (by decide) (by decide) (by decide)
    (by decide)

/-- C16 (the code at the failing input): for the 0 x 0 matrix and a list of `2 ^ 29` thread
counts, all `1`, the client's `sendAll` is handed the byte count `2 ^ 31` as an `int` and
sends no configuration byte; the server reads the header, finds the `int` product
`cfgCount * 4` negative, and leaves its loop without replying; the claim says the upload
is accepted and answered `MATRIX_RECEIVED`. -/
theorem C16_many_configs_not_accepted :
    manyConfigs.length = 536870912 ∧ (∀ v ∈ manyConfigs, 0 < v) ∧
    IsSquare ([] : Matrix) 0 ∧ 0 * 0 * 4 < 2 ^ 31 ∧
    (serveClient_step ClientTask.fresh manyConfigsSock).alive = false ∧
    (serveClient_step ClientTask.fresh manyConfigsSock).sock.tx = [] := by
  have hlenC : manyConfigs.length = 536870912 := by
    unfold manyConfigs
    rw [List.length_cons, List.length_replicate]
  have hpos : ∀ v ∈ manyConfigs, 0 < v := by
    intro v hv
    unfold manyConfigs at hv
    rcases List.mem_cons.1 hv with e | e
    · rw [e]; decide
    · rw [List.eq_of_mem_replicate e]; decide
  have hsize : (sizeToInt (manyConfigs.length * 4)).toNat = 0 := by
    rw [hlenC]; decide
  have hhdr : uploadHeader 0 manyConfigs = htonl 0 ++ htonl 536870912 ++ htonl 0 := by
    unfold uploadHeader
    rw [hlenC]
    decide
  have hemit : (clientUpload demoSock 0 manyConfigs []).tx
      = packet (bytesOf "UPLOAD_MATRIX") ++ (htonl 0 ++ htonl 536870912 ++ htonl 0) := by
    rw [clientUpload_tx demoSock 0 manyConfigs [] (fun _ => (by decide : 0 < 3)), hsize, hhdr,
      List.take_zero]
    decide
  have hsock : manyConfigsSock
      = ⟨[packet (bytesOf "UPLOAD_MATRIX") ++ (htonl 0 ++ htonl 536870912 ++ htonl 0)], [],
          fun _ => 260, 0⟩ := by
    unfold manyConfigsSock
    rw [hemit]
  refine ⟨hlenC, hpos, by decide, by decide, ?_, ?_⟩
  · rw [hsock]; decide
  · rw [hsock]; decide

/-- Where the byte count of the configuration list fits an `int` the round trip works: for
every `n` with `n * n * 4 < 2^31`, every `n x n` matrix of 32-bit integers and every list
of fewer than `2 ^ 29` positive thread counts, the bytes the client emits for an upload
(the `UPLOAD_MATRIX` frame, the header, the configuration list and the row-major matrix,
in network byte order), however they are fragmented on the way, are accepted by the server's command loop: it replies `MATRIX_RECEIVED` and stores a base
matrix equal to the client's cell for cell and a configuration list equal to the
client's. -/
theorem client_upload_accepted_in_range (cs ss : Sock) (ct : ClientTask) (n : Nat) (cfg : List Int)
    (M : Matrix) (hcs : cs.Healthy) (hss : ss.Healthy) (hne : ∀ f ∈ ss.rx, f ≠ [])
    (hM : IsSquare M n) (hv : ∀ r ∈ M, ∀ v ∈ r, IsInt32 v)
    (hcfg : ∀ v ∈ cfg, IsInt32 v ∧ 0 < v)
    (hn : n * n * 4 < 2 ^ 31) (hc : cfg.length < 2 ^ 29)
    (hwire : (clientUpload cs n cfg M).tx = cs.tx ++ ss.rx.flatten) :
    (serveClient_step ct ss).alive = true ∧
    (serveClient_step ct ss).sock.tx = ss.tx ++ packet (bytesOf "MATRIX_RECEIVED") ∧
    (serveClient_step ct ss).sock.rx.flatten = [] ∧
    (serveClient_step ct ss).ct.baseMatrix = M ∧
    (∀ i j, cell (serveClient_step ct ss).ct.baseMatrix i j = cell M i j) ∧
    (serveClient_step ct ss).ct.threadConfigs = cfg ∧
    (serveClient_step ct ss).spawned = false := by
  have hp31 : (2 : Nat) ^ 31 = 2147483648 := by norm_num
  have hp29 : (2 : Nat) ^ 29 = 536870912 := by norm_num
  rw [hp31] at hn
  rw [hp29] at hc
  have hMlen : M.flatten.length = n * n := by
    rw [(flatten_uniform n M hM.2).1, hM.1]
  have hemit := clientUpload_tx_small cs n cfg M hcs (by rw [hp31]; omega)
    (by rw [hp31, hMlen]; omega)
  rw [hwire] at hemit
  have hrx := List.append_cancel_left hemit
  obtain ⟨_, _, r3, r4, r5, r6⟩ := receiveCommand_packet ss [] (bytesOf "UPLOAD_MATRIX") _ hne
    (by decide) hrx
  rw [serveClient_step_packet ct ss _ _ hne (by decide) hrx, handleCommand_upload]
  have hrx' : (receiveCommand ss []).sock.rx.flatten
      = uploadHeader n cfg ++ (encodeInts cfg ++ (encodeInts M.flatten ++ [])) := by
    rw [r3, List.append_nil]
  obtain ⟨a1, a2, a3, s3, b1, b2, _, b4, b5, _⟩ :=
    upload_accept_encoded ct (receiveCommand ss []).sock r4 n cfg M [] hM hv
      (fun v hv' => (hcfg v hv').1) (by rw [hp31]; omega) (by rw [hp31]; omega) hrx'
  have hs3 : s3.Healthy := fun k => by rw [b5, r6]; exact hss k
  obtain ⟨_, c2, c3, _⟩ := sendCommand_healthy s3 (bytesOf "MATRIX_RECEIVED") hs3 (by decide)
  have hcl : cfg.map clampThreads = cfg := map_clampThreads_pos cfg (fun v hv' => (hcfg v hv').2)
  refine ⟨a1, by rw [b1, c2, b4, r5], ?_, by rw [a3], fun i j => by rw [a3], by rw [a3, hcl], a2⟩
  rw [b1, c3, b2]

theorem client_upload_accepted_in_range_witness :
    (serveClient_step ClientTask.fresh smallUploadSock).alive = true ∧
    (serveClient_step ClientTask.fresh smallUploadSock).sock.tx
      = smallUploadSock.tx ++ packet (bytesOf "MATRIX_RECEIVED") ∧
    (serveClient_step ClientTask.fresh smallUploadSock).sock.rx.flatten = [] ∧
    (serveClient_step ClientTask.fresh smallUploadSock).ct.baseMatrix = [[1, 2], [3, 4]] ∧
    (∀ i j, cell (serveClient_step ClientTask.fresh smallUploadSock).ct.baseMatrix i j
      = cell [[1, 2], [3, 4]] i j) ∧
    (serveClient_step ClientTask.fresh smallUploadSock).ct.threadConfigs = [2, 1] ∧
    (serveClient_step ClientTask.fresh smallUploadSock).spawned = false :=
  client_upload_accepted_in_range demoSock smallUploadSock ClientTask.fresh 2 [2, 1] [[1, 2], [3, 4]]
    (fun _ => (by decide : 0 < 3)) (fun _ => (by decide : 0 < 7)) (by decide) (by decide)
    (by decide) (by decide) (by decide) (by decide) (by decide)

/-! ## lab2: the parallel reductions against the sequential one -/

/-- C17: for every array `a` of `n` ints (its `4 * n` bytes being addressable) and every
`int` `threadsCount`, values below one counting as one thread, `parallel_mutex` and
`parallel_atomic` return exactly the `Result` of `sequential(a, n)`, the same sum of the odd
elements and the same least odd element, which is `INT_MAX` (with sum zero) when none of
the `n` elements is odd, whatever the order `order` in which the threads of `parallel_mutex` take the mutex to merge their
partial results, whatever the orders `orderSum` and `orderMin` in which the `fetch_add`s
and the compare-exchange loops of `parallel_atomic` take effect, and however many spurious
failures `compare_exchange_weak` reports. The three functions are those of
`src/lab2/main.cpp` (lines 20-28, 30-65, 67-112). -/
theorem C17_parallel_matches_sequential (order orderSum orderMin : List Nat)
    (spurious : Nat → Nat) (a : List Int) (n : Nat) (threadsCount : Int)
    (hn : n * 4 < 2 ^ 64) (ht : IsInt32 threadsCount)
    (ho : order.Perm (List.range (threadTotal threadsCount)))
    (hs : orderSum.Perm (List.range (threadTotal threadsCount)))
    (hm : orderMin.Perm (List.range (threadTotal threadsCount))) :
    parallel_mutex_in order a n threadsCount = sequential a n ∧
    parallel_atomic_in orderSum orderMin spurious a n threadsCount = sequential a n ∧
    parallel_mutex a n threadsCount = sequential a n ∧
    parallel_atomic a n threadsCount = sequential a n ∧
    ((∀ i, i < n → isOdd (a.getD i 0) = false) → sequential a n = ⟨0, INT_MAX⟩) :=
  ⟨parallel_mutex_in_eq order a n threadsCount hn ht ho,
    parallel_atomic_in_eq orderSum orderMin spurious a n threadsCount hn ht hs hm,
    parallel_mutex_in_eq _ a n threadsCount hn ht (List.Perm.refl _),
    parallel_atomic_in_eq _ _ _ a n threadsCount hn ht (List.Perm.refl _) (List.Perm.refl _),
    sequential_no_odd a n⟩

theorem C17_parallel_matches_sequential_witness :
    parallel_mutex_in [2, 0, 1] oddsDemo 7 3 = sequential oddsDemo 7 ∧
    parallel_atomic_in [1, 2, 0] [0, 2, 1] (fun t => t) oddsDemo 7 3 = sequential oddsDemo 7 ∧
    parallel_mutex oddsDemo 7 3 = sequential oddsDemo 7 ∧
    parallel_atomic oddsDemo 7 3 = sequential oddsDemo 7 ∧
    ((∀ i, i < 7 → isOdd (oddsDemo.getD i 0) = false) →
      sequential oddsDemo 7 = ⟨0, INT_MAX⟩) :=
  C17_parallel_matches_sequential [2, 0, 1] [1, 2, 0] [0, 2, 1] (fun t => t) oddsDemo 7 3
    (by decide) (by decide) (by decide) (by decide) (by decide)

end ParallelLabs
